import Mathlib

/-!
# Nettis (raylib-jam-2024): board, brick and trace simulation

A shallow embedding of the simulation core of `src/raylib_game.c` and the
properties proved about it.

Conventions of the embedding.

* C `int` coordinates and counters are `Int`; the `unsigned int` direction
  bitmasks are `Nat` with the C operators `&`, `|`, `<<` (they never leave
  the low four bits, so no wrap-around arises).  Signed overflow of the score
  counters is undefined in C and is not modelled.
* `board.Pieces y x` is `Board->Pieces[y][x]`.  The grid is a function on all
  of `Int × Int`; the code reads and writes it at in-bounds indices only.
* The parallel arrays `Xs`, `Ys` of a `trace` together with `Count` are the
  list `Cells` of pairs `(Xs[i], Ys[i])`, `i < Count`.  The arrays have
  `BOARD_HEIGHT*BOARD_WIDTH = 78` entries and the code appends to them without
  a test of `Count`: an append at `Count >= 78` writes outside the arrays.
  `trace.push` returns `none` there, and so does every function that runs into
  such an append.
* `while (f(&s));` loops carry a fuel argument and return `none` when the
  fuel is used up before `f` returns false.
* `rand()`, the keyboard and timer expiry are inputs.
-/

namespace Nettis

/-! ## Types -/

def BOARD_WIDTH : Int := 6
def BOARD_HEIGHT : Int := 13

inductive piece
  | PIECE_EMPTY
  | PIECE_HCONN
  | PIECE_VCONN
  | PIECE_UL
  | PIECE_DL
  | PIECE_DR
  | PIECE_UR
  | PIECE_DST
  | PIECE_JUNK
  | PIECE_FIRE
  deriving DecidableEq, Repr

inductive orientation
  | RIGHT
  | DOWN
  | LEFT
  | UP
  deriving DecidableEq, Repr

open piece orientation

/-- Numeric value of the enum constant (`RIGHT = 0`, ..., `UP = 3`). -/
def orientation.toNat : orientation → Nat
  | RIGHT => 0
  | DOWN => 1
  | LEFT => 2
  | UP => 3

structure board where
  Pieces : Int → Int → piece

structure power_board where
  Incoming : Int → Int → Nat

structure brick where
  x : Int
  y : Int
  Pieces0 : piece
  Pieces1 : piece
  Orientation : orientation
  deriving DecidableEq, Repr

structure trace where
  Cells : List (Int × Int)
  OpenConns : Int
  Junk : Bool
  deriving DecidableEq, Repr

/-- The field `Count`: number of valid entries of `Xs`/`Ys`. -/
def trace.Count (T : trace) : Int := T.Cells.length

/-- The value `(trace){ 0 }`. -/
def trace.zero : trace := { Cells := [], OpenConns := 0, Junk := false }

structure scoring where
  Score : Int
  NodeChain : Int
  WireChain : Int
  Multiplier : Int
  deriving DecidableEq, Repr

/-- The value `(board){ 0 }`: every cell is `PIECE_EMPTY`. -/
def board.zero : board := ⟨fun _ _ => PIECE_EMPTY⟩

/-- The value `(power_board){ 0 }`. -/
def power_board.zero : power_board := ⟨fun _ _ => 0⟩

/-- Assignment `Board->Pieces[y][x] = p`. -/
def board.set (B : board) (y x : Int) (p : piece) : board :=
  ⟨fun y' x' => if y' = y ∧ x' = x then p else B.Pieces y' x'⟩

/-- Assignment `Powers->Incoming[y][x] |= m`. -/
def power_board.orAt (P : power_board) (y x : Int) (m : Nat) : power_board :=
  ⟨fun y' x' => if y' = y ∧ x' = x then P.Incoming y' x' ||| m else P.Incoming y' x'⟩

/-- Appending a cell: `Xs[Count] = x; Ys[Count] = y; Count++`.  The arrays are declared
`int Xs[BOARD_HEIGHT*BOARD_WIDTH]`, `int Ys[BOARD_HEIGHT*BOARD_WIDTH]`; `none` is the write
at an index `Count >= BOARD_HEIGHT*BOARD_WIDTH`, outside the arrays. -/
def trace.push (T : trace) (x y : Int) : Option trace :=
  if T.Count < BOARD_HEIGHT * BOARD_WIDTH then some { T with Cells := T.Cells ++ [(x, y)] }
  else none

/-- The values `0, 1, ..., n-1` of a loop counter `for (int i = 0; i < n; i++)`. -/
def upto (n : Nat) : List Int := (List.range n).map Int.ofNat

/-- Cells in the order of `for y < BOARD_HEIGHT` / `for x < BOARD_WIDTH`, as `(x, y)`. -/
def rasterOrder : List (Int × Int) :=
  (upto 13).flatMap fun y => (upto 6).map fun x => (x, y)

/-! ## Piece rules -/

def Trace_Contains_go : List (Int × Int) → Int → Int → Bool
  | [], _, _ => false
  | c :: rest, x, y => if c.1 = x ∧ c.2 = y then true else Trace_Contains_go rest x y

def Trace_Contains (T : trace) (x y : Int) : Bool :=
  Trace_Contains_go T.Cells x y

def Orientation_Flip : orientation → orientation
  | RIGHT => LEFT
  | LEFT => RIGHT
  | DOWN => UP
  | UP => DOWN

/-- The mask `1<<o`. -/
def bit (o : orientation) : Nat := 1 <<< o.toNat

def Piece_IncomingOrientations : piece → Nat
  | PIECE_EMPTY => 0
  | PIECE_HCONN => bit RIGHT ||| bit LEFT
  | PIECE_VCONN => bit DOWN ||| bit UP
  | PIECE_UL => bit DOWN ||| bit RIGHT
  | PIECE_DL => bit UP ||| bit RIGHT
  | PIECE_DR => bit UP ||| bit LEFT
  | PIECE_UR => bit DOWN ||| bit LEFT
  | PIECE_DST => bit RIGHT ||| bit LEFT ||| bit DOWN ||| bit UP
  | PIECE_JUNK => 0
  | PIECE_FIRE => 0

def Piece_OutgoingOrientations : piece → Nat
  | PIECE_EMPTY => 0
  | PIECE_HCONN => bit RIGHT ||| bit LEFT
  | PIECE_VCONN => bit DOWN ||| bit UP
  | PIECE_UL => bit UP ||| bit LEFT
  | PIECE_DL => bit DOWN ||| bit LEFT
  | PIECE_DR => bit DOWN ||| bit RIGHT
  | PIECE_UR => bit UP ||| bit RIGHT
  | PIECE_DST => bit RIGHT ||| bit LEFT ||| bit DOWN ||| bit UP
  | PIECE_JUNK => 0
  | PIECE_FIRE => bit RIGHT ||| bit LEFT ||| bit DOWN ||| bit UP

def Piece_Rotate : piece → piece
  | PIECE_EMPTY => PIECE_EMPTY
  | PIECE_HCONN => PIECE_VCONN
  | PIECE_VCONN => PIECE_HCONN
  | PIECE_UL => PIECE_UR
  | PIECE_DL => PIECE_UL
  | PIECE_DR => PIECE_DL
  | PIECE_UR => PIECE_DR
  | PIECE_DST => PIECE_DST
  | PIECE_JUNK => PIECE_JUNK
  | PIECE_FIRE => PIECE_FIRE

def Piece_IsConnectionType : piece → Bool
  | PIECE_HCONN => true
  | PIECE_VCONN => true
  | PIECE_UL => true
  | PIECE_DL => true
  | PIECE_DR => true
  | PIECE_UR => true
  | _ => false

/-! ## Board queries -/

def Board_IsOob (_B : board) (x y : Int) : Bool :=
  decide (x < 0) || decide (x ≥ BOARD_WIDTH) || decide (y < 0) || decide (y ≥ BOARD_HEIGHT)

def Board_IsOccupied (B : board) (x y : Int) : Bool :=
  if Board_IsOob B x y then true
  else decide (B.Pieces y x ≠ PIECE_EMPTY)

/-! ## Bricks -/

def Brick_Rotate (Brick : brick) : brick :=
  { Brick with
    Orientation :=
      match Brick.Orientation with
      | RIGHT => DOWN
      | DOWN => LEFT
      | LEFT => UP
      | UP => RIGHT
    Pieces0 := Piece_Rotate Brick.Pieces0
    Pieces1 := Piece_Rotate Brick.Pieces1 }

def Brick_Move (Brick : brick) (dx dy : Int) : brick :=
  { Brick with x := Brick.x + dx, y := Brick.y + dy }

/-- The table `CHANCE_TBL` of `Brick_Random`. -/
def CHANCE_TBL : List piece :=
  [PIECE_HCONN, PIECE_HCONN, PIECE_HCONN, PIECE_VCONN, PIECE_VCONN, PIECE_VCONN,
   PIECE_UL, PIECE_DL, PIECE_DR, PIECE_UR, PIECE_DST, PIECE_DST, PIECE_JUNK, PIECE_FIRE]

inductive brick_type
  | TYPE_CONNECTION
  | TYPE_JUNK
  | TYPE_RANDOM
  | TYPE_DEST
  | TYPE_FIRE
  deriving DecidableEq, Repr

open brick_type

/-- The table `TYPE_CHANCE_TBL` of `Brick_Random`. -/
def TYPE_CHANCE_TBL : List brick_type :=
  [TYPE_CONNECTION, TYPE_CONNECTION, TYPE_CONNECTION, TYPE_JUNK, TYPE_RANDOM, TYPE_RANDOM,
   TYPE_DEST, TYPE_FIRE]

/-- The cast of `rand() % 2` to `orientation`. -/
def orientation.cast (n : Nat) : orientation :=
  if n = 0 then RIGHT else if n = 1 then DOWN else if n = 2 then LEFT else UP

/-- The `switch` on the brick type of the rejection loop: true when the drawn pair is returned. -/
def Brick_Random_accepts (Ty : brick_type) (NewBrick : brick) : Bool :=
  let DirFrom := Piece_OutgoingOrientations NewBrick.Pieces0
  let DirTo := Piece_IncomingOrientations NewBrick.Pieces1
  match Ty with
  | TYPE_CONNECTION =>
    if !(Piece_IsConnectionType NewBrick.Pieces0 || Piece_IsConnectionType NewBrick.Pieces1) then
      false
    else if DirFrom &&& DirTo &&& bit NewBrick.Orientation ≠ 0 then true
    else false
  | TYPE_JUNK =>
    if NewBrick.Pieces0 ≠ PIECE_JUNK ∧ NewBrick.Pieces1 ≠ PIECE_JUNK then false else true
  | TYPE_RANDOM =>
    if NewBrick.Pieces0 = PIECE_JUNK ∨ NewBrick.Pieces1 = PIECE_JUNK then false else true
  | TYPE_DEST =>
    if NewBrick.Pieces0 = PIECE_JUNK ∨ NewBrick.Pieces1 = PIECE_JUNK then false
    else if NewBrick.Pieces0 ≠ PIECE_DST ∧ NewBrick.Pieces1 ≠ PIECE_DST then false
    else if NewBrick.Pieces0 = PIECE_DST ∧ NewBrick.Pieces1 = PIECE_DST then false
    else true
  | TYPE_FIRE => false

/-- The `while (true)` rejection loop of `Brick_Random`; each pass consumes two results of
`rand()`.  `none` when the results run out before a pair is returned. -/
def Brick_Random_loop (Ty : brick_type) (NewBrick : brick) : List Nat → Option brick
  | r0 :: r1 :: rest =>
    let b := { NewBrick with
      Pieces0 := CHANCE_TBL.getD (r0 % 14) PIECE_EMPTY
      Pieces1 := CHANCE_TBL.getD (r1 % 14) PIECE_EMPTY }
    if b.Pieces0 = PIECE_FIRE ∨ b.Pieces1 = PIECE_FIRE then Brick_Random_loop Ty b rest
    else if Brick_Random_accepts Ty b then some b
    else Brick_Random_loop Ty b rest
  | _ => none

/-- The brick type drawn by `TYPE_CHANCE_TBL[rand() % 8]`. -/
def Brick_Random_type (r : Nat) : brick_type :=
  TYPE_CHANCE_TBL.getD (r % 8) TYPE_CONNECTION

/-- The function `Brick_Random`, reading the successive results of `rand()` from a list.
`Pieces` of the local `NewBrick` are uninitialised before the first assignment; they are
taken as `PIECE_EMPTY` here and are always overwritten before the brick is returned. -/
def Brick_Random : List Nat → Option brick
  | rOrient :: rType :: rest =>
    let NewBrick : brick :=
      { x := 6 / 2 - 1, y := 0, Pieces0 := PIECE_EMPTY, Pieces1 := PIECE_EMPTY
        Orientation := orientation.cast (rOrient % 2) }
    let Ty := Brick_Random_type rType
    if Ty = TYPE_FIRE then
      some { NewBrick with Pieces0 := PIECE_FIRE, Pieces1 := PIECE_EMPTY }
    else Brick_Random_loop Ty NewBrick rest
  | _ => none

/-- The function `Brick_Locations`: the pair `((x[0], y[0]), (x[1], y[1]))`. -/
def Brick_Locations (Brick : brick) : (Int × Int) × (Int × Int) :=
  match Brick.Orientation with
  | RIGHT => ((Brick.x, Brick.y), (Brick.x + 1, Brick.y))
  | DOWN => ((Brick.x, Brick.y), (Brick.x, Brick.y + 1))
  | LEFT => ((Brick.x, Brick.y), (Brick.x - 1, Brick.y))
  | UP => ((Brick.x, Brick.y), (Brick.x, Brick.y - 1))

/-! ## Board updates -/

def Board_PutTileSafe (B : board) (x y : Int) (Piece : piece) : board :=
  if Piece = PIECE_EMPTY then B
  else if x ≥ 0 ∧ x < BOARD_WIDTH ∧ y ≥ 0 ∧ y < BOARD_HEIGHT then B.set y x Piece
  else B

def Board_PutBrick (B : board) (Brick : brick) : board :=
  let l := Brick_Locations Brick
  Board_PutTileSafe (Board_PutTileSafe B l.1.1 l.1.2 Brick.Pieces0) l.2.1 l.2.2 Brick.Pieces1

def Board_ShouldPlaceBrick (B : board) (Brick : brick) : Bool :=
  let l := Brick_Locations Brick
  if Brick.Pieces0 ≠ PIECE_EMPTY ∧ Board_IsOccupied B l.1.1 l.1.2 then true
  else if Brick.Pieces1 ≠ PIECE_EMPTY ∧ Board_IsOccupied B l.2.1 l.2.2 then true
  else false

/-- Body of the inner loop of `Board_GravityStep`; the state is `(*Board, HasMoved)`. -/
def Board_GravityStep_cell (y : Int) (s : board × Bool) (x : Int) : board × Bool :=
  if s.1.Pieces y x = PIECE_EMPTY ∨ s.1.Pieces (y + 1) x ≠ PIECE_EMPTY then s
  else
    let Piece := s.1.Pieces y x
    ((s.1.set y x PIECE_EMPTY).set (y + 1) x Piece, true)

/-- Body of the outer loop of `Board_GravityStep`. -/
def Board_GravityStep_row (s : board × Bool) (y : Int) : board × Bool :=
  (upto 6).foldl (Board_GravityStep_cell y) s

def Board_GravityStep (B : board) : Bool × board :=
  let r := (upto 12).foldl Board_GravityStep_row (B, false)
  (r.2, r.1)

/-- The offsets `Positions[8]` of `Board_CleanSurroundings`. -/
def CleanPositions : List (Int × Int) :=
  [(0, 1), (1, 0), (0, -1), (-1, 0), (1, 1), (-1, 1), (1, -1), (-1, -1)]

def Board_CleanSurroundings_pos (x y : Int) (B : board) (d : Int × Int) : board :=
  let x2 := x + d.1
  let y2 := y + d.2
  if Board_IsOob B x2 y2 then B
  else if B.Pieces y2 x2 = PIECE_JUNK then B.set y2 x2 PIECE_EMPTY
  else B

def Board_CleanSurroundings (B : board) (x y : Int) : board :=
  CleanPositions.foldl (Board_CleanSurroundings_pos x y) B

/-! ## Generic `while (f(&s));` loop -/

/-- Runs `step` until it returns false, at most `fuel` calls; `none` when the
call number `fuel` still returned true. -/
def whileTrue {σ : Type} (step : σ → Bool × σ) : Nat → σ → Option σ
  | 0, _ => none
  | fuel + 1, s =>
    match step s with
    | (true, s') => whileTrue step fuel s'
    | (false, s') => some s'

/-- The same loop for a body that can fail: `none` also when a call of `step` fails. -/
def whileTrueOpt {σ : Type} (step : σ → Option (Bool × σ)) : Nat → σ → Option σ
  | 0, _ => none
  | fuel + 1, s =>
    match step s with
    | none => none
    | some (true, s') => whileTrueOpt step fuel s'
    | some (false, s') => some s'

/-- A `for` loop over the elements of a list whose body can fail. -/
def foldlOpt {σ α : Type} (f : σ → α → Option σ) : σ → List α → Option σ
  | s, [] => some s
  | s, a :: rest =>
    match f s a with
    | none => none
    | some s' => foldlOpt f s' rest

/-! ## Board_BumpBrick -/

/-- Body of the first `while (true)` of `Board_BumpBrick` (one of the pieces is Empty):
`(true, b)` when the loop goes on with `b`, `(false, b)` at `break`. -/
def Board_BumpBrick_step1 (NewBrick : brick) : Bool × brick :=
  let x := NewBrick.x
  let y := NewBrick.y
  if x < 0 then (true, { NewBrick with x := NewBrick.x + 1 })
  else if x ≥ BOARD_WIDTH then (true, { NewBrick with x := NewBrick.x - 1 })
  else if y < 0 then (true, { NewBrick with y := NewBrick.y + 1 })
  else (false, NewBrick)

/-- Body of the second `while (true)` of `Board_BumpBrick` (no piece is Empty). -/
def Board_BumpBrick_step2 (NewBrick : brick) : Bool × brick :=
  let l := Brick_Locations NewBrick
  if l.1.1 < 0 ∨ l.2.1 < 0 then (true, { NewBrick with x := NewBrick.x + 1 })
  else if l.1.1 ≥ BOARD_WIDTH ∨ l.2.1 ≥ BOARD_WIDTH then
    (true, { NewBrick with x := NewBrick.x - 1 })
  else if l.1.2 < 0 ∨ l.2.2 < 0 then (true, { NewBrick with y := NewBrick.y + 1 })
  else (false, NewBrick)

def Board_BumpBrick (fuel : Nat) (_B : board) (Brick : brick) : Option brick :=
  if Brick.Pieces0 = PIECE_EMPTY ∨ Brick.Pieces1 = PIECE_EMPTY then
    whileTrue Board_BumpBrick_step1 fuel Brick
  else whileTrue Board_BumpBrick_step2 fuel Brick

/-- Number of passes the first loop of `Board_BumpBrick` still needs. -/
def bumpMeasure1 (b : brick) : Nat :=
  (-b.x).toNat + (b.x - 5).toNat + (-b.y).toNat

/-- Number of passes the second loop of `Board_BumpBrick` still needs. -/
def bumpMeasure2 (b : brick) : Nat :=
  (-(min (Brick_Locations b).1.1 (Brick_Locations b).2.1)).toNat +
    (max (Brick_Locations b).1.1 (Brick_Locations b).2.1 - 5).toNat +
    (-(min (Brick_Locations b).1.2 (Brick_Locations b).2.2)).toNat

/-! ## Power trace -/

/-- The array `Positions[4]` of the trace iterations. -/
def Positions (x y : Int) : List (Int × Int × orientation) :=
  [(x - 1, y, LEFT), (x + 1, y, RIGHT), (x, y - 1, UP), (x, y + 1, DOWN)]

/-- Local state of `Board_DoTraceIter`: `NewTrace`, `*Powers`, `HasIter`. -/
structure trace_iter where
  NewTrace : trace
  Powers : power_board
  HasIter : Bool

/-- Body of the inner `for (int i = 0; i < 4; i++)` loop of `Board_DoTraceIter`; `none`
when the append writes outside `NewTrace.Xs`/`NewTrace.Ys`. -/
def Board_DoTraceIter_pos (B : board) (T : trace) (Piece : piece) (s : trace_iter)
    (pos : Int × Int × orientation) : Option trace_iter :=
  let x := pos.1
  let y := pos.2.1
  if Board_IsOob B x y || Trace_Contains T x y then some s
  else
    let OtherPiece := B.Pieces y x
    if OtherPiece = PIECE_DST ∧ Piece = PIECE_DST then some s
    else
      let DirFrom := Piece_OutgoingOrientations Piece
      let DirTo := Piece_IncomingOrientations OtherPiece
      if DirFrom &&& DirTo &&& bit pos.2.2 = 0 then some s
      else
        match s.NewTrace.push x y with
        | none => none
        | some NewTrace =>
          some { NewTrace := NewTrace
                 Powers := s.Powers.orAt y x (bit (Orientation_Flip pos.2.2))
                 HasIter := true }

/-- Body of the outer `for (int i = 0; i < Trace->Count; i++)` loop. -/
def Board_DoTraceIter_cell (B : board) (T : trace) (s : trace_iter) (c : Int × Int) :
    Option trace_iter :=
  let Piece := B.Pieces c.2 c.1
  foldlOpt (Board_DoTraceIter_pos B T Piece) s (Positions c.1 c.2)

/-- One call of `Board_DoTraceIter`: the returned flag with the new values of `*Trace` and
`*Powers`; `none` when an append of the pass writes outside the arrays. -/
def Board_DoTraceIter (B : board) (s : trace × power_board) :
    Option (Bool × (trace × power_board)) :=
  match foldlOpt (Board_DoTraceIter_cell B s.1)
      { NewTrace := s.1, Powers := s.2, HasIter := false } s.1.Cells with
  | none => none
  | some r => some (r.HasIter, (r.NewTrace, r.Powers))

def Board_Trace (fuel : Nat) (B : board) (x y : Int) (Powers : power_board) :
    Option (trace × power_board) :=
  whileTrueOpt (Board_DoTraceIter B) fuel ({ trace.zero with Cells := [(x, y)] }, Powers)

/-- Filter loop of `Board_TraceFilter`: `acc` is `NewTrace` restricted to its first `Count` cells. -/
def Board_TraceFilter_go (B : board) (Powers : power_board) :
    List (Int × Int) → List (Int × Int) → List (Int × Int)
  | [], acc => acc
  | c :: rest, acc =>
    let Piece := B.Pieces c.2 c.1
    if !Piece_IsConnectionType Piece then
      Board_TraceFilter_go B Powers rest (acc ++ [c])
    else
      let DirFrom := Piece_OutgoingOrientations Piece
      if Powers.Incoming c.2 c.1 &&& DirFrom ≠ DirFrom then
        Board_TraceFilter_go B Powers rest acc
      else
        Board_TraceFilter_go B Powers rest (acc ++ [c])

def Board_TraceFilter (B : board) (T : trace) (Powers : power_board) : trace :=
  { T with Cells := Board_TraceFilter_go B Powers T.Cells [] }

/-! ## Junk trace and fire trace -/

/-- Local state of `Board_DoTraceIterJunk` / `Board_DoTraceIterFire`: `NewTrace`, `HasIter`. -/
structure trace_iter2 where
  NewTrace : trace
  HasIter : Bool

def Board_DoTraceIterJunk_pos (B : board) (T : trace) (Piece : piece) (s : trace_iter2)
    (pos : Int × Int × orientation) : Option trace_iter2 :=
  let x := pos.1
  let y := pos.2.1
  let DirFrom := Piece_OutgoingOrientations Piece
  if DirFrom &&& bit pos.2.2 = 0 then some s
  else if Trace_Contains T x y then some s
  else if Board_IsOob B x y then some { s with NewTrace := { s.NewTrace with Junk := true } }
  else
    let OtherPiece := B.Pieces y x
    if OtherPiece = PIECE_DST then some s
    else
      let DirTo := Piece_IncomingOrientations OtherPiece
      if DirFrom &&& DirTo &&& bit pos.2.2 = 0 then
        if OtherPiece = PIECE_EMPTY then
          some { s with NewTrace := { s.NewTrace with OpenConns := s.NewTrace.OpenConns + 1 } }
        else some s
      else
        match { s.NewTrace with OpenConns := s.NewTrace.OpenConns + 1 }.push x y with
        | none => none
        | some NewTrace => some { NewTrace := NewTrace, HasIter := true }

def Board_DoTraceIterJunk_cell (B : board) (T : trace) (s : trace_iter2) (c : Int × Int) :
    Option trace_iter2 :=
  let Piece := B.Pieces c.2 c.1
  foldlOpt (Board_DoTraceIterJunk_pos B T Piece) s (Positions c.1 c.2)

def Board_DoTraceIterJunk (B : board) (T : trace) : Option (Bool × trace) :=
  match foldlOpt (Board_DoTraceIterJunk_cell B T) { NewTrace := T, HasIter := false } T.Cells with
  | none => none
  | some r => some (r.HasIter, r.NewTrace)

def Board_DoTraceIterFire_pos (B : board) (T : trace) (Piece : piece) (s : trace_iter2)
    (pos : Int × Int × orientation) : Option trace_iter2 :=
  let x := pos.1
  let y := pos.2.1
  if Board_IsOob B x y || Trace_Contains T x y then some s
  else
    let OtherPiece := B.Pieces y x
    if !Piece_IsConnectionType OtherPiece then some s
    else
      let DirFrom := Piece_OutgoingOrientations Piece
      let DirTo := Piece_IncomingOrientations OtherPiece
      if DirFrom &&& DirTo &&& bit pos.2.2 = 0 then some s
      else
        match s.NewTrace.push x y with
        | none => none
        | some NewTrace => some { NewTrace := NewTrace, HasIter := true }

def Board_DoTraceIterFire_cell (B : board) (T : trace) (s : trace_iter2) (c : Int × Int) :
    Option trace_iter2 :=
  let Piece := B.Pieces c.2 c.1
  if Piece ≠ PIECE_FIRE ∧ !Piece_IsConnectionType Piece then some s
  else foldlOpt (Board_DoTraceIterFire_pos B T Piece) s (Positions c.1 c.2)

def Board_DoTraceIterFire (B : board) (T : trace) : Option (Bool × trace) :=
  match foldlOpt (Board_DoTraceIterFire_cell B T) { NewTrace := T, HasIter := false } T.Cells with
  | none => none
  | some r => some (r.HasIter, r.NewTrace)

def Board_TraceJunk (fuel : Nat) (B : board) (x y : Int) : Option trace :=
  whileTrueOpt (Board_DoTraceIterJunk B) fuel { trace.zero with Cells := [(x, y)] }

def Board_TraceFire (fuel : Nat) (B : board) (x y : Int) : Option trace :=
  whileTrueOpt (Board_DoTraceIterFire B) fuel { trace.zero with Cells := [(x, y)] }

/-! ## Trace selection -/

/-- Second statement of the body of the first raster loop of `Board_GetTrace`:
a Destination cell is traced for its effect on `Powers` only. -/
def Board_GetTrace_power (fuel : Nat) (B : board) (c : Int × Int) (Powers : power_board) :
    Option power_board :=
  if B.Pieces c.2 c.1 = PIECE_DST then
    (Board_Trace fuel B c.1 c.2 Powers).map fun r => r.2
  else some Powers

/-- First raster loop of `Board_GetTrace` over the remaining cells: `(some T, P)` when a
fire trace `T` is returned from inside the loop, `(none, P)` when the loop runs to its end. -/
def Board_GetTrace_scanFire (fuel : Nat) (B : board) :
    List (Int × Int) → power_board → Option (Option trace × power_board)
  | [], Powers => some (none, Powers)
  | c :: rest, Powers =>
    if B.Pieces c.2 c.1 = PIECE_FIRE then
      match Board_TraceFire fuel B c.1 c.2 with
      | none => none
      | some T =>
        if T.Count > 1 then some (some T, Powers)
        else
          match Board_GetTrace_power fuel B c Powers with
          | none => none
          | some P => Board_GetTrace_scanFire fuel B rest P
    else
      match Board_GetTrace_power fuel B c Powers with
      | none => none
      | some P => Board_GetTrace_scanFire fuel B rest P

/-- Second raster loop of `Board_GetTrace`, ending in `return (trace){ 0 }`. -/
def Board_GetTrace_scanDst (fuel : Nat) (B : board) :
    List (Int × Int) → power_board → Option (trace × power_board)
  | [], Powers => some (trace.zero, Powers)
  | c :: rest, Powers =>
    if B.Pieces c.2 c.1 = PIECE_DST then
      match Board_Trace fuel B c.1 c.2 Powers with
      | none => none
      | some r =>
        let T := Board_TraceFilter B r.1 r.2
        if T.Count > 1 then some (T, r.2)
        else Board_GetTrace_scanDst fuel B rest r.2
    else Board_GetTrace_scanDst fuel B rest Powers

def Board_GetTrace (fuel : Nat) (B : board) (Powers : power_board) :
    Option (trace × power_board) :=
  match Board_GetTrace_scanFire fuel B rasterOrder Powers with
  | none => none
  | some (some T, P) => some (T, P)
  | some (none, P) => Board_GetTrace_scanDst fuel B rasterOrder P

def Board_GetTraceJunk_scan (fuel : Nat) (B : board) : List (Int × Int) → Option trace
  | [] => some trace.zero
  | c :: rest =>
    if Piece_IsConnectionType (B.Pieces c.2 c.1) then
      match Board_TraceJunk fuel B c.1 c.2 with
      | none => none
      | some T => if T.Junk then some T else Board_GetTraceJunk_scan fuel B rest
    else Board_GetTraceJunk_scan fuel B rest

def Board_GetTraceJunk (fuel : Nat) (B : board) : Option trace :=
  Board_GetTraceJunk_scan fuel B rasterOrder

/-! ## Gameplay sequencer -/

/-- The struct `gameplay` without its three `timer` fields: whether a timer has expired is
an input of `GP_Update`. -/
structure gameplay where
  Powers : power_board
  Board : board
  Brick : brick
  Trace : trace
  TraceJunk : trace
  TraceIndex : Int
  TraceJunkIndex : Int
  Scoring : scoring

/-- What one call of `GP_Update` reads from outside the `gameplay` struct:
`Down` is `IsKeyPressed(KEY_DOWN) || IsKeyPressedRepeat(KEY_DOWN)` and likewise `Left`,
`Right`, `Z`; `TraceExpired`, `JunkExpired`, `GravityExpired` are the results of
`Timer_IsExpired` on the three timers; `Rand` lists the successive results of `rand()`. -/
structure input where
  Down : Bool
  Left : Bool
  Right : Bool
  Z : Bool
  TraceExpired : Bool
  JunkExpired : Bool
  GravityExpired : Bool
  Rand : List Nat

/-- Read of `Trace->Xs[i]`, `Trace->Ys[i]`; `none` outside `0 <= i < Count`. -/
def trace.cellAt (T : trace) (i : Int) : Option (Int × Int) :=
  if i < 0 then none else T.Cells.get? i.toNat

/-- The playback step of `GP_Update` on the traced cell `(x, y)`, once the trace timer has
expired. -/
def GP_Update_clear (G : gameplay) (x y : Int) : gameplay :=
  let NodeChain :=
    if G.Board.Pieces y x = PIECE_DST then G.Scoring.NodeChain + 1 else G.Scoring.NodeChain
  let WireChain := G.Scoring.WireChain + 1
  let Board := G.Board.set y x PIECE_EMPTY
  let Score := G.Scoring.Score + 10 * G.Scoring.Multiplier * (NodeChain + 1) * (WireChain + 1)
  { G with
    Scoring := { G.Scoring with NodeChain := NodeChain, WireChain := WireChain, Score := Score }
    Board := Board_CleanSurroundings Board x y
    TraceIndex := G.TraceIndex + 1 }

/-- The key chain of `GP_Update`: `(dx, dy)` as the chain leaves them and the value of
`Gameplay->Brick` after it (changed by an accepted rotation only). -/
def GP_Update_keys (inp : input) (B : board) (Brick : brick) : Int × Int × brick :=
  if inp.Down then (0, 1, Brick)
  else if inp.Left then (-1, 0, Brick)
  else if inp.Right then (1, 0, Brick)
  else if inp.Z then
    let NewBrick := Brick_Rotate Brick
    (0, 0, if Board_ShouldPlaceBrick B NewBrick then Brick else NewBrick)
  else (0, 0, Brick)

/-- The value of `dy` after the gravity-timer test. -/
def GP_Update_dy (inp : input) (B : board) (Brick : brick) : Int :=
  if inp.GravityExpired then (GP_Update_keys inp B Brick).2.1 + 1
  else (GP_Update_keys inp B Brick).2.1

/-- The block `if (dx != 0 || dy != 0) { ... }` of `GP_Update`. -/
def GP_Update_move (inp : input) (dx dy : Int) (G : gameplay) : Option gameplay :=
  if dx ≠ 0 ∨ dy ≠ 0 then
    let NewBrick := Brick_Move G.Brick dx dy
    if Board_ShouldPlaceBrick G.Board NewBrick then
      if dy ≠ 0 then
        let Board := Board_PutBrick G.Board G.Brick
        match Brick_Random inp.Rand with
        | none => none
        | some Brick =>
          if Board_ShouldPlaceBrick Board Brick then
            some { G with
              Brick := Brick
              Scoring := { Score := 0, NodeChain := 0, WireChain := 0, Multiplier := 0 }
              Board := board.zero }
          else some { G with Brick := Brick, Board := Board }
      else some G
    else some { G with Brick := NewBrick }
  else some G

/-- The part of `GP_Update` after the two playback blocks (from the test of the two
`Count` fields on). -/
def GP_Update_idle (fuel : Nat) (inp : input) (G0 : gameplay) : Option gameplay :=
  if G0.TraceJunk.Count ≠ 0 ∨ G0.Trace.Count ≠ 0 then some G0
  else
    let G1 := { G0 with
      Scoring := { G0.Scoring with NodeChain := 0, WireChain := 0, Multiplier := 0 } }
    let dx := (GP_Update_keys inp G1.Board G1.Brick).1
    let dy := GP_Update_dy inp G1.Board G1.Brick
    let G2 := { G1 with Brick := (GP_Update_keys inp G1.Board G1.Brick).2.2 }
    match GP_Update_move inp dx dy G2 with
    | none => none
    | some G3 =>
      match whileTrue Board_GravityStep fuel G3.Board with
      | none => none
      | some Board => some { G3 with Board := Board }

/-- The junk playback block of `GP_Update` and what follows it. -/
def GP_Update_junk (fuel : Nat) (inp : input) (G : gameplay) : Option gameplay :=
  if G.TraceJunkIndex ≥ G.TraceJunk.Count then
    match Board_GetTraceJunk fuel G.Board with
    | none => none
    | some T =>
      GP_Update_idle fuel inp { G with
        Scoring := { G.Scoring with Multiplier := G.Scoring.Multiplier + 1 }
        TraceJunkIndex := 0
        TraceJunk := T }
  else if inp.JunkExpired then
    match G.TraceJunk.cellAt G.TraceJunkIndex with
    | none => none
    | some c =>
      some { G with
        Board := G.Board.set c.2 c.1 PIECE_JUNK
        TraceJunkIndex := G.TraceJunkIndex + 1 }
  else some G

/-- The function `GP_Update`; `none` when a loop runs out of fuel, `rand()` results run
out, a trace array is read outside `0 <= i < Count`, or a trace array is written outside
its `BOARD_HEIGHT*BOARD_WIDTH` entries. -/
def GP_Update (fuel : Nat) (inp : input) (G : gameplay) : Option gameplay :=
  let G0 := { G with Powers := power_board.zero }
  if G0.TraceIndex ≥ G0.Trace.Count then
    match Board_GetTrace fuel G0.Board G0.Powers with
    | none => none
    | some r =>
      GP_Update_junk fuel inp { G0 with
        Scoring := { G0.Scoring with Multiplier := G0.Scoring.Multiplier + 1 }
        TraceIndex := 0
        Trace := r.1
        Powers := r.2 }
  else if inp.TraceExpired then
    match G0.Trace.cellAt G0.TraceIndex with
    | none => none
    | some c => some (GP_Update_clear G0 c.1 c.2)
  else some G0

/-! ## The trace passes on lists of any length

The functions of this section are the passes and loops above with the test of the capacity
left out (`trace.snoc` for `trace.push`).  They describe which cells a pass appends; the
theorems `Board_Trace_eq`, `Board_TraceFire_eq` and `Board_TraceJunk_eq` relate them to the
functions above: a trace loop returns what the loop of this section returns when that has at
most `BOARD_HEIGHT*BOARD_WIDTH` cells, and fails otherwise. -/

/-- Appending a cell to a list of any length. -/
def trace.snoc (T : trace) (x y : Int) : trace :=
  { T with Cells := T.Cells ++ [(x, y)] }

/-- The cells of the trace fit the arrays `Xs`, `Ys`. -/
def trace.fits (T : trace) : Bool := decide (T.Count ≤ BOARD_HEIGHT * BOARD_WIDTH)

def Board_DoTraceIter_pos_list (B : board) (T : trace) (Piece : piece) (s : trace_iter)
    (pos : Int × Int × orientation) : trace_iter :=
  let x := pos.1
  let y := pos.2.1
  if Board_IsOob B x y || Trace_Contains T x y then s
  else
    let OtherPiece := B.Pieces y x
    if OtherPiece = PIECE_DST ∧ Piece = PIECE_DST then s
    else
      let DirFrom := Piece_OutgoingOrientations Piece
      let DirTo := Piece_IncomingOrientations OtherPiece
      if DirFrom &&& DirTo &&& bit pos.2.2 = 0 then s
      else
        { NewTrace := s.NewTrace.snoc x y
          Powers := s.Powers.orAt y x (bit (Orientation_Flip pos.2.2))
          HasIter := true }

def Board_DoTraceIter_cell_list (B : board) (T : trace) (s : trace_iter) (c : Int × Int) : trace_iter :=
  let Piece := B.Pieces c.2 c.1
  (Positions c.1 c.2).foldl (Board_DoTraceIter_pos_list B T Piece) s

def Board_DoTraceIter_list (B : board) (s : trace × power_board) : Bool × (trace × power_board) :=
  let r := s.1.Cells.foldl (Board_DoTraceIter_cell_list B s.1)
    { NewTrace := s.1, Powers := s.2, HasIter := false }
  (r.HasIter, (r.NewTrace, r.Powers))

def Board_Trace_list (fuel : Nat) (B : board) (x y : Int) (Powers : power_board) :
    Option (trace × power_board) :=
  whileTrue (Board_DoTraceIter_list B) fuel ({ trace.zero with Cells := [(x, y)] }, Powers)

def Board_DoTraceIterJunk_pos_list (B : board) (T : trace) (Piece : piece) (s : trace_iter2)
    (pos : Int × Int × orientation) : trace_iter2 :=
  let x := pos.1
  let y := pos.2.1
  let DirFrom := Piece_OutgoingOrientations Piece
  if DirFrom &&& bit pos.2.2 = 0 then s
  else if Trace_Contains T x y then s
  else if Board_IsOob B x y then { s with NewTrace := { s.NewTrace with Junk := true } }
  else
    let OtherPiece := B.Pieces y x
    if OtherPiece = PIECE_DST then s
    else
      let DirTo := Piece_IncomingOrientations OtherPiece
      if DirFrom &&& DirTo &&& bit pos.2.2 = 0 then
        if OtherPiece = PIECE_EMPTY then
          { s with NewTrace := { s.NewTrace with OpenConns := s.NewTrace.OpenConns + 1 } }
        else s
      else
        { NewTrace := { s.NewTrace with OpenConns := s.NewTrace.OpenConns + 1 }.snoc x y
          HasIter := true }

def Board_DoTraceIterJunk_cell_list (B : board) (T : trace) (s : trace_iter2) (c : Int × Int) :
    trace_iter2 :=
  let Piece := B.Pieces c.2 c.1
  (Positions c.1 c.2).foldl (Board_DoTraceIterJunk_pos_list B T Piece) s

def Board_DoTraceIterJunk_list (B : board) (T : trace) : Bool × trace :=
  let r := T.Cells.foldl (Board_DoTraceIterJunk_cell_list B T) { NewTrace := T, HasIter := false }
  (r.HasIter, r.NewTrace)

def Board_DoTraceIterFire_pos_list (B : board) (T : trace) (Piece : piece) (s : trace_iter2)
    (pos : Int × Int × orientation) : trace_iter2 :=
  let x := pos.1
  let y := pos.2.1
  if Board_IsOob B x y || Trace_Contains T x y then s
  else
    let OtherPiece := B.Pieces y x
    if !Piece_IsConnectionType OtherPiece then s
    else
      let DirFrom := Piece_OutgoingOrientations Piece
      let DirTo := Piece_IncomingOrientations OtherPiece
      if DirFrom &&& DirTo &&& bit pos.2.2 = 0 then s
      else { NewTrace := s.NewTrace.snoc x y, HasIter := true }

def Board_DoTraceIterFire_cell_list (B : board) (T : trace) (s : trace_iter2) (c : Int × Int) :
    trace_iter2 :=
  let Piece := B.Pieces c.2 c.1
  if Piece ≠ PIECE_FIRE ∧ !Piece_IsConnectionType Piece then s
  else (Positions c.1 c.2).foldl (Board_DoTraceIterFire_pos_list B T Piece) s

def Board_DoTraceIterFire_list (B : board) (T : trace) : Bool × trace :=
  let r := T.Cells.foldl (Board_DoTraceIterFire_cell_list B T) { NewTrace := T, HasIter := false }
  (r.HasIter, r.NewTrace)

def Board_TraceJunk_list (fuel : Nat) (B : board) (x y : Int) : Option trace :=
  whileTrue (Board_DoTraceIterJunk_list B) fuel { trace.zero with Cells := [(x, y)] }

def Board_TraceFire_list (fuel : Nat) (B : board) (x y : Int) : Option trace :=
  whileTrue (Board_DoTraceIterFire_list B) fuel { trace.zero with Cells := [(x, y)] }

/-- The first `n` passes of the loop of `Board_Trace` taken one after the other, with the
flag returned by the last of them (`true` for `n = 0`); `none` when one of them writes
outside the arrays. -/
def Board_DoTraceIter_times (B : board) :
    Nat → trace × power_board → Option (Bool × (trace × power_board))
  | 0, s => some (true, s)
  | n + 1, s =>
    match Board_DoTraceIter_times B n s with
    | none => none
    | some r => Board_DoTraceIter B r.2

/-! ## Measures and predicates used in the statements -/

/-- Number of board cells that do not occur in a list of cells. -/
def unvisited (cells : List (Int × Int)) : Nat :=
  (rasterOrder.filter fun c => decide (c ∉ cells)).length

/-- The test of `Board_TraceFilter` for keeping a traced cell. -/
def Board_TraceFilter_keeps (B : board) (Powers : power_board) (c : Int × Int) : Bool :=
  !Piece_IsConnectionType (B.Pieces c.2 c.1) ||
    decide (Powers.Incoming c.2 c.1 &&& Piece_OutgoingOrientations (B.Pieces c.2 c.1) =
      Piece_OutgoingOrientations (B.Pieces c.2 c.1))

/-- Relation between the trace before a pass (`old`), the trace built by the pass (`new`)
and its `HasIter` flag: the pass appends board cells that are not in `old`, and the flag
tells whether it appended any. -/
def Grows (old new : List (Int × Int)) (flag : Bool) : Prop :=
  ∃ added, new = old ++ added ∧ (∀ c ∈ added, c ∈ rasterOrder ∧ c ∉ old) ∧
    (flag = true ↔ added ≠ [])

/-- A Fire cell whose fire trace has more than one cell ("circuit overload"). -/
def Board_FireOverload (fuel : Nat) (B : board) (c : Int × Int) : Bool :=
  decide (B.Pieces c.2 c.1 = PIECE_FIRE) &&
    match Board_TraceFire fuel B c.1 c.2 with
    | some T => decide (T.Count > 1)
    | none => false

/-- Column `x` of the board read top to bottom. -/
def board.column (B : board) (x : Int) : List piece :=
  (upto 13).map fun y => B.Pieces y x

/-- The non-empty pieces of column `x`, top to bottom. -/
def board.columnPieces (B : board) (x : Int) : List piece :=
  (B.column x).filter fun p => decide (p ≠ PIECE_EMPTY)

/-- The non-empty pieces of the board, in raster order. -/
def board.pieces (B : board) : List piece :=
  (rasterOrder.map fun c => B.Pieces c.2 c.1).filter fun p => decide (p ≠ PIECE_EMPTY)

/-- In the column `c` (rows top to bottom) the piece in row `j` has an empty cell directly
below it. -/
def hangs (c : Int → piece) (j : Int) : Prop :=
  c j ≠ PIECE_EMPTY ∧ c (j + 1) = PIECE_EMPTY

/-- No piece in rows `k, k+1, ...` of the board has an empty cell directly below it. -/
def board.settledFrom (B : board) (k : Int) : Prop :=
  ∀ x y, 0 ≤ x → x < BOARD_WIDTH → k ≤ y → 0 ≤ y → y < BOARD_HEIGHT - 1 →
    ¬(B.Pieces y x ≠ PIECE_EMPTY ∧ B.Pieces (y + 1) x = PIECE_EMPTY)

/-- The effect of the body of `Board_GravityStep` at row `y` on one column. -/
def columnStep (y : Int) (c : Int → piece) : Int → piece :=
  if c y = PIECE_EMPTY ∨ c (y + 1) ≠ PIECE_EMPTY then c
  else fun y' => if y' = y + 1 then c y else if y' = y then PIECE_EMPTY else c y'

/-- State of one column before row `y` of a pass of `Board_GravityStep`, when rows `k ..`
were settled at the start of the pass: below row `k-1` the only piece that may hang is the
one the pass is carrying down, and the cells between row `k-1` and that piece are empty. -/
def passInv (k y : Int) (c : Int → piece) : Prop :=
  (∀ j, k - 1 ≤ j → 0 ≤ j → j < 12 → j ≠ max y (k - 1) → ¬hangs c j) ∧
  (max y (k - 1) < 12 → hangs c (max y (k - 1)) →
    ∀ j, k - 1 ≤ j → j < max y (k - 1) → c j = PIECE_EMPTY)

/-- Sum of the row indices of the non-empty cells of a column. -/
def columnRowSum (c : Int → piece) : Int :=
  ((upto 13).map fun y => if c y ≠ PIECE_EMPTY then y else 0).sum

/-- Sum of the row indices of the non-empty pieces of the board. -/
def board.rowSum (B : board) : Int :=
  ((upto 6).map fun x => columnRowSum fun y => B.Pieces y x).sum

/-- The quarter turn `RIGHT -> DOWN -> LEFT -> UP -> RIGHT`. -/
def orientation.turn : orientation → orientation
  | RIGHT => DOWN
  | DOWN => LEFT
  | LEFT => UP
  | UP => RIGHT

/-- Both playback cursors lie within their traces. -/
def gameplay.cursorsOk (G : gameplay) : Prop :=
  0 ≤ G.TraceIndex ∧ G.TraceIndex ≤ G.Trace.Count ∧
    0 ≤ G.TraceJunkIndex ∧ G.TraceJunkIndex ≤ G.TraceJunk.Count

/-- The cell `(x, y)` is inside the board. -/
def inBounds (c : Int × Int) : Prop :=
  0 ≤ c.1 ∧ c.1 < BOARD_WIDTH ∧ 0 ≤ c.2 ∧ c.2 < BOARD_HEIGHT

/-- Every non-empty piece of the brick lies on an in-bounds cell. -/
def brick.onBoard (b : brick) : Prop :=
  (b.Pieces0 ≠ PIECE_EMPTY → inBounds (Brick_Locations b).1) ∧
  (b.Pieces1 ≠ PIECE_EMPTY → inBounds (Brick_Locations b).2)

/-- The zero-initialised `Game.Gameplay` of `main` with its first brick. -/
def gameplay.start (Brick : brick) : gameplay :=
  { Powers := power_board.zero
    Board := board.zero
    Brick := Brick
    Trace := trace.zero
    TraceJunk := trace.zero
    TraceIndex := 0
    TraceJunkIndex := 0
    Scoring := { Score := 0, NodeChain := 0, WireChain := 0, Multiplier := 0 } }

/-- The states of the session: the start state with a brick returned by `Brick_Random`, and
what `GP_Update` makes of a state of the session. -/
inductive Reachable (fuel : Nat) : gameplay → Prop
  | start (draws : List Nat) (b : brick) (h : Brick_Random draws = some b) :
      Reachable fuel (gameplay.start b)
  | update (inp : input) (G G' : gameplay) (hG : Reachable fuel G)
      (h : GP_Update fuel inp G = some G') : Reachable fuel G'

/-- Some outgoing direction of the piece on cell `c` points to a cell outside the board. -/
def Board_PointsOff (B : board) (c : Int × Int) : Bool :=
  (Positions c.1 c.2).any fun pos =>
    decide (Piece_OutgoingOrientations (B.Pieces c.2 c.1) &&& bit pos.2.2 ≠ 0) &&
      Board_IsOob B pos.1 pos.2.1

/-- An input with no key pressed and all three timers expired. -/
def expiredInput : input :=
  { Down := false, Left := false, Right := false, Z := false
    TraceExpired := true, JunkExpired := true, GravityExpired := true, Rand := [] }

/-- Bottom row `HCONN DST HCONN` in columns 0 to 2; the rest of the board is empty. -/
def wireBoard : board :=
  ⟨fun y x =>
    if y = 12 ∧ x = 0 then PIECE_HCONN
    else if y = 12 ∧ x = 1 then PIECE_DST
    else if y = 12 ∧ x = 2 then PIECE_HCONN
    else PIECE_EMPTY⟩

/-- A state at the start of the playback of the three cells of `wireBoard`, with
`Score = NodeChain = WireChain = 0` and `Multiplier = 1`. -/
def wireGame : gameplay :=
  { Powers := power_board.zero
    Board := wireBoard
    Brick := { x := 2, y := 0, Pieces0 := PIECE_JUNK, Pieces1 := PIECE_JUNK, Orientation := RIGHT }
    Trace := { Cells := [(0, 12), (1, 12), (2, 12)], OpenConns := 0, Junk := false }
    TraceJunk := trace.zero
    TraceIndex := 0
    TraceJunkIndex := 0
    Scoring := { Score := 0, NodeChain := 0, WireChain := 0, Multiplier := 1 } }

/-- Three consecutive calls of `GP_Update`. -/
def GP_Update3 (fuel : Nat) (i1 i2 i3 : input) (G : gameplay) : Option gameplay :=
  (GP_Update fuel i1 G).bind fun G1 => (GP_Update fuel i2 G1).bind (GP_Update fuel i3)

/-- Column 2 filled with junk from row 2 down; the rest of the board is empty. -/
def lossBoard : board :=
  ⟨fun y x => if x = 2 ∧ 2 ≤ y ∧ y ≤ 12 then PIECE_JUNK else PIECE_EMPTY⟩

/-- A state in the idle phase on `lossBoard` with a junk brick standing on top of the full
column. -/
def lossGame : gameplay :=
  { Powers := power_board.zero
    Board := lossBoard
    Brick := { x := 2, y := 0, Pieces0 := PIECE_JUNK, Pieces1 := PIECE_JUNK, Orientation := DOWN }
    Trace := trace.zero
    TraceJunk := trace.zero
    TraceIndex := 0
    TraceJunkIndex := 0
    Scoring := { Score := 500, NodeChain := 0, WireChain := 0, Multiplier := 0 } }

/-- No key pressed, gravity timer expired, and draws on which `Brick_Random` returns a
junk brick. -/
def lossInput : input :=
  { Down := false, Left := false, Right := false, Z := false
    TraceExpired := false, JunkExpired := false, GravityExpired := true
    Rand := [0, 3, 12, 12] }

/-- A closed loop of wire in the bottom-left corner: `DR DL` above `UR DST`. -/
def loopBoard : board :=
  ⟨fun y x =>
    if y = 11 ∧ x = 0 then PIECE_DR
    else if y = 11 ∧ x = 1 then PIECE_DL
    else if y = 12 ∧ x = 0 then PIECE_UR
    else if y = 12 ∧ x = 1 then PIECE_DST
    else PIECE_EMPTY⟩

/-- A Destination wired to a connector in row 5 and, later in raster order, a Fire cell
next to a connector in the bottom row. -/
def fireBoard : board :=
  ⟨fun y x =>
    if y = 5 ∧ x = 3 then PIECE_DST
    else if y = 5 ∧ x = 4 then PIECE_HCONN
    else if y = 12 ∧ x = 0 then PIECE_FIRE
    else if y = 12 ∧ x = 1 then PIECE_HCONN
    else PIECE_EMPTY⟩

/-- A single junk piece in the bottom-left cell. -/
def bottomBoard : board :=
  ⟨fun y x => if y = 12 ∧ x = 0 then PIECE_JUNK else PIECE_EMPTY⟩

/-- The board of the tracing example: a Destination at `(2, 0)` and a `HCONN` at `(3, 0)`. -/
def exampleBoard : board :=
  ⟨fun y x =>
    if y = 0 ∧ x = 2 then PIECE_DST
    else if y = 0 ∧ x = 3 then PIECE_HCONN
    else PIECE_EMPTY⟩

/-- A state with both playbacks exhausted on `wireBoard`, whose left connector points off
the board. -/
def edgeGame : gameplay :=
  { Powers := power_board.zero
    Board := wireBoard
    Brick := { x := 2, y := 0, Pieces0 := PIECE_JUNK, Pieces1 := PIECE_JUNK, Orientation := RIGHT }
    Trace := trace.zero
    TraceJunk := trace.zero
    TraceIndex := 0
    TraceJunkIndex := 0
    Scoring := { Score := 70, NodeChain := 0, WireChain := 0, Multiplier := 0 } }

/-- The state `wireGame` with the bit `1<<LEFT` set in the power board at `(0, 12)`. -/
def poweredGame : gameplay :=
  { wireGame with Powers := ⟨fun y x => if y = 12 ∧ x = 0 then 4 else 0⟩ }

/-- An idle state on the empty board with a brick in the top row. -/
def fallGame : gameplay :=
  { Powers := power_board.zero
    Board := board.zero
    Brick := { x := 2, y := 0, Pieces0 := PIECE_HCONN, Pieces1 := PIECE_HCONN,
               Orientation := RIGHT }
    Trace := trace.zero
    TraceJunk := trace.zero
    TraceIndex := 0
    TraceJunkIndex := 0
    Scoring := { Score := 0, NodeChain := 0, WireChain := 0, Multiplier := 0 } }

/-- The Down key pressed in a tick in which the gravity timer has expired. -/
def downInput : input :=
  { Down := true, Left := false, Right := false, Z := false
    TraceExpired := false, JunkExpired := false, GravityExpired := true, Rand := [] }

/-- A two-piece brick whose anchor is in the row below the board. -/
def lowBrick : brick :=
  { x := 2, y := 13, Pieces0 := PIECE_HCONN, Pieces1 := PIECE_HCONN, Orientation := RIGHT }

/-- A brick whose only piece is `Pieces[1]`, lying left of the board. -/
def leftBrick : brick :=
  { x := 0, y := 0, Pieces0 := PIECE_EMPTY, Pieces1 := PIECE_HCONN, Orientation := LEFT }

/-- A two-piece brick up and to the left of the board. -/
def farBrick : brick :=
  { x := -3, y := -2, Pieces0 := PIECE_HCONN, Pieces1 := PIECE_VCONN, Orientation := LEFT }

/-- A settled board with six Destinations on the diagonal from `(0, 7)` to `(5, 12)`, each
joined to the next by a `DL` corner to its right and a `UR` corner below it, on junk. -/
def diagBoard : board :=
  ⟨fun y x =>
    if 0 ≤ x ∧ x < 6 ∧ y = x + 7 then PIECE_DST
    else if 1 ≤ x ∧ x < 6 ∧ y = x + 6 then PIECE_DL
    else if 0 ≤ x ∧ x < 5 ∧ y = x + 8 then PIECE_UR
    else if 0 ≤ x ∧ x < 5 ∧ x + 8 < y ∧ y ≤ 12 then PIECE_JUNK
    else PIECE_EMPTY⟩

/-- The board `diagBoard` with a Fire cell in the bottom-left corner and a `VCONN` above
it, in place of two junk pieces. -/
def diagFireBoard : board :=
  ⟨fun y x =>
    if x = 0 ∧ y = 12 then PIECE_FIRE
    else if x = 0 ∧ y = 11 then PIECE_VCONN
    else diagBoard.Pieces y x⟩

theorem Brick_Random_loop_no_fire (Ty : brick_type) :
    ∀ (n : Nat) (draws : List Nat) (nb b : brick), draws.length ≤ n →
      Brick_Random_loop Ty nb draws = some b →
      b.Pieces0 ≠ PIECE_FIRE ∧ b.Pieces1 ≠ PIECE_FIRE := by
  intro n
  induction n with
  | zero =>
    intro draws nb b hlen h
    match draws, hlen with
    | [], _ => simp [Brick_Random_loop] at h
  | succ n ih =>
    intro draws nb b hlen h
    match draws, hlen with
    | [], _ => simp [Brick_Random_loop] at h
    | [_], _ => simp [Brick_Random_loop] at h
    | r0 :: r1 :: rest, hlen =>
      simp only [Brick_Random_loop] at h
      have hrest : rest.length ≤ n := by simp at hlen; omega
      split at h
      · exact ih rest _ b hrest h
      · rename_i hnf
        split at h
        · cases h
          simpa [not_or] using hnf
        · exact ih rest _ b hrest h

/-- C10. Whenever `Brick_Random` returns a brick, the draws start with the orientation draw
and the type draw; when the type drawn is `TYPE_FIRE` the brick is `Pieces[0] = PIECE_FIRE`,
`Pieces[1] = PIECE_EMPTY`, and for every other type neither piece is `PIECE_FIRE`. -/
theorem Brick_Random_fire_only_for_fire_type (draws : List Nat) (b : brick)
    (h : Brick_Random draws = some b) :
    ∃ rOrient rType rest, draws = rOrient :: rType :: rest ∧
      (Brick_Random_type rType = TYPE_FIRE →
        b.Pieces0 = PIECE_FIRE ∧ b.Pieces1 = PIECE_EMPTY) ∧
      (Brick_Random_type rType ≠ TYPE_FIRE →
        b.Pieces0 ≠ PIECE_FIRE ∧ b.Pieces1 ≠ PIECE_FIRE) := by
  match draws, h with
  | rOrient :: rType :: rest, h =>
    refine ⟨rOrient, rType, rest, rfl, ?_, ?_⟩
    · intro hty
      simp only [Brick_Random, hty, if_true] at h
      cases h
      exact ⟨rfl, rfl⟩
    · intro hty
      simp only [Brick_Random, hty, if_false] at h
      exact Brick_Random_loop_no_fire _ _ _ _ _ (le_refl _) h

theorem Brick_Random_fire_only_for_fire_type_witness :
    Brick_Random [0, 4, 13, 0, 0, 0] =
      some { x := 2, y := 0, Pieces0 := PIECE_HCONN, Pieces1 := PIECE_HCONN, Orientation := RIGHT } ∧
    ∃ rOrient rType rest, [0, 4, 13, 0, 0, 0] = rOrient :: rType :: rest ∧
      (Brick_Random_type rType = TYPE_FIRE →
        PIECE_HCONN = PIECE_FIRE ∧ PIECE_HCONN = PIECE_EMPTY) ∧
      (Brick_Random_type rType ≠ TYPE_FIRE →
        PIECE_HCONN ≠ PIECE_FIRE ∧ PIECE_HCONN ≠ PIECE_FIRE) :=
  ⟨by decide, Brick_Random_fire_only_for_fire_type [0, 4, 13, 0, 0, 0]
    { x := 2, y := 0, Pieces0 := PIECE_HCONN, Pieces1 := PIECE_HCONN, Orientation := RIGHT }
    (by decide)⟩

/-! ## Board_TraceFilter -/

theorem Board_TraceFilter_go_eq (B : board) (P : power_board) :
    ∀ (cells acc : List (Int × Int)),
      Board_TraceFilter_go B P cells acc = acc ++ cells.filter (Board_TraceFilter_keeps B P) := by
  intro cells
  induction cells with
  | nil => intro acc; simp [Board_TraceFilter_go]
  | cons c rest ih =>
    intro acc
    unfold Board_TraceFilter_go
    by_cases hconn : Piece_IsConnectionType (B.Pieces c.2 c.1) = true
    · by_cases hpow : P.Incoming c.2 c.1 &&& Piece_OutgoingOrientations (B.Pieces c.2 c.1) =
          Piece_OutgoingOrientations (B.Pieces c.2 c.1)
      · simp [hconn, hpow, ih, Board_TraceFilter_keeps, List.filter_cons]
      · simp [hconn, hpow, ih, Board_TraceFilter_keeps, List.filter_cons]
    · simp [hconn, ih, Board_TraceFilter_keeps, List.filter_cons]

/-- C8. `Board_TraceFilter` returns, in their original order, exactly the cells of the input
trace that hold a non-connection piece or a connection-type piece whose outgoing directions
are all set in the cell's `Powers` bitmask; the other fields of the trace are copied. -/
theorem Board_TraceFilter_spec (B : board) (T : trace) (P : power_board) :
    (Board_TraceFilter B T P).Cells = T.Cells.filter (Board_TraceFilter_keeps B P) ∧
    (∀ c, Board_TraceFilter_keeps B P c = true ↔
      (Piece_IsConnectionType (B.Pieces c.2 c.1) = false ∨
        (Piece_IsConnectionType (B.Pieces c.2 c.1) = true ∧
          P.Incoming c.2 c.1 &&& Piece_OutgoingOrientations (B.Pieces c.2 c.1) =
            Piece_OutgoingOrientations (B.Pieces c.2 c.1)))) ∧
    (Board_TraceFilter B T P).OpenConns = T.OpenConns ∧
    (Board_TraceFilter B T P).Junk = T.Junk := by
  refine ⟨?_, ?_, rfl, rfl⟩
  · simp [Board_TraceFilter, Board_TraceFilter_go_eq]
  · intro c
    cases hconn : Piece_IsConnectionType (B.Pieces c.2 c.1) <;>
      simp [Board_TraceFilter_keeps, hconn]

/-- The filter appends cells of its argument to a `NewTrace` that starts empty, so it holds
at most as many cells as the argument: no append of `Board_TraceFilter` leaves the arrays. -/
theorem Board_TraceFilter_count_le (B : board) (T : trace) (P : power_board) :
    (Board_TraceFilter B T P).Count ≤ T.Count := by
  unfold trace.Count
  simp only [Board_TraceFilter, Board_TraceFilter_go_eq, List.nil_append]
  exact_mod_cast List.length_filter_le _ _

/-! ## Playback of the power trace -/

theorem Board_CleanSurroundings_pos_cell (x y : Int) (B : board) (d : Int × Int) (y' x' : Int) :
    (Board_CleanSurroundings_pos x y B d).Pieces y' x' = B.Pieces y' x' ∨
      ((Board_CleanSurroundings_pos x y B d).Pieces y' x' = PIECE_EMPTY ∧
        B.Pieces y' x' = PIECE_JUNK) := by
  unfold Board_CleanSurroundings_pos
  simp only
  split
  · exact Or.inl rfl
  · split
    · rename_i hj
      by_cases hc : y' = y + d.2 ∧ x' = x + d.1
      · right
        obtain ⟨hy, hx⟩ := hc
        subst hy hx
        exact ⟨by simp [board.set], hj⟩
      · left
        simp [board.set, hc]
    · exact Or.inl rfl

theorem Board_CleanSurroundings_foldl_cell (x y : Int) (y' x' : Int) :
    ∀ (l : List (Int × Int)) (B : board),
      (l.foldl (Board_CleanSurroundings_pos x y) B).Pieces y' x' = B.Pieces y' x' ∨
        ((l.foldl (Board_CleanSurroundings_pos x y) B).Pieces y' x' = PIECE_EMPTY ∧
          B.Pieces y' x' = PIECE_JUNK) := by
  intro l
  induction l with
  | nil => intro B; exact Or.inl rfl
  | cons d rest ih =>
    intro B
    rw [List.foldl_cons]
    rcases ih (Board_CleanSurroundings_pos x y B d) with h | ⟨h1, h2⟩
    · rw [h]; exact Board_CleanSurroundings_pos_cell x y B d y' x'
    · rcases Board_CleanSurroundings_pos_cell x y B d y' x' with h3 | ⟨h3, _⟩
      · right; exact ⟨h1, h3 ▸ h2⟩
      · rw [h3] at h2; cases h2

/-- A cell of the cleaned board is the old cell, or it is empty and the old cell was junk. -/
theorem Board_CleanSurroundings_cell (B : board) (x y y' x' : Int) :
    (Board_CleanSurroundings B x y).Pieces y' x' = B.Pieces y' x' ∨
      ((Board_CleanSurroundings B x y).Pieces y' x' = PIECE_EMPTY ∧
        B.Pieces y' x' = PIECE_JUNK) :=
  Board_CleanSurroundings_foldl_cell x y y' x' CleanPositions B

theorem trace_cellAt_some (T : trace) (i : Int) (h0 : 0 ≤ i) (hlt : i < T.Count) :
    ∃ c, T.cellAt i = some c := by
  have hlen : i.toNat < T.Cells.length := by
    unfold trace.Count at hlt
    omega
  refine ⟨T.Cells.get ⟨i.toNat, hlen⟩, ?_⟩
  unfold trace.cellAt
  rw [if_neg (by omega)]
  exact List.get?_eq_get hlen

/-- The playback branch of `GP_Update` as one equation. -/
theorem GP_Update_playback_eq (fuel : Nat) (inp : input) (G : gameplay) (c : Int × Int)
    (hlt : G.TraceIndex < G.Trace.Count) (hexp : inp.TraceExpired = true)
    (hc : G.Trace.cellAt G.TraceIndex = some c) :
    GP_Update fuel inp G =
      some (GP_Update_clear { G with Powers := power_board.zero } c.1 c.2) := by
  unfold GP_Update
  simp only
  rw [if_neg (by omega), if_pos hexp, hc]

/-- C6. When `0 <= TraceIndex < Trace.Count` and the trace timer has expired, `GP_Update`
empties the traced cell, advances `TraceIndex` by one, adds one to `WireChain`, adds one to
`NodeChain` exactly when the cell held a Destination, adds
`10 * Multiplier * (NodeChain+1) * (WireChain+1)` (counters after the increments) to `Score`,
and leaves `Multiplier` and the brick unchanged. -/
theorem GP_Update_playback_step (fuel : Nat) (inp : input) (G : gameplay)
    (h0 : 0 ≤ G.TraceIndex) (hlt : G.TraceIndex < G.Trace.Count)
    (hexp : inp.TraceExpired = true) :
    ∃ c G', G.Trace.cellAt G.TraceIndex = some c ∧ GP_Update fuel inp G = some G' ∧
      G'.Board.Pieces c.2 c.1 = PIECE_EMPTY ∧
      G'.TraceIndex = G.TraceIndex + 1 ∧
      G'.Scoring.WireChain = G.Scoring.WireChain + 1 ∧
      G'.Scoring.NodeChain =
        (if G.Board.Pieces c.2 c.1 = PIECE_DST then G.Scoring.NodeChain + 1
         else G.Scoring.NodeChain) ∧
      G'.Scoring.Score = G.Scoring.Score +
        10 * G'.Scoring.Multiplier * (G'.Scoring.NodeChain + 1) * (G'.Scoring.WireChain + 1) ∧
      G'.Scoring.Multiplier = G.Scoring.Multiplier ∧
      G'.Brick = G.Brick := by
  obtain ⟨c, hc⟩ := trace_cellAt_some G.Trace G.TraceIndex h0 hlt
  refine ⟨c, _, hc, GP_Update_playback_eq fuel inp G c hlt hexp hc, ?_, rfl, rfl, rfl, rfl,
    rfl, rfl⟩
  show (Board_CleanSurroundings (G.Board.set c.2 c.1 PIECE_EMPTY) c.1 c.2).Pieces c.2 c.1 = _
  rcases Board_CleanSurroundings_cell (G.Board.set c.2 c.1 PIECE_EMPTY) c.1 c.2 c.2 c.1 with
    h | ⟨h, _⟩
  · rw [h]; simp [board.set]
  · exact h

theorem board_set_empty_dst (B : board) (y x y' x' : Int)
    (h : (B.set y x PIECE_EMPTY).Pieces y' x' = PIECE_DST) : B.Pieces y' x' = PIECE_DST := by
  unfold board.set at h
  simp only at h
  split at h
  · cases h
  · exact h

theorem Board_CleanSurroundings_dst (B : board) (x y y' x' : Int) :
    (Board_CleanSurroundings B x y).Pieces y' x' = PIECE_DST ↔ B.Pieces y' x' = PIECE_DST := by
  rcases Board_CleanSurroundings_cell B x y y' x' with h | ⟨h1, h2⟩
  · rw [h]
  · rw [h1, h2]; simp

/-- The cleared board holds a Destination exactly where the old board held one, the cleared
cell apart. -/
theorem GP_Update_clear_dst (G : gameplay) (x y y' x' : Int) :
    (GP_Update_clear G x y).Board.Pieces y' x' = PIECE_DST ↔
      (G.Board.Pieces y' x' = PIECE_DST ∧ ¬(y' = y ∧ x' = x)) := by
  show (Board_CleanSurroundings (G.Board.set y x PIECE_EMPTY) x y).Pieces y' x' = _ ↔ _
  rw [Board_CleanSurroundings_dst]
  unfold board.set
  by_cases hc : y' = y ∧ x' = x
  · simp [hc]
  · simp [hc]

/-- C5 (as amended). From `Score = NodeChain = WireChain = 0`, `Multiplier = 1` and a
three-cell trace whose cell at index 1 holds a Destination and whose other two cells hold
connectors, three playback steps leave `Score = 10*1*1*2 + 10*1*2*3 + 10*1*2*4 = 160`. -/
theorem GP_Update_three_cell_score (fuel : Nat) (i1 i2 i3 : input) (G : gameplay)
    (c0 c1 c2 : Int × Int)
    (hT : G.Trace.Cells = [c0, c1, c2]) (hidx : G.TraceIndex = 0)
    (hS : G.Scoring = { Score := 0, NodeChain := 0, WireChain := 0, Multiplier := 1 })
    (h0 : Piece_IsConnectionType (G.Board.Pieces c0.2 c0.1) = true)
    (h1 : G.Board.Pieces c1.2 c1.1 = PIECE_DST)
    (h2 : Piece_IsConnectionType (G.Board.Pieces c2.2 c2.1) = true)
    (e1 : i1.TraceExpired = true) (e2 : i2.TraceExpired = true)
    (e3 : i3.TraceExpired = true) :
    ∃ G3, GP_Update3 fuel i1 i2 i3 G = some G3 ∧
      G3.Scoring.Score = 10 * 1 * 1 * 2 + 10 * 1 * 2 * 3 + 10 * 1 * 2 * 4 ∧
      G3.Scoring.Score = 160 := by
  have n0 : G.Board.Pieces c0.2 c0.1 ≠ PIECE_DST := by
    intro h; rw [h] at h0; cases h0
  have n2 : G.Board.Pieces c2.2 c2.1 ≠ PIECE_DST := by
    intro h; rw [h] at h2; cases h2
  have n01 : ¬(c1.2 = c0.2 ∧ c1.1 = c0.1) := by
    rintro ⟨ha, hb⟩
    rw [ha, hb] at h1
    exact n0 h1
  -- first step
  have s1 : GP_Update fuel i1 G =
      some (GP_Update_clear { G with Powers := power_board.zero } c0.1 c0.2) := by
    apply GP_Update_playback_eq fuel i1 G c0 _ e1
    · simp [trace.cellAt, hidx, hT]
    · simp [trace.Count, hidx, hT]
  generalize hG1 : GP_Update_clear { G with Powers := power_board.zero } c0.1 c0.2 = G1 at s1
  have t1 : G1.Trace.Cells = [c0, c1, c2] := by rw [← hG1]; exact hT
  have i1' : G1.TraceIndex = 1 := by rw [← hG1]; simp [GP_Update_clear, hidx]
  have b1 : G1.Board.Pieces c1.2 c1.1 = PIECE_DST := by
    rw [← hG1, GP_Update_clear_dst]; exact ⟨h1, n01⟩
  have b1' : G1.Board.Pieces c2.2 c2.1 ≠ PIECE_DST := by
    rw [← hG1]; intro h
    rw [GP_Update_clear_dst] at h
    exact n2 h.1
  have sc1 : G1.Scoring = { Score := 20, NodeChain := 0, WireChain := 1, Multiplier := 1 } := by
    rw [← hG1]
    simp [GP_Update_clear, hS, n0]
  -- second step
  have s2 : GP_Update fuel i2 G1 =
      some (GP_Update_clear { G1 with Powers := power_board.zero } c1.1 c1.2) := by
    apply GP_Update_playback_eq fuel i2 G1 c1 _ e2
    · simp [trace.cellAt, i1', t1]
    · simp [trace.Count, i1', t1]
  generalize hG2 : GP_Update_clear { G1 with Powers := power_board.zero } c1.1 c1.2 = G2 at s2
  have t2 : G2.Trace.Cells = [c0, c1, c2] := by rw [← hG2]; exact t1
  have i2' : G2.TraceIndex = 2 := by rw [← hG2]; simp [GP_Update_clear, i1']
  have b2 : G2.Board.Pieces c2.2 c2.1 ≠ PIECE_DST := by
    rw [← hG2]; intro h
    rw [GP_Update_clear_dst] at h
    exact b1' h.1
  have sc2 : G2.Scoring = { Score := 80, NodeChain := 1, WireChain := 2, Multiplier := 1 } := by
    rw [← hG2]
    simp [GP_Update_clear, sc1, b1]
  -- third step
  have s3 : GP_Update fuel i3 G2 =
      some (GP_Update_clear { G2 with Powers := power_board.zero } c2.1 c2.2) := by
    apply GP_Update_playback_eq fuel i3 G2 c2 _ e3
    · simp [trace.cellAt, i2', t2]
    · simp [trace.Count, i2', t2]
  refine ⟨GP_Update_clear { G2 with Powers := power_board.zero } c2.1 c2.2, ?_, ?_, ?_⟩
  · simp only [GP_Update3, s1, s2, Option.some_bind, Option.bind_eq_bind]
    exact s3
  · simp [GP_Update_clear, sc2, b2]
  · simp [GP_Update_clear, sc2, b2]

theorem GP_Update_three_cell_score_witness :
    ∃ G3, GP_Update3 0 expiredInput expiredInput expiredInput wireGame = some G3 ∧
      G3.Scoring.Score = 10 * 1 * 1 * 2 + 10 * 1 * 2 * 3 + 10 * 1 * 2 * 4 ∧
      G3.Scoring.Score = 160 :=
  GP_Update_three_cell_score 0 expiredInput expiredInput expiredInput wireGame
    (0, 12) (1, 12) (2, 12) rfl rfl rfl (by decide) (by decide) (by decide) rfl rfl rfl

/-- C5 (as stated) fails: on `wireGame` three playback steps leave `Score = 160`, not 110. -/
theorem GP_Update_three_cell_score_not_110 :
    (GP_Update3 0 expiredInput expiredInput expiredInput wireGame).map
        (fun G => G.Scoring.Score) = some 160 ∧
      (GP_Update3 0 expiredInput expiredInput expiredInput wireGame).map
        (fun G => G.Scoring.Score) ≠ some (10 * 1 * 1 * 1 + 10 * 1 * 2 * 2 + 10 * 1 * 2 * 3) := by
  constructor <;> decide

theorem GP_Update_playback_step_witness :
    (0 : Int) ≤ wireGame.TraceIndex ∧ wireGame.TraceIndex < wireGame.Trace.Count ∧
    expiredInput.TraceExpired = true ∧
    ∃ c G', wireGame.Trace.cellAt wireGame.TraceIndex = some c ∧
      GP_Update 0 expiredInput wireGame = some G' ∧
      G'.Board.Pieces c.2 c.1 = PIECE_EMPTY ∧
      G'.TraceIndex = wireGame.TraceIndex + 1 ∧
      G'.Scoring.WireChain = wireGame.Scoring.WireChain + 1 ∧
      G'.Scoring.NodeChain =
        (if wireGame.Board.Pieces c.2 c.1 = PIECE_DST then wireGame.Scoring.NodeChain + 1
         else wireGame.Scoring.NodeChain) ∧
      G'.Scoring.Score = wireGame.Scoring.Score +
        10 * G'.Scoring.Multiplier * (G'.Scoring.NodeChain + 1) * (G'.Scoring.WireChain + 1) ∧
      G'.Scoring.Multiplier = wireGame.Scoring.Multiplier ∧
      G'.Brick = wireGame.Brick :=
  ⟨by decide, by decide, rfl,
    GP_Update_playback_step 0 expiredInput wireGame (by decide) (by decide) rfl⟩

/-! ## Loss reset -/

theorem Board_GravityStep_zero : Board_GravityStep board.zero = (false, board.zero) := by
  have hcell : ∀ y x, Board_GravityStep_cell y (board.zero, false) x = (board.zero, false) := by
    intro y x
    simp [Board_GravityStep_cell, board.zero]
  have hrow : ∀ y, Board_GravityStep_row (board.zero, false) y = (board.zero, false) := by
    intro y
    exact List.foldl_fixed' (hcell y) _
  unfold Board_GravityStep
  simp only
  rw [List.foldl_fixed' hrow]

/-- C7. In a tick that reaches the idle phase (both playbacks exhausted, both recomputed
traces empty), if the move has a vertical component and is blocked, so that the brick is
put on the board and `Brick_Random` returns a new brick, and `Board_ShouldPlaceBrick` holds
for the new brick on the board with the old brick put, then after the tick every board cell
is empty and `Score`, `NodeChain`, `WireChain` and `Multiplier` are 0. -/
theorem GP_Update_loss_reset (fuel : Nat) (inp : input) (G : gameplay) (nb : brick)
    (hidx : G.TraceIndex ≥ G.Trace.Count)
    (hT : (Board_GetTrace (fuel + 1) G.Board power_board.zero).map (fun r => r.1.Count) =
      some 0)
    (hjidx : G.TraceJunkIndex ≥ G.TraceJunk.Count)
    (hTJ : (Board_GetTraceJunk (fuel + 1) G.Board).map trace.Count = some 0)
    (hdy : GP_Update_dy inp G.Board G.Brick ≠ 0)
    (hblocked : Board_ShouldPlaceBrick G.Board
      (Brick_Move (GP_Update_keys inp G.Board G.Brick).2.2
        (GP_Update_keys inp G.Board G.Brick).1 (GP_Update_dy inp G.Board G.Brick)) = true)
    (hnb : Brick_Random inp.Rand = some nb)
    (hover : Board_ShouldPlaceBrick
      (Board_PutBrick G.Board (GP_Update_keys inp G.Board G.Brick).2.2) nb = true) :
    ∃ G', GP_Update (fuel + 1) inp G = some G' ∧
      (∀ y x, G'.Board.Pieces y x = PIECE_EMPTY) ∧
      G'.Scoring = { Score := 0, NodeChain := 0, WireChain := 0, Multiplier := 0 } ∧
      G'.Brick = nb := by
  obtain ⟨r, hr, hr0⟩ := Option.map_eq_some'.mp hT
  obtain ⟨TJ, hTJ', hTJ0⟩ := Option.map_eq_some'.mp hTJ
  have hgrav : whileTrue Board_GravityStep (fuel + 1) board.zero = some board.zero := by
    simp [whileTrue, Board_GravityStep_zero]
  refine ⟨{ Powers := r.2, Board := board.zero, Brick := nb, Trace := r.1, TraceJunk := TJ,
            TraceIndex := 0, TraceJunkIndex := 0,
            Scoring := { Score := 0, NodeChain := 0, WireChain := 0, Multiplier := 0 } },
          ?_, fun _ _ => rfl, rfl, rfl⟩
  unfold GP_Update
  simp only
  rw [if_pos hidx, hr]
  simp only
  unfold GP_Update_junk
  simp only
  rw [if_pos hjidx, hTJ']
  simp only
  unfold GP_Update_idle
  simp only
  rw [if_neg (by simp [hTJ0, hr0])]
  unfold GP_Update_move
  simp only
  rw [if_pos (Or.inr hdy), if_pos hblocked, if_pos hdy, hnb]
  simp only
  rw [if_pos hover]
  simp only
  rw [hgrav]

theorem GP_Update_loss_reset_witness :
    ∃ G', GP_Update (0 + 1) lossInput lossGame = some G' ∧
      (∀ y x, G'.Board.Pieces y x = PIECE_EMPTY) ∧
      G'.Scoring = { Score := 0, NodeChain := 0, WireChain := 0, Multiplier := 0 } ∧
      G'.Brick =
        { x := 2, y := 0, Pieces0 := PIECE_JUNK, Pieces1 := PIECE_JUNK, Orientation := RIGHT } :=
  GP_Update_loss_reset 0 lossInput lossGame
    { x := 2, y := 0, Pieces0 := PIECE_JUNK, Pieces1 := PIECE_JUNK, Orientation := RIGHT }
    (by decide) (by decide) (by decide) (by decide) (by decide) (by decide) (by decide)
    (by decide)

/-! ## Traces: appended cells and termination -/

/-- C1 (fails on the code). On `loopBoard` the trace from the Destination at `(1, 12)`
reaches the cell `(0, 11)` from both of its neighbours in the same pass of
`Board_DoTraceIter`, and the cell is appended twice. -/
theorem Board_Trace_loopBoard_duplicate :
    (Board_Trace 78 loopBoard 1 12 power_board.zero).map (fun r => r.1.Cells) =
        some [(1, 12), (0, 12), (1, 11), (0, 11), (0, 11)] ∧
      ¬([(1, 12), (0, 12), (1, 11), (0, 11), (0, 11)] : List (Int × Int)).Nodup := by
  constructor <;> decide

theorem mem_upto (n : Nat) (i : Int) : i ∈ upto n ↔ 0 ≤ i ∧ i < n := by
  unfold upto
  simp only [List.mem_map, List.mem_range]
  constructor
  · rintro ⟨k, hk, rfl⟩
    simp only [Int.ofNat_eq_coe]
    omega
  · rintro ⟨h0, h1⟩
    refine ⟨i.toNat, by omega, ?_⟩
    simp only [Int.ofNat_eq_coe]
    exact Int.toNat_of_nonneg h0

theorem mem_rasterOrder (c : Int × Int) :
    c ∈ rasterOrder ↔ 0 ≤ c.1 ∧ c.1 < 6 ∧ 0 ≤ c.2 ∧ c.2 < 13 := by
  unfold rasterOrder
  simp only [List.mem_flatMap, List.mem_map, mem_upto]
  constructor
  · rintro ⟨y, hy, x, hx, rfl⟩
    simp only
    omega
  · rintro ⟨h1, h2, h3, h4⟩
    exact ⟨c.2, by omega, c.1, by omega, rfl⟩

theorem rasterOrder_length : rasterOrder.length = 78 := by decide

theorem Board_IsOob_false (B : board) (x y : Int) :
    Board_IsOob B x y = false ↔ (x, y) ∈ rasterOrder := by
  rw [mem_rasterOrder]
  unfold Board_IsOob BOARD_WIDTH BOARD_HEIGHT
  simp only [Bool.or_eq_false_iff, decide_eq_false_iff_not]
  omega

theorem Trace_Contains_go_iff (cells : List (Int × Int)) (x y : Int) :
    Trace_Contains_go cells x y = true ↔ (x, y) ∈ cells := by
  induction cells with
  | nil => simp [Trace_Contains_go]
  | cons c rest ih =>
    unfold Trace_Contains_go
    by_cases h : c.1 = x ∧ c.2 = y
    · simp only [h, and_self, if_true, List.mem_cons, true_iff]
      left
      exact Prod.ext h.1.symm h.2.symm
    · rw [if_neg h, ih, List.mem_cons]
      constructor
      · exact Or.inr
      · rintro (h' | h')
        · exact absurd ⟨(congrArg Prod.fst h').symm, (congrArg Prod.snd h').symm⟩ h
        · exact h'

theorem Grows_refl (old : List (Int × Int)) : Grows old old false :=
  ⟨[], by simp, by simp, by simp⟩

theorem Grows_push (old new : List (Int × Int)) (flag : Bool) (c : Int × Int)
    (h : Grows old new flag) (hc : c ∈ rasterOrder) (hn : c ∉ old) :
    Grows old (new ++ [c]) true := by
  obtain ⟨added, h1, h2, _⟩ := h
  refine ⟨added ++ [c], by simp [h1], ?_, by simp⟩
  intro d hd
  rcases List.mem_append.mp hd with hd | hd
  · exact h2 d hd
  · rw [List.mem_singleton.mp hd]; exact ⟨hc, hn⟩

theorem foldl_preserves {α β : Type} (f : α → β → α) (Inv : α → Prop)
    (h : ∀ s b, Inv s → Inv (f s b)) : ∀ (l : List β) (s : α), Inv s → Inv (l.foldl f s) := by
  intro l
  induction l with
  | nil => intro s hs; exact hs
  | cons b rest ih => intro s hs; exact ih _ (h s b hs)

theorem unvisited_lt (old new : List (Int × Int)) (h : Grows old new true) :
    unvisited new < unvisited old := by
  obtain ⟨added, h1, h2, h3⟩ := h
  obtain ⟨c, hc⟩ := List.exists_mem_of_ne_nil added (h3.mp rfl)
  have hfil : rasterOrder.filter (fun c => decide (c ∉ new)) =
      (rasterOrder.filter fun c => decide (c ∉ old)).filter fun c => decide (c ∉ added) := by
    rw [List.filter_filter]
    apply List.filter_congr
    intro d _
    simp [h1, not_or, Bool.and_comm]
  unfold unvisited
  rw [hfil]
  apply List.length_filter_lt_length_iff_exists.mpr
  refine ⟨c, ?_, by simpa using hc⟩
  rw [List.mem_filter]
  exact ⟨(h2 c hc).1, by simpa using (h2 c hc).2⟩

theorem unvisited_seed (c : Int × Int) (hc : c ∈ rasterOrder) : unvisited [c] < 78 := by
  unfold unvisited
  rw [← rasterOrder_length]
  apply List.length_filter_lt_length_iff_exists.mpr
  exact ⟨c, hc, by simp⟩

/-- A `while (step(&s));` loop whose true-returning calls decrease a measure returns within
`fuel` calls when the measure starts below `fuel`. -/
theorem whileTrue_terminates {σ : Type} (step : σ → Bool × σ) (m : σ → Nat)
    (hstep : ∀ s, (step s).1 = true → m (step s).2 < m s) :
    ∀ (fuel : Nat) (s : σ), m s < fuel → ∃ s', whileTrue step fuel s = some s' := by
  intro fuel
  induction fuel with
  | zero => intro s h; omega
  | succ n ih =>
    intro s h
    unfold whileTrue
    have hs := hstep s
    rcases hst : step s with ⟨flag, s1⟩
    rw [hst] at hs
    cases flag with
    | false => exact ⟨s1, rfl⟩
    | true =>
      simp only
      apply ih
      have := hs rfl
      simp only at this
      omega

/-- An invariant of the state that every call of `step` preserves holds when the loop
returns. -/
theorem whileTrue_preserves {σ : Type} (step : σ → Bool × σ) (Inv : σ → Prop)
    (hstep : ∀ s, Inv s → Inv (step s).2) :
    ∀ (fuel : Nat) (s s' : σ), Inv s → whileTrue step fuel s = some s' → Inv s' := by
  intro fuel
  induction fuel with
  | zero => intro s s' _ h; simp [whileTrue] at h
  | succ n ih =>
    intro s s' hs h
    unfold whileTrue at h
    have h1 := hstep s hs
    rcases hst : step s with ⟨flag, s1⟩
    rw [hst] at h h1
    cases flag with
    | false =>
      simp only [Option.some.injEq] at h
      rw [← h]; exact h1
    | true => exact ih s1 s' h1 h

theorem Board_DoTraceIter_pos_grows (B : board) (T : trace) (Piece : piece) (s : trace_iter)
    (pos : Int × Int × orientation) (h : Grows T.Cells s.NewTrace.Cells s.HasIter) :
    Grows T.Cells (Board_DoTraceIter_pos_list B T Piece s pos).NewTrace.Cells
      (Board_DoTraceIter_pos_list B T Piece s pos).HasIter := by
  unfold Board_DoTraceIter_pos_list
  simp only
  split
  · exact h
  · rename_i hskip
    simp only [Bool.or_eq_true, not_or, Bool.not_eq_true] at hskip
    split
    · exact h
    · split
      · exact h
      · apply Grows_push _ _ _ _ h
        · exact (Board_IsOob_false B _ _).mp hskip.1
        · intro hmem
          have := (Trace_Contains_go_iff T.Cells pos.1 pos.2.1).mpr hmem
          unfold Trace_Contains at hskip
          rw [this] at hskip
          exact Bool.noConfusion hskip.2

theorem Board_DoTraceIter_grows (B : board) (s : trace × power_board) :
    Grows s.1.Cells (Board_DoTraceIter_list B s).2.1.Cells (Board_DoTraceIter_list B s).1 := by
  unfold Board_DoTraceIter_list
  simp only
  apply foldl_preserves _ (fun r : trace_iter => Grows s.1.Cells r.NewTrace.Cells r.HasIter)
  · intro r c hr
    unfold Board_DoTraceIter_cell_list
    simp only
    apply foldl_preserves _
      (fun r : trace_iter => Grows s.1.Cells r.NewTrace.Cells r.HasIter) _ _ _ hr
    intro r' pos hr'
    exact Board_DoTraceIter_pos_grows B s.1 _ r' pos hr'
  · exact Grows_refl _

theorem Board_DoTraceIterFire_pos_grows (B : board) (T : trace) (Piece : piece)
    (s : trace_iter2) (pos : Int × Int × orientation)
    (h : Grows T.Cells s.NewTrace.Cells s.HasIter) :
    Grows T.Cells (Board_DoTraceIterFire_pos_list B T Piece s pos).NewTrace.Cells
      (Board_DoTraceIterFire_pos_list B T Piece s pos).HasIter := by
  unfold Board_DoTraceIterFire_pos_list
  simp only
  split
  · exact h
  · rename_i hskip
    simp only [Bool.or_eq_true, not_or, Bool.not_eq_true] at hskip
    split
    · exact h
    · split
      · exact h
      · apply Grows_push _ _ _ _ h
        · exact (Board_IsOob_false B _ _).mp hskip.1
        · intro hmem
          have := (Trace_Contains_go_iff T.Cells pos.1 pos.2.1).mpr hmem
          unfold Trace_Contains at hskip
          rw [this] at hskip
          exact Bool.noConfusion hskip.2

theorem Board_DoTraceIterFire_grows (B : board) (T : trace) :
    Grows T.Cells (Board_DoTraceIterFire_list B T).2.Cells (Board_DoTraceIterFire_list B T).1 := by
  unfold Board_DoTraceIterFire_list
  simp only
  apply foldl_preserves _ (fun r : trace_iter2 => Grows T.Cells r.NewTrace.Cells r.HasIter)
  · intro r c hr
    unfold Board_DoTraceIterFire_cell_list
    simp only
    split
    · exact hr
    · apply foldl_preserves _
        (fun r : trace_iter2 => Grows T.Cells r.NewTrace.Cells r.HasIter) _ _ _ hr
      intro r' pos hr'
      exact Board_DoTraceIterFire_pos_grows B T _ r' pos hr'
  · exact Grows_refl _

theorem Board_DoTraceIterJunk_pos_grows (B : board) (T : trace) (Piece : piece)
    (s : trace_iter2) (pos : Int × Int × orientation)
    (h : Grows T.Cells s.NewTrace.Cells s.HasIter) :
    Grows T.Cells (Board_DoTraceIterJunk_pos_list B T Piece s pos).NewTrace.Cells
      (Board_DoTraceIterJunk_pos_list B T Piece s pos).HasIter := by
  unfold Board_DoTraceIterJunk_pos_list
  simp only
  split
  · exact h
  · split
    · exact h
    · rename_i hnc
      split
      · exact h
      · rename_i hoob
        split
        · exact h
        · split
          · split
            · exact h
            · exact h
          · apply Grows_push _ _ _ _ h
            · exact (Board_IsOob_false B _ _).mp (by simpa using hoob)
            · intro hmem
              have := (Trace_Contains_go_iff T.Cells pos.1 pos.2.1).mpr hmem
              unfold Trace_Contains at hnc
              exact hnc this

theorem Board_DoTraceIterJunk_grows (B : board) (T : trace) :
    Grows T.Cells (Board_DoTraceIterJunk_list B T).2.Cells (Board_DoTraceIterJunk_list B T).1 := by
  unfold Board_DoTraceIterJunk_list
  simp only
  apply foldl_preserves _ (fun r : trace_iter2 => Grows T.Cells r.NewTrace.Cells r.HasIter)
  · intro r c hr
    unfold Board_DoTraceIterJunk_cell_list
    simp only
    apply foldl_preserves _
      (fun r : trace_iter2 => Grows T.Cells r.NewTrace.Cells r.HasIter) _ _ _ hr
    intro r' pos hr'
    exact Board_DoTraceIterJunk_pos_grows B T _ r' pos hr'
  · exact Grows_refl _

/-- The loop of `Board_Trace_list` returns within `fuel` calls once `fuel` exceeds the number of
board cells outside the trace. -/
theorem Board_Trace_loop_terminates (B : board) (fuel : Nat) (s : trace × power_board)
    (h : unvisited s.1.Cells < fuel) : ∃ r, whileTrue (Board_DoTraceIter_list B) fuel s = some r := by
  apply whileTrue_terminates (Board_DoTraceIter_list B) (fun s => unvisited s.1.Cells) _ fuel s h
  intro s hs
  have hg := Board_DoTraceIter_grows B s
  rw [hs] at hg
  exact unvisited_lt _ _ hg

theorem Board_TraceFire_loop_terminates (B : board) (fuel : Nat) (T : trace)
    (h : unvisited T.Cells < fuel) : ∃ r, whileTrue (Board_DoTraceIterFire_list B) fuel T = some r := by
  apply whileTrue_terminates (Board_DoTraceIterFire_list B) (fun T => unvisited T.Cells) _ fuel T h
  intro T hs
  have hg := Board_DoTraceIterFire_grows B T
  rw [hs] at hg
  exact unvisited_lt _ _ hg

theorem Board_TraceJunk_loop_terminates (B : board) (fuel : Nat) (T : trace)
    (h : unvisited T.Cells < fuel) : ∃ r, whileTrue (Board_DoTraceIterJunk_list B) fuel T = some r := by
  apply whileTrue_terminates (Board_DoTraceIterJunk_list B) (fun T => unvisited T.Cells) _ fuel T h
  intro T hs
  have hg := Board_DoTraceIterJunk_grows B T
  rw [hs] at hg
  exact unvisited_lt _ _ hg

theorem whileTrue_mono {σ : Type} (step : σ → Bool × σ) :
    ∀ (n m : Nat) (s s' : σ), n ≤ m → whileTrue step n s = some s' →
      whileTrue step m s = some s' := by
  intro n
  induction n with
  | zero => intro m s s' _ h; simp [whileTrue] at h
  | succ n ih =>
    intro m s s' hnm h
    obtain ⟨k, rfl⟩ : ∃ k, m = k + 1 := ⟨m - 1, by omega⟩
    unfold whileTrue at h ⊢
    rcases hst : step s with ⟨flag, s1⟩
    rw [hst] at h
    cases flag with
    | false => exact h
    | true => exact ih k s1 s' (by omega) h

/-! ## The capacity of the trace arrays -/

theorem foldl_ok_mono {σ α : Type} (ok : σ → Bool) (f : σ → α → σ)
    (hmono : ∀ s a, ok (f s a) = true → ok s = true) :
    ∀ (l : List α) (s : σ), ok (l.foldl f s) = true → ok s = true := by
  intro l
  induction l with
  | nil => intro s h; exact h
  | cons a rest ih => intro s h; exact hmono s a (ih (f s a) h)

/-- A loop whose body fails exactly when the unchecked body leaves the set `ok` fails exactly
when the unchecked loop leaves it, provided the unchecked body never returns into `ok`. -/
theorem foldlOpt_eq {σ α : Type} (ok : σ → Bool) (f' : σ → α → Option σ) (f : σ → α → σ)
    (h : ∀ s a, ok s = true → f' s a = if ok (f s a) then some (f s a) else none)
    (hmono : ∀ s a, ok (f s a) = true → ok s = true) :
    ∀ (l : List α) (s : σ), ok s = true →
      foldlOpt f' s l = if ok (l.foldl f s) then some (l.foldl f s) else none := by
  intro l
  induction l with
  | nil => intro s hs; simp [foldlOpt, hs]
  | cons a rest ih =>
    intro s hs
    unfold foldlOpt
    rw [h s a hs, List.foldl_cons]
    by_cases hok : ok (f s a) = true
    · simp only [hok, if_true]; exact ih (f s a) hok
    · have hno : ¬ok (rest.foldl f (f s a)) = true :=
        fun hc => hok (foldl_ok_mono ok f hmono rest _ hc)
      simp [hok, hno]

theorem whileTrue_ok_mono {σ : Type} (ok : σ → Bool) (step : σ → Bool × σ)
    (hmono : ∀ s, ok (step s).2 = true → ok s = true) :
    ∀ (fuel : Nat) (s r : σ), whileTrue step fuel s = some r → ok r = true → ok s = true := by
  intro fuel
  induction fuel with
  | zero => intro s r h; simp [whileTrue] at h
  | succ n ih =>
    intro s r h hr
    unfold whileTrue at h
    have hm := hmono s
    rcases hst : step s with ⟨flag, s1⟩
    rw [hst] at h hm
    cases flag with
    | false =>
      simp only [Option.some.injEq] at h
      subst h
      exact hm hr
    | true => exact hm (ih s1 r h hr)

/-- The loop with the failing body returns what the unchecked loop returns when that lies in
`ok`, and fails otherwise. -/
theorem whileTrueOpt_eq {σ : Type} (ok : σ → Bool) (step' : σ → Option (Bool × σ))
    (step : σ → Bool × σ)
    (h : ∀ s, ok s = true → step' s = if ok (step s).2 then some (step s) else none)
    (hmono : ∀ s, ok (step s).2 = true → ok s = true) :
    ∀ (fuel : Nat) (s : σ), ok s = true →
      whileTrueOpt step' fuel s =
        (whileTrue step fuel s).bind fun r => if ok r then some r else none := by
  intro fuel
  induction fuel with
  | zero => intro s _; simp [whileTrueOpt, whileTrue]
  | succ n ih =>
    intro s hs
    unfold whileTrueOpt whileTrue
    rw [h s hs]
    rcases hst : step s with ⟨flag, s1⟩
    by_cases hok : ok s1 = true
    · simp only [hok, if_true]
      cases flag with
      | false => simp [hok]
      | true => exact ih s1 hok
    · simp only [hok]
      cases flag with
      | false => simp [hok]
      | true =>
        simp only [Bool.false_eq_true, if_false]
        cases hw : whileTrue step n s1 with
        | none => rfl
        | some r =>
          have hno : ¬ok r = true := fun hc => hok (whileTrue_ok_mono ok step hmono n s1 r hw hc)
          simp [hno]

theorem trace_fits_iff (T : trace) : T.fits = true ↔ T.Cells.length ≤ 78 := by
  unfold trace.fits trace.Count BOARD_HEIGHT BOARD_WIDTH
  simp only [decide_eq_true_eq]
  omega

theorem trace_push_eq (T : trace) (x y : Int) :
    T.push x y = if (T.snoc x y).fits then some (T.snoc x y) else none := by
  have h2 := trace_fits_iff (T.snoc x y)
  unfold trace.push
  by_cases h : T.Count < BOARD_HEIGHT * BOARD_WIDTH
  · have : (T.snoc x y).fits = true := by
      rw [h2]
      unfold trace.Count BOARD_HEIGHT BOARD_WIDTH at h
      simp only [trace.snoc, List.length_append, List.length_singleton]
      omega
    simp only [h, if_true, this]
    rfl
  · have : ¬(T.snoc x y).fits = true := by
      rw [h2]
      unfold trace.Count BOARD_HEIGHT BOARD_WIDTH at h
      simp only [trace.snoc, List.length_append, List.length_singleton]
      omega
    simp [h, this]

theorem trace_snoc_fits (T : trace) (x y : Int) (h : (T.snoc x y).fits = true) :
    T.fits = true := by
  rw [trace_fits_iff] at h ⊢
  simp only [trace.snoc, List.length_append, List.length_singleton] at h
  omega

/-! ### The power trace -/

theorem Board_DoTraceIter_pos_list_fits (B : board) (T : trace) (Piece : piece) (s : trace_iter)
    (pos : Int × Int × orientation)
    (h : (Board_DoTraceIter_pos_list B T Piece s pos).NewTrace.fits = true) :
    s.NewTrace.fits = true := by
  unfold Board_DoTraceIter_pos_list at h
  simp only at h
  split at h
  · exact h
  · split at h
    · exact h
    · split at h
      · exact h
      · exact trace_snoc_fits _ _ _ h

theorem Board_DoTraceIter_pos_eq (B : board) (T : trace) (Piece : piece) (s : trace_iter)
    (pos : Int × Int × orientation) (hs : s.NewTrace.fits = true) :
    Board_DoTraceIter_pos B T Piece s pos =
      if (Board_DoTraceIter_pos_list B T Piece s pos).NewTrace.fits then
        some (Board_DoTraceIter_pos_list B T Piece s pos)
      else none := by
  unfold Board_DoTraceIter_pos Board_DoTraceIter_pos_list
  simp only
  split
  · simp [hs]
  · split
    · simp [hs]
    · split
      · simp [hs]
      · rw [trace_push_eq]
        by_cases hf : (s.NewTrace.snoc pos.1 pos.2.1).fits = true <;> simp [hf]

theorem Board_DoTraceIter_cell_eq (B : board) (T : trace) (s : trace_iter) (c : Int × Int)
    (hs : s.NewTrace.fits = true) :
    Board_DoTraceIter_cell B T s c =
      if (Board_DoTraceIter_cell_list B T s c).NewTrace.fits then
        some (Board_DoTraceIter_cell_list B T s c)
      else none :=
  foldlOpt_eq (fun s : trace_iter => s.NewTrace.fits) _ _
    (fun s pos hs => Board_DoTraceIter_pos_eq B T _ s pos hs)
    (fun s pos h => Board_DoTraceIter_pos_list_fits B T _ s pos h) _ s hs

theorem Board_DoTraceIter_cell_list_fits (B : board) (T : trace) (s : trace_iter) (c : Int × Int)
    (h : (Board_DoTraceIter_cell_list B T s c).NewTrace.fits = true) :
    s.NewTrace.fits = true :=
  foldl_ok_mono (fun s : trace_iter => s.NewTrace.fits) _
    (fun s pos h => Board_DoTraceIter_pos_list_fits B T _ s pos h) _ s h

theorem Board_DoTraceIter_list_fits (B : board) (s : trace × power_board)
    (h : (Board_DoTraceIter_list B s).2.1.fits = true) : s.1.fits = true :=
  foldl_ok_mono (fun s : trace_iter => s.NewTrace.fits) _
    (fun s c h => Board_DoTraceIter_cell_list_fits B _ s c h) _
    { NewTrace := s.1, Powers := s.2, HasIter := false } h

/-- A pass of `Board_DoTraceIter` is the pass on lists when its result fits the arrays, and
an out-of-bounds write otherwise. -/
theorem Board_DoTraceIter_eq (B : board) (s : trace × power_board) (hs : s.1.fits = true) :
    Board_DoTraceIter B s =
      if (Board_DoTraceIter_list B s).2.1.fits then some (Board_DoTraceIter_list B s)
      else none := by
  unfold Board_DoTraceIter
  rw [foldlOpt_eq (fun s : trace_iter => s.NewTrace.fits) _ _
    (fun s c hs => Board_DoTraceIter_cell_eq B _ s c hs)
    (fun s c h => Board_DoTraceIter_cell_list_fits B _ s c h) _
    { NewTrace := s.1, Powers := s.2, HasIter := false } hs]
  unfold Board_DoTraceIter_list
  simp only
  by_cases hf : (s.1.Cells.foldl (Board_DoTraceIter_cell_list B s.1)
      { NewTrace := s.1, Powers := s.2, HasIter := false }).NewTrace.fits = true <;> simp [hf]

theorem trace_seed_fits (x y : Int) : ({ trace.zero with Cells := [(x, y)] } : trace).fits = true := by
  rw [trace_fits_iff]; simp

/-- The power trace returns what the loop on lists returns when that has at most 78 cells,
and runs into an out-of-bounds write otherwise. -/
theorem Board_Trace_eq (fuel : Nat) (B : board) (x y : Int) (P : power_board) :
    Board_Trace fuel B x y P =
      (Board_Trace_list fuel B x y P).bind fun r => if r.1.fits then some r else none :=
  whileTrueOpt_eq (fun s : trace × power_board => s.1.fits) _ _
    (fun s hs => Board_DoTraceIter_eq B s hs)
    (fun s h => Board_DoTraceIter_list_fits B s h) fuel _ (trace_seed_fits x y)

/-! ### The fire trace -/

theorem Board_DoTraceIterFire_pos_list_fits (B : board) (T : trace) (Piece : piece)
    (s : trace_iter2) (pos : Int × Int × orientation)
    (h : (Board_DoTraceIterFire_pos_list B T Piece s pos).NewTrace.fits = true) :
    s.NewTrace.fits = true := by
  unfold Board_DoTraceIterFire_pos_list at h
  simp only at h
  split at h
  · exact h
  · split at h
    · exact h
    · split at h
      · exact h
      · exact trace_snoc_fits _ _ _ h

theorem Board_DoTraceIterFire_pos_eq (B : board) (T : trace) (Piece : piece) (s : trace_iter2)
    (pos : Int × Int × orientation) (hs : s.NewTrace.fits = true) :
    Board_DoTraceIterFire_pos B T Piece s pos =
      if (Board_DoTraceIterFire_pos_list B T Piece s pos).NewTrace.fits then
        some (Board_DoTraceIterFire_pos_list B T Piece s pos)
      else none := by
  unfold Board_DoTraceIterFire_pos Board_DoTraceIterFire_pos_list
  simp only
  split
  · simp [hs]
  · split
    · simp [hs]
    · split
      · simp [hs]
      · rw [trace_push_eq]
        by_cases hf : (s.NewTrace.snoc pos.1 pos.2.1).fits = true <;> simp [hf]

theorem Board_DoTraceIterFire_cell_list_fits (B : board) (T : trace) (s : trace_iter2)
    (c : Int × Int) (h : (Board_DoTraceIterFire_cell_list B T s c).NewTrace.fits = true) :
    s.NewTrace.fits = true := by
  unfold Board_DoTraceIterFire_cell_list at h
  simp only at h
  split at h
  · exact h
  · exact foldl_ok_mono (fun s : trace_iter2 => s.NewTrace.fits) _
      (fun s pos h => Board_DoTraceIterFire_pos_list_fits B T _ s pos h) _ s h

theorem Board_DoTraceIterFire_cell_eq (B : board) (T : trace) (s : trace_iter2) (c : Int × Int)
    (hs : s.NewTrace.fits = true) :
    Board_DoTraceIterFire_cell B T s c =
      if (Board_DoTraceIterFire_cell_list B T s c).NewTrace.fits then
        some (Board_DoTraceIterFire_cell_list B T s c)
      else none := by
  unfold Board_DoTraceIterFire_cell Board_DoTraceIterFire_cell_list
  simp only
  split
  · simp [hs]
  · exact foldlOpt_eq (fun s : trace_iter2 => s.NewTrace.fits) _ _
      (fun s pos hs => Board_DoTraceIterFire_pos_eq B T _ s pos hs)
      (fun s pos h => Board_DoTraceIterFire_pos_list_fits B T _ s pos h) _ s hs

theorem Board_DoTraceIterFire_list_fits (B : board) (T : trace)
    (h : (Board_DoTraceIterFire_list B T).2.fits = true) : T.fits = true :=
  foldl_ok_mono (fun s : trace_iter2 => s.NewTrace.fits) _
    (fun s c h => Board_DoTraceIterFire_cell_list_fits B _ s c h) _
    { NewTrace := T, HasIter := false } h

theorem Board_DoTraceIterFire_eq (B : board) (T : trace) (hs : T.fits = true) :
    Board_DoTraceIterFire B T =
      if (Board_DoTraceIterFire_list B T).2.fits then some (Board_DoTraceIterFire_list B T)
      else none := by
  unfold Board_DoTraceIterFire
  rw [foldlOpt_eq (fun s : trace_iter2 => s.NewTrace.fits) _ _
    (fun s c hs => Board_DoTraceIterFire_cell_eq B _ s c hs)
    (fun s c h => Board_DoTraceIterFire_cell_list_fits B _ s c h) _
    { NewTrace := T, HasIter := false } hs]
  unfold Board_DoTraceIterFire_list
  simp only
  by_cases hf : (T.Cells.foldl (Board_DoTraceIterFire_cell_list B T)
      { NewTrace := T, HasIter := false }).NewTrace.fits = true <;> simp [hf]

/-- The fire trace returns what the loop on lists returns when that has at most 78 cells,
and runs into an out-of-bounds write otherwise. -/
theorem Board_TraceFire_eq (fuel : Nat) (B : board) (x y : Int) :
    Board_TraceFire fuel B x y =
      (Board_TraceFire_list fuel B x y).bind fun T => if T.fits then some T else none :=
  whileTrueOpt_eq (fun T : trace => T.fits) _ _
    (fun T hs => Board_DoTraceIterFire_eq B T hs)
    (fun T h => Board_DoTraceIterFire_list_fits B T h) fuel _ (trace_seed_fits x y)

/-! ### The junk trace -/

theorem Board_DoTraceIterJunk_pos_list_fits (B : board) (T : trace) (Piece : piece)
    (s : trace_iter2) (pos : Int × Int × orientation)
    (h : (Board_DoTraceIterJunk_pos_list B T Piece s pos).NewTrace.fits = true) :
    s.NewTrace.fits = true := by
  unfold Board_DoTraceIterJunk_pos_list at h
  simp only at h
  split at h
  · exact h
  · split at h
    · exact h
    · split at h
      · exact h
      · split at h
        · exact h
        · split at h
          · split at h
            · exact h
            · exact h
          · exact trace_snoc_fits _ _ _ h

theorem Board_DoTraceIterJunk_pos_eq (B : board) (T : trace) (Piece : piece) (s : trace_iter2)
    (pos : Int × Int × orientation) (hs : s.NewTrace.fits = true) :
    Board_DoTraceIterJunk_pos B T Piece s pos =
      if (Board_DoTraceIterJunk_pos_list B T Piece s pos).NewTrace.fits then
        some (Board_DoTraceIterJunk_pos_list B T Piece s pos)
      else none := by
  have hs2 : ({ s.NewTrace with Junk := true } : trace).fits = true := hs
  have hs3 : ({ s.NewTrace with OpenConns := s.NewTrace.OpenConns + 1 } : trace).fits = true := hs
  unfold Board_DoTraceIterJunk_pos Board_DoTraceIterJunk_pos_list
  simp only
  split
  · simp [hs]
  · split
    · simp [hs]
    · split
      · simp [hs2]
      · split
        · simp [hs]
        · split
          · split
            · simp [hs3]
            · simp [hs]
          · rw [trace_push_eq]
            by_cases hf : (({ s.NewTrace with OpenConns := s.NewTrace.OpenConns + 1 } :
              trace).snoc pos.1 pos.2.1).fits = true <;> simp [hf]

theorem Board_DoTraceIterJunk_cell_list_fits (B : board) (T : trace) (s : trace_iter2)
    (c : Int × Int) (h : (Board_DoTraceIterJunk_cell_list B T s c).NewTrace.fits = true) :
    s.NewTrace.fits = true :=
  foldl_ok_mono (fun s : trace_iter2 => s.NewTrace.fits) _
    (fun s pos h => Board_DoTraceIterJunk_pos_list_fits B T _ s pos h) _ s h

theorem Board_DoTraceIterJunk_cell_eq (B : board) (T : trace) (s : trace_iter2) (c : Int × Int)
    (hs : s.NewTrace.fits = true) :
    Board_DoTraceIterJunk_cell B T s c =
      if (Board_DoTraceIterJunk_cell_list B T s c).NewTrace.fits then
        some (Board_DoTraceIterJunk_cell_list B T s c)
      else none :=
  foldlOpt_eq (fun s : trace_iter2 => s.NewTrace.fits) _ _
    (fun s pos hs => Board_DoTraceIterJunk_pos_eq B T _ s pos hs)
    (fun s pos h => Board_DoTraceIterJunk_pos_list_fits B T _ s pos h) _ s hs

theorem Board_DoTraceIterJunk_list_fits (B : board) (T : trace)
    (h : (Board_DoTraceIterJunk_list B T).2.fits = true) : T.fits = true :=
  foldl_ok_mono (fun s : trace_iter2 => s.NewTrace.fits) _
    (fun s c h => Board_DoTraceIterJunk_cell_list_fits B _ s c h) _
    { NewTrace := T, HasIter := false } h

theorem Board_DoTraceIterJunk_eq (B : board) (T : trace) (hs : T.fits = true) :
    Board_DoTraceIterJunk B T =
      if (Board_DoTraceIterJunk_list B T).2.fits then some (Board_DoTraceIterJunk_list B T)
      else none := by
  unfold Board_DoTraceIterJunk
  rw [foldlOpt_eq (fun s : trace_iter2 => s.NewTrace.fits) _ _
    (fun s c hs => Board_DoTraceIterJunk_cell_eq B _ s c hs)
    (fun s c h => Board_DoTraceIterJunk_cell_list_fits B _ s c h) _
    { NewTrace := T, HasIter := false } hs]
  unfold Board_DoTraceIterJunk_list
  simp only
  by_cases hf : (T.Cells.foldl (Board_DoTraceIterJunk_cell_list B T)
      { NewTrace := T, HasIter := false }).NewTrace.fits = true <;> simp [hf]

/-- The junk trace returns what the loop on lists returns when that has at most 78 cells,
and runs into an out-of-bounds write otherwise. -/
theorem Board_TraceJunk_eq (fuel : Nat) (B : board) (x y : Int) :
    Board_TraceJunk fuel B x y =
      (Board_TraceJunk_list fuel B x y).bind fun T => if T.fits then some T else none :=
  whileTrueOpt_eq (fun T : trace => T.fits) _ _
    (fun T hs => Board_DoTraceIterJunk_eq B T hs)
    (fun T h => Board_DoTraceIterJunk_list_fits B T h) fuel _ (trace_seed_fits x y)

/-- What a trace loop returns is what the loop on lists returns. -/
theorem bind_fits_some {α : Type} (ok : α → Bool) (o : Option α) (r : α)
    (h : (o.bind fun r => if ok r then some r else none) = some r) : o = some r ∧ ok r = true := by
  cases o with
  | none => simp at h
  | some a =>
    simp only [Option.some_bind] at h
    by_cases ha : ok a = true
    · simp only [ha, if_true, Option.some.injEq] at h
      subst h
      exact ⟨rfl, ha⟩
    · simp [ha] at h


/-! ## Board_GetTrace: a fire overload is returned first -/

theorem Board_Trace_list_some (fuel : Nat) (hfuel : 78 ≤ fuel) (B : board) (c : Int × Int)
    (hc : c ∈ rasterOrder) (P : power_board) : ∃ r, Board_Trace_list fuel B c.1 c.2 P = some r := by
  unfold Board_Trace_list
  apply Board_Trace_loop_terminates
  have := unvisited_seed c hc
  simp only [Prod.mk.eta]
  omega

theorem Board_TraceFire_list_some (fuel : Nat) (hfuel : 78 ≤ fuel) (B : board) (c : Int × Int)
    (hc : c ∈ rasterOrder) : ∃ T, Board_TraceFire_list fuel B c.1 c.2 = some T := by
  unfold Board_TraceFire_list
  apply Board_TraceFire_loop_terminates
  have := unvisited_seed c hc
  simp only [Prod.mk.eta]
  omega

theorem Board_TraceFire_list_head (fuel : Nat) (B : board) (c : Int × Int) (T : trace)
    (h : Board_TraceFire_list fuel B c.1 c.2 = some T) : T.Cells.head? = some c := by
  unfold Board_TraceFire_list at h
  refine whileTrue_preserves (Board_DoTraceIterFire_list B) (fun T => T.Cells.head? = some c) ?_
    fuel _ T ?_ h
  · intro T' hT'
    obtain ⟨added, h1, _, _⟩ := Board_DoTraceIterFire_grows B T'
    rw [h1]
    cases hcells : T'.Cells with
    | nil => rw [hcells] at hT'; cases hT'
    | cons a rest => rw [hcells] at hT'; simpa using hT'
  · simp

/-- The first cell of a fire trace is its seed. -/
theorem Board_TraceFire_head (fuel : Nat) (B : board) (c : Int × Int) (T : trace)
    (h : Board_TraceFire fuel B c.1 c.2 = some T) : T.Cells.head? = some c := by
  rw [Board_TraceFire_eq] at h
  exact Board_TraceFire_list_head fuel B c T (bind_fits_some _ _ _ h).1

/-- When the first raster loop of `Board_GetTrace` runs through without a failing trace, it
returns the fire trace of the first Fire cell whose fire trace has more than one cell. -/
theorem Board_GetTrace_scanFire_first (fuel : Nat) (B : board) (c : Int × Int) :
    ∀ (l : List (Int × Int)) (P : power_board) (res : Option trace × power_board),
      l.find? (Board_FireOverload fuel B) = some c →
      Board_GetTrace_scanFire fuel B l P = some res →
      ∃ T, Board_TraceFire fuel B c.1 c.2 = some T ∧ res.1 = some T := by
  intro l
  induction l with
  | nil => intro P res h; simp at h
  | cons a rest ih =>
    intro P res hfind hscan
    unfold Board_GetTrace_scanFire at hscan
    cases hov : Board_FireOverload fuel B a with
    | true =>
      rw [List.find?_cons_of_pos _ hov] at hfind
      cases hfind
      unfold Board_FireOverload at hov
      cases hTa : Board_TraceFire fuel B c.1 c.2 with
      | none => rw [hTa] at hov; simp at hov
      | some Ta =>
        rw [hTa] at hov
        simp only [Bool.and_eq_true, decide_eq_true_eq] at hov
        rw [if_pos hov.1, hTa] at hscan
        simp only at hscan
        rw [if_pos hov.2] at hscan
        simp only [Option.some.injEq] at hscan
        exact ⟨Ta, rfl, by rw [← hscan]⟩
    | false =>
      rw [List.find?_cons_of_neg _ (by simp [hov])] at hfind
      by_cases hfire : B.Pieces a.2 a.1 = PIECE_FIRE
      · rw [if_pos hfire] at hscan
        cases hTa : Board_TraceFire fuel B a.1 a.2 with
        | none => rw [hTa] at hscan; cases hscan
        | some Ta =>
          unfold Board_FireOverload at hov
          rw [hTa] at hov hscan
          simp only [hfire, decide_True, Bool.true_and, decide_eq_false_iff_not] at hov
          simp only at hscan
          rw [if_neg hov] at hscan
          cases hPa : Board_GetTrace_power fuel B a P with
          | none => rw [hPa] at hscan; cases hscan
          | some Pa => rw [hPa] at hscan; exact ih Pa res hfind hscan
      · rw [if_neg hfire] at hscan
        cases hPa : Board_GetTrace_power fuel B a P with
        | none => rw [hPa] at hscan; cases hscan
        | some Pa => rw [hPa] at hscan; exact ih Pa res hfind hscan

/-- When `Board_GetTrace` returns on a board on which some Fire cell has a fire trace of more
than one cell, it returns the fire trace of the first such cell in raster order. -/
theorem Board_GetTrace_fire_first_of_some (fuel : Nat) (B : board) (Powers : power_board)
    (c : Int × Int) (r : trace × power_board)
    (hfirst : rasterOrder.find? (Board_FireOverload fuel B) = some c)
    (hr : Board_GetTrace fuel B Powers = some r) :
    Board_TraceFire fuel B c.1 c.2 = some r.1 ∧ r.1.Cells.head? = some c ∧
      B.Pieces c.2 c.1 = PIECE_FIRE ∧ r.1.Count > 1 := by
  unfold Board_GetTrace at hr
  cases hscan : Board_GetTrace_scanFire fuel B rasterOrder Powers with
  | none => rw [hscan] at hr; cases hr
  | some res =>
    obtain ⟨T, hT, hres⟩ := Board_GetTrace_scanFire_first fuel B c rasterOrder Powers res hfirst hscan
    rw [hscan] at hr
    rcases res with ⟨o, P⟩
    simp only at hres
    subst hres
    simp only [Option.some.injEq] at hr
    subst hr
    refine ⟨hT, Board_TraceFire_head fuel B c T hT, ?_⟩
    have hov := List.find?_some hfirst
    unfold Board_FireOverload at hov
    rw [hT] at hov
    simpa using hov

/-- The first raster loop of `Board_GetTrace` fails at a Destination whose power trace fails,
when no cell before it is a Fire cell or a Destination. -/
theorem Board_GetTrace_scanFire_none (fuel : Nat) (B : board) (c : Int × Int)
    (hdst : B.Pieces c.2 c.1 = PIECE_DST) (post : List (Int × Int)) (P : power_board)
    (hnone : Board_Trace fuel B c.1 c.2 P = none) :
    ∀ (pre : List (Int × Int)),
      (∀ d ∈ pre, B.Pieces d.2 d.1 ≠ PIECE_FIRE ∧ B.Pieces d.2 d.1 ≠ PIECE_DST) →
      Board_GetTrace_scanFire fuel B (pre ++ c :: post) P = none := by
  intro pre
  induction pre with
  | nil =>
    intro _
    simp only [List.nil_append]
    unfold Board_GetTrace_scanFire
    rw [if_neg (by rw [hdst]; decide)]
    unfold Board_GetTrace_power
    rw [if_pos hdst, hnone]
    rfl
  | cons a rest ih =>
    intro hpre
    have ha := hpre a (List.mem_cons_self _ _)
    simp only [List.cons_append]
    unfold Board_GetTrace_scanFire
    rw [if_neg ha.1]
    unfold Board_GetTrace_power
    rw [if_neg ha.2]
    exact ih fun d hd => hpre d (List.mem_cons_of_mem _ hd)

/-! ## Board_GravityStep keeps the pieces of every column -/

theorem flatMap_comm_perm {α β γ : Type} (l1 : List α) (l2 : List β) (g : α → β → List γ) :
    (l1.flatMap fun a => l2.flatMap fun b => g a b).Perm
      (l2.flatMap fun b => l1.flatMap fun a => g a b) := by
  rw [← Multiset.coe_eq_coe]
  have h := @Multiset.bind_bind α β γ (l1 : Multiset α) (l2 : Multiset β)
    (fun a b => (g a b : Multiset γ))
  simpa only [Multiset.coe_bind] using h

theorem filter_map_eq_flatMap {α β : Type} (p : β → Bool) (f : α → β) (l : List α) :
    (l.map f).filter p = l.flatMap fun a => if p (f a) then [f a] else [] := by
  induction l with
  | nil => rfl
  | cons a rest ih =>
    rw [List.map_cons, List.flatMap_cons, List.filter_cons, ih]
    split <;> simp

/-- The pieces of the board in raster order are a permutation of the pieces of its six
columns. -/
theorem board_pieces_perm_columns (B : board) :
    B.pieces.Perm ((upto 6).flatMap fun x => B.columnPieces x) := by
  have h1 : B.pieces = (upto 13).flatMap fun y => (upto 6).flatMap fun x =>
      if decide (B.Pieces y x ≠ PIECE_EMPTY) then [B.Pieces y x] else [] := by
    unfold board.pieces rasterOrder
    rw [filter_map_eq_flatMap, List.flatMap_assoc]
    apply List.flatMap_congr
    intro y _
    rw [List.flatMap_map]
  have h2 : ∀ x, B.columnPieces x = (upto 13).flatMap fun y =>
      if decide (B.Pieces y x ≠ PIECE_EMPTY) then [B.Pieces y x] else [] := by
    intro x
    unfold board.columnPieces board.column
    rw [filter_map_eq_flatMap]
  rw [h1]
  simp only [h2]
  exact flatMap_comm_perm _ _ _

theorem swap_filter (c c' : Int → piece) :
    ∀ (n s k : Nat), s ≤ k → k + 1 < s + n → c k ≠ PIECE_EMPTY → c (k + 1) = PIECE_EMPTY →
      c' k = PIECE_EMPTY → c' (k + 1) = c k → (∀ j : Int, j ≠ k → j ≠ k + 1 → c' j = c j) →
      (((List.range' s n).map Int.ofNat).map c').filter (fun p => decide (p ≠ PIECE_EMPTY)) =
        (((List.range' s n).map Int.ofNat).map c).filter (fun p => decide (p ≠ PIECE_EMPTY)) := by
  intro n
  induction n with
  | zero => intro s k h1 h2; omega
  | succ n ih =>
    intro s k h1 h2 hk hk1 hk' hk1' hother
    rw [List.range'_succ]
    by_cases hs : s = k
    · subst hs
      obtain ⟨m, rfl⟩ : ∃ m, n = m + 1 := ⟨n - 1, by omega⟩
      rw [List.range'_succ]
      have htail : ((List.range' (s + 1 + 1) m).map Int.ofNat).map c' =
          ((List.range' (s + 1 + 1) m).map Int.ofNat).map c := by
        rw [List.map_map, List.map_map]
        apply List.map_congr_left
        intro j hj
        rw [List.mem_range'_1] at hj
        simp only [Function.comp, Int.ofNat_eq_coe]
        apply hother <;> omega
      simp only [List.map_cons, Int.ofNat_eq_coe, htail, List.filter_cons]
      push_cast
      simp [hk, hk1, hk', hk1']
    · have hhead : c' (s : Int) = c s := by apply hother <;> omega
      simp only [List.map_cons, Int.ofNat_eq_coe, hhead, List.filter_cons]
      have := ih (s + 1) k (by omega) (by omega) hk hk1 hk' hk1' hother
      simp only [Int.ofNat_eq_coe] at this
      rw [this]

theorem foldl_preserves_mem {α β : Type} (f : α → β → α) (Inv : α → Prop) :
    ∀ (l : List β) (s : α), (∀ s b, b ∈ l → Inv s → Inv (f s b)) → Inv s →
      Inv (l.foldl f s) := by
  intro l
  induction l with
  | nil => intro s _ hs; exact hs
  | cons b rest ih =>
    intro s h hs
    exact ih _ (fun s' b' hb' => h s' b' (List.mem_cons_of_mem _ hb'))
      (h s b (List.mem_cons_self _ _) hs)

theorem Board_GravityStep_cell_column (y : Int) (hy : y ∈ upto 12) (s : board × Bool)
    (x x0 : Int) :
    (Board_GravityStep_cell y s x).1.columnPieces x0 = s.1.columnPieces x0 := by
  unfold Board_GravityStep_cell
  split
  · rfl
  · rename_i hmove
    simp only [not_or, not_not] at hmove
    rw [mem_upto] at hy
    by_cases hx : x0 = x
    · subst hx
      unfold board.columnPieces board.column upto
      rw [List.range_eq_range']
      obtain ⟨k, rfl⟩ : ∃ k : Nat, y = k := ⟨y.toNat, by omega⟩
      apply swap_filter (fun y' => s.1.Pieces y' x0) _ 13 0 k (by omega) (by omega)
        hmove.1 hmove.2
      · simp [board.set]
      · simp [board.set]
      · intro j h1 h2
        simp [board.set, h1, h2]
    · unfold board.columnPieces board.column
      congr 1
      apply List.map_congr_left
      intro y' _
      simp [board.set, hx]

/-- One call of `Board_GravityStep` leaves the sequence of non-empty pieces of every column
as it was. -/
theorem Board_GravityStep_column (B : board) (x0 : Int) :
    (Board_GravityStep B).2.columnPieces x0 = B.columnPieces x0 := by
  unfold Board_GravityStep
  simp only
  apply foldl_preserves_mem Board_GravityStep_row
    (fun s : board × Bool => s.1.columnPieces x0 = B.columnPieces x0)
  · intro s y hy hs
    unfold Board_GravityStep_row
    apply foldl_preserves (Board_GravityStep_cell y)
      (fun s : board × Bool => s.1.columnPieces x0 = B.columnPieces x0) _ _ _ hs
    intro s' x hs'
    rw [Board_GravityStep_cell_column y hy s' x x0]
    exact hs'
  · rfl

theorem board_pieces_perm_of_columns (B B' : board)
    (h : ∀ x, B'.columnPieces x = B.columnPieces x) : B'.pieces.Perm B.pieces := by
  refine (board_pieces_perm_columns B').trans ?_
  simp only [h]
  exact (board_pieces_perm_columns B).symm

/-- C3. One call of `Board_GravityStep` keeps, for every column, the sequence of non-empty
pieces read top to bottom, and hence the multiset of non-empty pieces of the board; the
same holds for the board returned by the loop `while (Board_GravityStep(board));`. -/
theorem Board_GravityStep_preserves_pieces (B : board) :
    ((∀ x, (Board_GravityStep B).2.columnPieces x = B.columnPieces x) ∧
      (Board_GravityStep B).2.pieces.Perm B.pieces) ∧
    ∀ (fuel : Nat) (B' : board), whileTrue Board_GravityStep fuel B = some B' →
      (∀ x, B'.columnPieces x = B.columnPieces x) ∧ B'.pieces.Perm B.pieces := by
  refine ⟨⟨Board_GravityStep_column B, board_pieces_perm_of_columns _ _
    (Board_GravityStep_column B)⟩, ?_⟩
  intro fuel B' h
  have hcol : ∀ x, B'.columnPieces x = B.columnPieces x := by
    refine whileTrue_preserves Board_GravityStep
      (fun B1 => ∀ x, B1.columnPieces x = B.columnPieces x) ?_ fuel B B' (fun _ => rfl) h
    intro B1 h1 x
    rw [Board_GravityStep_column B1 x]
    exact h1 x
  exact ⟨hcol, board_pieces_perm_of_columns _ _ hcol⟩

/-! ## Board_GravityStep: settled boards and termination of the settle loop -/

theorem Board_GravityStep_cell_other (y : Int) (s : board × Bool) (x x' : Int) (hx : x' ≠ x) :
    (fun y' => (Board_GravityStep_cell y s x).1.Pieces y' x') = fun y' => s.1.Pieces y' x' := by
  funext y'
  unfold Board_GravityStep_cell
  split
  · rfl
  · simp [board.set, hx]

theorem Board_GravityStep_cell_same (y : Int) (s : board × Bool) (x : Int) :
    (fun y' => (Board_GravityStep_cell y s x).1.Pieces y' x) =
      columnStep y (fun y' => s.1.Pieces y' x) := by
  unfold Board_GravityStep_cell columnStep
  split
  · rfl
  · funext y'
    simp only [board.set, and_true]

theorem columnStep_other (y : Int) (c : Int → piece) (i : Int) (h1 : i ≠ y) (h2 : i ≠ y + 1) :
    columnStep y c i = c i := by
  unfold columnStep
  split
  · rfl
  · show (if i = y + 1 then c y else if i = y then PIECE_EMPTY else c i) = c i
    rw [if_neg h2, if_neg h1]

theorem columnStep_still (y : Int) (c : Int → piece) (h : ¬hangs c y) : columnStep y c = c := by
  unfold columnStep
  rw [if_pos]
  unfold hangs at h
  by_cases h1 : c y = PIECE_EMPTY
  · exact Or.inl h1
  · exact Or.inr fun h2 => h ⟨h1, h2⟩

theorem columnStep_moved (y : Int) (c : Int → piece) (h : hangs c y) :
    columnStep y c y = PIECE_EMPTY ∧ columnStep y c (y + 1) = c y := by
  unfold columnStep
  rw [if_neg]
  · constructor
    · show (if y = y + 1 then c y else if y = y then PIECE_EMPTY else c y) = PIECE_EMPTY
      rw [if_neg (by omega), if_pos rfl]
    · show (if y + 1 = y + 1 then c y else _) = c y
      rw [if_pos rfl]
  · rintro (h1 | h1)
    · exact h.1 h1
    · exact h1 h.2

theorem columnStep_passInv (k y : Int) (hy0 : 0 ≤ y) (hy : y < 12) (c : Int → piece)
    (h : passInv k y c) : passInv k (y + 1) (columnStep y c) := by
  unfold passInv at h ⊢
  by_cases hyk : y < k - 1
  · have e0 : max y (k - 1) = k - 1 := max_eq_right (by omega)
    have e1 : max (y + 1) (k - 1) = k - 1 := max_eq_right (by omega)
    rw [e0] at h
    rw [e1]
    obtain ⟨hA, _⟩ := h
    constructor
    · intro j hj1 hj0 hj2 hj3
      unfold hangs
      rw [columnStep_other y c j (by omega) (by omega),
        columnStep_other y c (j + 1) (by omega) (by omega)]
      exact hA j hj1 hj0 hj2 hj3
    · intro _ _ j hj1 hj2
      omega
  · have e0 : max y (k - 1) = y := max_eq_left (by omega)
    have e1 : max (y + 1) (k - 1) = y + 1 := max_eq_left (by omega)
    rw [e0] at h
    rw [e1]
    obtain ⟨hA, hB⟩ := h
    by_cases hh : hangs c y
    · obtain ⟨m1, m2⟩ := columnStep_moved y c hh
      constructor
      · intro j hj1 hj0 hj2 hj3
        unfold hangs
        by_cases hjy : j < y
        · rw [columnStep_other y c j (by omega) (by omega)]
          intro hcon
          exact hcon.1 (hB (by omega) hh j hj1 hjy)
        · by_cases hjy' : j = y
          · subst hjy'
            intro hcon
            exact hcon.1 m1
          · rw [columnStep_other y c j (by omega) (by omega),
              columnStep_other y c (j + 1) (by omega) (by omega)]
            exact hA j hj1 hj0 hj2 (by omega)
      · intro hlt _ j hj1 hj2
        by_cases hjy : j = y
        · subst hjy
          exact m1
        · rw [columnStep_other y c j hjy (by omega)]
          exact hB (by omega) hh j hj1 (by omega)
    · rw [columnStep_still y c hh]
      constructor
      · intro j hj1 hj0 hj2 hj3
        by_cases hjy : j = y
        · subst hjy
          exact hh
        · exact hA j hj1 hj0 hj2 hjy
      · intro hlt hh1 j _ _
        exact absurd hh1 (hA (y + 1) (by omega) (by omega) hlt (by omega))

theorem Board_GravityStep_cell_flag (y : Int) (s : board × Bool) (x : Int)
    (h : s.2 = true) : (Board_GravityStep_cell y s x).2 = true := by
  unfold Board_GravityStep_cell
  split
  · exact h
  · rfl

theorem Board_GravityStep_cell_unmoved (B : board) (y : Int) (s : board × Bool) (x : Int)
    (h : s.2 = false → s.1 = B) :
    (Board_GravityStep_cell y s x).2 = false → (Board_GravityStep_cell y s x).1 = B := by
  unfold Board_GravityStep_cell
  split
  · exact h
  · intro hf; cases hf

theorem Board_GravityStep_row_flag (y : Int) (s : board × Bool) (h : s.2 = true) :
    (Board_GravityStep_row s y).2 = true :=
  foldl_preserves (Board_GravityStep_cell y) (fun s => s.2 = true)
    (fun s x hs => Board_GravityStep_cell_flag y s x hs) _ s h

theorem Board_GravityStep_row_unmoved (B : board) (y : Int) (s : board × Bool)
    (h : s.2 = false → s.1 = B) :
    (Board_GravityStep_row s y).2 = false → (Board_GravityStep_row s y).1 = B :=
  foldl_preserves (Board_GravityStep_cell y) (fun s => s.2 = false → s.1 = B)
    (fun s x hs => Board_GravityStep_cell_unmoved B y s x hs) _ s h

/-- When `Board_GravityStep` returns false the board is unchanged. -/
theorem Board_GravityStep_false_unchanged (B : board) (h : (Board_GravityStep B).1 = false) :
    (Board_GravityStep B).2 = B := by
  have key := foldl_preserves Board_GravityStep_row (fun s => s.2 = false → s.1 = B)
    (fun s y hs => Board_GravityStep_row_unmoved B y s hs) (upto 12) (B, false) (fun _ => rfl)
  unfold Board_GravityStep at h ⊢
  simp only at h ⊢
  exact key h

/-- A piece with an empty cell directly below it makes `Board_GravityStep` return true. -/
theorem Board_GravityStep_true_of_hangs (B : board) (x0 y0 : Int) (hx : x0 ∈ upto 6)
    (hy : y0 ∈ upto 12)
    (hh : B.Pieces y0 x0 ≠ PIECE_EMPTY ∧ B.Pieces (y0 + 1) x0 = PIECE_EMPTY) :
    (Board_GravityStep B).1 = true := by
  obtain ⟨l1, l2, hl⟩ := List.append_of_mem hy
  obtain ⟨m1, m2, hm⟩ := List.append_of_mem hx
  unfold Board_GravityStep
  simp only
  rw [hl, List.foldl_append, List.foldl_cons]
  apply foldl_preserves Board_GravityStep_row (fun s => s.2 = true)
    (fun s y hs => Board_GravityStep_row_flag y s hs)
  have hA : (l1.foldl Board_GravityStep_row (B, false)).2 = false →
      (l1.foldl Board_GravityStep_row (B, false)).1 = B :=
    foldl_preserves Board_GravityStep_row (fun s => s.2 = false → s.1 = B)
      (fun s y hs => Board_GravityStep_row_unmoved B y s hs) _ (B, false) (fun _ => rfl)
  generalize l1.foldl Board_GravityStep_row (B, false) = sA at hA
  unfold Board_GravityStep_row
  rw [hm, List.foldl_append, List.foldl_cons]
  apply foldl_preserves (Board_GravityStep_cell y0) (fun s => s.2 = true)
    (fun s x hs => Board_GravityStep_cell_flag y0 s x hs)
  have hB : (m1.foldl (Board_GravityStep_cell y0) sA).2 = false →
      (m1.foldl (Board_GravityStep_cell y0) sA).1 = B :=
    foldl_preserves (Board_GravityStep_cell y0) (fun s => s.2 = false → s.1 = B)
      (fun s x hs => Board_GravityStep_cell_unmoved B y0 s x hs) _ sA hA
  generalize m1.foldl (Board_GravityStep_cell y0) sA = sB at hB
  cases hflag : sB.2 with
  | true => exact Board_GravityStep_cell_flag y0 sB x0 hflag
  | false =>
    have hb := hB hflag
    unfold Board_GravityStep_cell
    rw [if_neg]
    rw [hb]
    rintro (h1 | h1)
    · exact hh.1 h1
    · exact h1 hh.2

/-- When `Board_GravityStep` returns false no piece of the board has an empty cell directly
below it. -/
theorem Board_GravityStep_false_settled (B : board) (h : (Board_GravityStep B).1 = false) :
    B.settledFrom 0 := by
  intro x y hx0 hx1 _ hy0 hy1 hh
  unfold BOARD_WIDTH at hx1
  unfold BOARD_HEIGHT at hy1
  have := Board_GravityStep_true_of_hangs B x y ((mem_upto 6 x).mpr ⟨hx0, hx1⟩)
    ((mem_upto 12 y).mpr ⟨hy0, by omega⟩) hh
  rw [h] at this
  cases this

/-- On a board where no piece has an empty cell directly below it `Board_GravityStep`
returns false and leaves the board as it is. -/
theorem Board_GravityStep_settled (B : board) (h : B.settledFrom 0) :
    Board_GravityStep B = (false, B) := by
  have hcell : ∀ y ∈ upto 12, ∀ x ∈ upto 6,
      Board_GravityStep_cell y (B, false) x = (B, false) := by
    intro y hy x hx
    rw [mem_upto] at hy hx
    unfold Board_GravityStep_cell
    rw [if_pos]
    have := h x y hx.1 (by unfold BOARD_WIDTH; omega) hy.1 hy.1
      (by unfold BOARD_HEIGHT; omega)
    by_cases h1 : B.Pieces y x = PIECE_EMPTY
    · exact Or.inl h1
    · exact Or.inr fun h2 => this ⟨h1, h2⟩
  have hrow : ∀ y ∈ upto 12, Board_GravityStep_row (B, false) y = (B, false) := by
    intro y hy
    unfold Board_GravityStep_row
    exact foldl_preserves_mem (Board_GravityStep_cell y) (fun s => s = (B, false)) _ _
      (fun s x hx hs => by rw [hs]; exact hcell y hy x hx) rfl
  have hall : (upto 12).foldl Board_GravityStep_row (B, false) = (B, false) :=
    foldl_preserves_mem Board_GravityStep_row (fun s => s = (B, false)) _ _
      (fun s y hy hs => by rw [hs]; exact hrow y hy) rfl
  unfold Board_GravityStep
  simp only
  rw [hall]

/-- A fold whose step at `x` changes only what belongs to `x`: a property that each step
establishes for its own `x` holds for all `x` of the list after the fold. -/
theorem foldl_columns {S : Type} (f : S → Int → S) (Pre Post : Int → S → Prop)
    (hsame : ∀ s x, Pre x s → Post x (f s x))
    (hpre : ∀ s x x', x' ≠ x → Pre x' s → Pre x' (f s x))
    (hpost : ∀ s x x', x' ≠ x → Post x' s → Post x' (f s x)) :
    ∀ (l : List Int), l.Nodup → ∀ s, (∀ x ∈ l, Pre x s) → ∀ x ∈ l, Post x (l.foldl f s) := by
  intro l
  induction l with
  | nil => intro _ s _ x hx; cases hx
  | cons a rest ih =>
    intro hnd s hs x hx
    rw [List.nodup_cons] at hnd
    rw [List.foldl_cons]
    rcases List.mem_cons.mp hx with rfl | hx'
    · apply foldl_preserves_mem f (Post x) rest
      · intro s' b hb hs'
        exact hpost s' b x (fun h => hnd.1 (h ▸ hb)) hs'
      · exact hsame s x (hs x (List.mem_cons_self _ _))
    · apply ih hnd.2 (f s a) _ x hx'
      intro x' hx''
      exact hpre s a x' (fun h => hnd.1 (h ▸ hx'')) (hs x' (List.mem_cons_of_mem _ hx''))

/-- A fold over consecutive counter values with an invariant indexed by the counter. -/
theorem foldl_counter {S : Type} (f : S → Int → S) (J : Int → S → Prop) :
    ∀ (n a : Nat) (s : S), J a s →
      (∀ (i : Nat) (s : S), a ≤ i → i < a + n → J i s → J (i + 1) (f s i)) →
      J ((a + n : Nat) : Int) (((List.range' a n).map Int.ofNat).foldl f s) := by
  intro n
  induction n with
  | zero => intro a s h _; simpa using h
  | succ n ih =>
    intro a s h hstep
    rw [List.range'_succ, List.map_cons, List.foldl_cons]
    have h1 : J ((a + 1 : Nat) : Int) (f s (Int.ofNat a)) := by
      have := hstep a s (le_refl _) (by omega) h
      simpa using this
    have := ih (a + 1) (f s (Int.ofNat a)) h1
      (fun i s' hi1 hi2 hJ => hstep i s' (by omega) (by omega) hJ)
    have e : a + 1 + n = a + (n + 1) := by omega
    rw [e] at this
    exact this

theorem upto_nodup (n : Nat) : (upto n).Nodup := by
  unfold upto
  apply List.Nodup.map
  · intro a b h
    exact Int.ofNat.inj h
  · exact List.nodup_range n

theorem Board_GravityStep_row_passInv (k y : Int) (hy0 : 0 ≤ y) (hy : y < 12)
    (s : board × Bool) (h : ∀ x ∈ upto 6, passInv k y (fun y' => s.1.Pieces y' x)) :
    ∀ x ∈ upto 6, passInv k (y + 1) (fun y' => (Board_GravityStep_row s y).1.Pieces y' x) := by
  unfold Board_GravityStep_row
  apply foldl_columns (Board_GravityStep_cell y)
    (fun x s => passInv k y (fun y' => s.1.Pieces y' x))
    (fun x s => passInv k (y + 1) (fun y' => s.1.Pieces y' x)) _ _ _ (upto 6) (upto_nodup 6) s h
  · intro s x hs
    show passInv k (y + 1) (fun y' => (Board_GravityStep_cell y s x).1.Pieces y' x)
    rw [Board_GravityStep_cell_same]
    exact columnStep_passInv k y hy0 hy _ hs
  · intro s x x' hx hs
    show passInv k y (fun y' => (Board_GravityStep_cell y s x).1.Pieces y' x')
    rw [Board_GravityStep_cell_other y s x x' hx]
    exact hs
  · intro s x x' hx hs
    show passInv k (y + 1) (fun y' => (Board_GravityStep_cell y s x).1.Pieces y' x')
    rw [Board_GravityStep_cell_other y s x x' hx]
    exact hs

/-- One pass of `Board_GravityStep` extends the settled rows by one: when rows `k ..` are
settled before the pass, rows `k-1 ..` are settled after it. -/
theorem Board_GravityStep_progress (B : board) (k : Int) (hk : 1 ≤ k)
    (h : B.settledFrom k) : (Board_GravityStep B).2.settledFrom (k - 1) := by
  have hstart : ∀ x ∈ upto 6, passInv k ((0 : Nat) : Int) (fun y' => B.Pieces y' x) := by
    intro x hx
    rw [mem_upto] at hx
    have e0 : max ((0 : Nat) : Int) (k - 1) = k - 1 := max_eq_right (by omega)
    unfold passInv
    rw [e0]
    constructor
    · intro j hj1 hj0 hj2 hj3
      exact h x j hx.1 (by unfold BOARD_WIDTH; omega) (by omega) hj0
        (by unfold BOARD_HEIGHT; omega)
    · intro _ _ j hj1 hj2
      omega
  have hend := foldl_counter Board_GravityStep_row
    (fun y s => ∀ x ∈ upto 6, passInv k y (fun y' => s.1.Pieces y' x)) 12 0 (B, false)
    hstart (fun i s hi0 hi1 hJ =>
      Board_GravityStep_row_passInv k i (by omega) (by omega) s hJ)
  intro x y hx0 hx1 hyk hy0 hy1
  unfold BOARD_WIDTH at hx1
  unfold BOARD_HEIGHT at hy1
  have hx : x ∈ upto 6 := (mem_upto 6 x).mpr ⟨hx0, hx1⟩
  have hfin := (hend x hx).1 y hyk hy0 (by omega)
    (by have := le_max_left (((0 + 12 : Nat) : Int)) (k - 1); push_cast at this ⊢; omega)
  unfold Board_GravityStep
  simp only
  unfold upto
  rw [List.range_eq_range']
  exact hfin

/-- The loop `while (Board_GravityStep(board));` returns within `n+1` calls on a board
whose rows `n ..` are settled, and the board it returns is settled. -/
theorem Board_GravityStep_loop_settles :
    ∀ (n : Nat) (B : board), B.settledFrom n →
      ∃ B', whileTrue Board_GravityStep (n + 1) B = some B' ∧ B'.settledFrom 0 := by
  intro n
  induction n with
  | zero =>
    intro B h
    refine ⟨B, ?_, h⟩
    unfold whileTrue
    rw [Board_GravityStep_settled B h]
  | succ n ih =>
    intro B h
    unfold whileTrue
    have hp := Board_GravityStep_progress B ((n + 1 : Nat) : Int) (by push_cast; omega) h
    have e : (((n + 1 : Nat) : Int) - 1) = (n : Int) := by push_cast; omega
    rw [e] at hp
    have hu := Board_GravityStep_false_unchanged B
    have hs := Board_GravityStep_false_settled B
    rcases hst : Board_GravityStep B with ⟨flag, B1⟩
    rw [hst] at hp hu hs
    cases flag with
    | false =>
      have hB : B1 = B := hu rfl
      exact ⟨B1, rfl, hB ▸ hs rfl⟩
    | true => exact ih B1 hp

theorem board_settledFrom_12 (B : board) : B.settledFrom ((12 : Nat) : Int) := by
  intro x y _ _ hyk _ hy1
  unfold BOARD_HEIGHT at hy1
  push_cast at hyk
  omega

theorem whileTrue_of_false {σ : Type} (step : σ → Bool × σ) (n : Nat) (s s' : σ)
    (h : step s = (false, s')) : whileTrue step (n + 1) s = some s' := by
  unfold whileTrue
  rw [h]

/-- The state returned by a `while (step(&s));` loop is the result of a call that returned
false. -/
theorem whileTrue_final {σ : Type} (step : σ → Bool × σ) :
    ∀ (fuel : Nat) (s s' : σ), whileTrue step fuel s = some s' →
      ∃ t, step t = (false, s') := by
  intro fuel
  induction fuel with
  | zero => intro s s' h; simp [whileTrue] at h
  | succ n ih =>
    intro s s' h
    unfold whileTrue at h
    rcases hst : step s with ⟨flag, s1⟩
    rw [hst] at h
    cases flag with
    | false =>
      simp only [Option.some.injEq] at h
      exact ⟨s, by rw [hst, h]⟩
    | true => exact ih s1 s' h

/-- C4 (as amended). For every board the loop `while (Board_GravityStep(board));` returns
within `BOARD_HEIGHT = 13` calls, and in the board it returns (with whatever fuel) no
non-empty cell `(x, y)`, `0 <= y < BOARD_HEIGHT-1`, has an empty cell `(x, y+1)` directly
below it. -/
theorem Board_GravityStep_fixpoint_settled (B : board) :
    (∃ B', whileTrue Board_GravityStep 13 B = some B') ∧
    ∀ (fuel : Nat) (B' : board), whileTrue Board_GravityStep fuel B = some B' →
      ∀ x y, 0 ≤ x → x < BOARD_WIDTH → 0 ≤ y → y < BOARD_HEIGHT - 1 →
        ¬(B'.Pieces y x ≠ PIECE_EMPTY ∧ B'.Pieces (y + 1) x = PIECE_EMPTY) := by
  constructor
  · obtain ⟨B', h, _⟩ := Board_GravityStep_loop_settles 12 B (board_settledFrom_12 B)
    exact ⟨B', h⟩
  · intro fuel B' h x y hx0 hx1 hy0 hy1
    obtain ⟨t, ht⟩ := whileTrue_final Board_GravityStep fuel B B' h
    have hflag : (Board_GravityStep t).1 = false := by rw [ht]
    have hB : (Board_GravityStep t).2 = t := Board_GravityStep_false_unchanged t hflag
    have hs := Board_GravityStep_false_settled t hflag
    have e : B' = t := by rw [← hB, ht]
    rw [e]
    exact hs x y hx0 hx1 hy0 hy0 hy1

/-- C4 (as stated) fails: `bottomBoard` is returned unchanged by the settle loop, and its
empty cell `(0, 11)` lies directly above the non-empty cell `(0, 12)`. -/
theorem Board_GravityStep_fixpoint_empty_above_piece :
    ∃ B', whileTrue Board_GravityStep 13 bottomBoard = some B' ∧
      ((0 : Int) ≤ 11 ∧ (11 : Int) < BOARD_HEIGHT - 1) ∧
      B'.Pieces 11 0 = PIECE_EMPTY ∧ B'.Pieces (11 + 1) 0 ≠ PIECE_EMPTY := by
  have hs : bottomBoard.settledFrom 0 := by
    intro x y _ _ _ _ hy1 hh
    unfold BOARD_HEIGHT at hy1
    have h1 := hh.1
    unfold bottomBoard at h1
    simp only [ne_eq, ite_eq_right_iff, not_forall] at h1
    obtain ⟨h2, _⟩ := h1
    omega
  exact ⟨bottomBoard,
    whileTrue_of_false Board_GravityStep 12 bottomBoard bottomBoard
      (Board_GravityStep_settled bottomBoard hs),
    by decide, by decide, by decide⟩

/-! ## Brick_Random: the rejection loop can always accept -/

theorem Brick_Random_loop_accept (Ty : brick_type) (nb : brick) (r0 r1 : Nat)
    (rest : List Nat)
    (h0 : CHANCE_TBL.getD (r0 % 14) PIECE_EMPTY ≠ PIECE_FIRE)
    (h1 : CHANCE_TBL.getD (r1 % 14) PIECE_EMPTY ≠ PIECE_FIRE)
    (hacc : Brick_Random_accepts Ty { nb with
      Pieces0 := CHANCE_TBL.getD (r0 % 14) PIECE_EMPTY
      Pieces1 := CHANCE_TBL.getD (r1 % 14) PIECE_EMPTY } = true) :
    Brick_Random_loop Ty nb (r0 :: r1 :: rest) =
      some { nb with
        Pieces0 := CHANCE_TBL.getD (r0 % 14) PIECE_EMPTY
        Pieces1 := CHANCE_TBL.getD (r1 % 14) PIECE_EMPTY } := by
  unfold Brick_Random_loop
  simp only
  rw [if_neg (fun h => h.elim h0 h1), if_pos hacc]

theorem Brick_Random_accepts_pieces (Ty : brick_type) (b : brick) :
    Brick_Random_accepts Ty b =
      Brick_Random_accepts Ty
        { x := 0, y := 0, Pieces0 := b.Pieces0, Pieces1 := b.Pieces1,
          Orientation := b.Orientation } := rfl

/-- C11. For every brick type other than `TYPE_FIRE` and each initial orientation (`RIGHT`,
`DOWN`) there are two indices into the 14-entry `CHANCE_TBL` on which the rejection loop
accepts the drawn pair and returns it. -/
theorem Brick_Random_loop_satisfiable (Ty : brick_type) (o : orientation) (nb : brick)
    (hTy : Ty ≠ TYPE_FIRE) (ho : o = RIGHT ∨ o = DOWN) :
    ∃ r0 r1 : Nat, r0 < 14 ∧ r1 < 14 ∧ ∀ rest : List Nat,
      Brick_Random_loop Ty { nb with Orientation := o } (r0 :: r1 :: rest) =
        some { nb with
          Orientation := o
          Pieces0 := CHANCE_TBL.getD r0 PIECE_EMPTY
          Pieces1 := CHANCE_TBL.getD r1 PIECE_EMPTY } := by
  have key : ∀ (r0 r1 : Nat), r0 < 14 → r1 < 14 →
      CHANCE_TBL.getD (r0 % 14) PIECE_EMPTY ≠ PIECE_FIRE →
      CHANCE_TBL.getD (r1 % 14) PIECE_EMPTY ≠ PIECE_FIRE →
      Brick_Random_accepts Ty
        { x := 0, y := 0, Pieces0 := CHANCE_TBL.getD (r0 % 14) PIECE_EMPTY,
          Pieces1 := CHANCE_TBL.getD (r1 % 14) PIECE_EMPTY, Orientation := o } = true →
      ∃ r0 r1 : Nat, r0 < 14 ∧ r1 < 14 ∧ ∀ rest : List Nat,
        Brick_Random_loop Ty { nb with Orientation := o } (r0 :: r1 :: rest) =
          some { nb with
            Orientation := o
            Pieces0 := CHANCE_TBL.getD r0 PIECE_EMPTY
            Pieces1 := CHANCE_TBL.getD r1 PIECE_EMPTY } := by
    intro r0 r1 h0 h1 hf0 hf1 hacc
    refine ⟨r0, r1, h0, h1, fun rest => ?_⟩
    have := Brick_Random_loop_accept Ty { nb with Orientation := o } r0 r1 rest hf0 hf1
      (by rw [Brick_Random_accepts_pieces]; exact hacc)
    rw [Nat.mod_eq_of_lt h0, Nat.mod_eq_of_lt h1] at this
    exact this
  rcases ho with rfl | rfl
  · cases Ty with
    | TYPE_CONNECTION => exact key 0 0 (by decide) (by decide) (by decide) (by decide) (by decide)
    | TYPE_JUNK => exact key 12 0 (by decide) (by decide) (by decide) (by decide) (by decide)
    | TYPE_RANDOM => exact key 0 0 (by decide) (by decide) (by decide) (by decide) (by decide)
    | TYPE_DEST => exact key 10 0 (by decide) (by decide) (by decide) (by decide) (by decide)
    | TYPE_FIRE => exact absurd rfl hTy
  · cases Ty with
    | TYPE_CONNECTION => exact key 3 3 (by decide) (by decide) (by decide) (by decide) (by decide)
    | TYPE_JUNK => exact key 12 0 (by decide) (by decide) (by decide) (by decide) (by decide)
    | TYPE_RANDOM => exact key 0 0 (by decide) (by decide) (by decide) (by decide) (by decide)
    | TYPE_DEST => exact key 10 0 (by decide) (by decide) (by decide) (by decide) (by decide)
    | TYPE_FIRE => exact absurd rfl hTy

theorem Brick_Random_loop_satisfiable_witness :
    ∃ r0 r1 : Nat, r0 < 14 ∧ r1 < 14 ∧ ∀ rest : List Nat,
      Brick_Random_loop TYPE_CONNECTION
          { ({ x := 2, y := 0, Pieces0 := PIECE_EMPTY, Pieces1 := PIECE_EMPTY,
               Orientation := RIGHT } : brick) with Orientation := DOWN }
          (r0 :: r1 :: rest) =
        some { ({ x := 2, y := 0, Pieces0 := PIECE_EMPTY, Pieces1 := PIECE_EMPTY,
                  Orientation := RIGHT } : brick) with
          Orientation := DOWN
          Pieces0 := CHANCE_TBL.getD r0 PIECE_EMPTY
          Pieces1 := CHANCE_TBL.getD r1 PIECE_EMPTY } :=
  Brick_Random_loop_satisfiable TYPE_CONNECTION DOWN
    { x := 2, y := 0, Pieces0 := PIECE_EMPTY, Pieces1 := PIECE_EMPTY, Orientation := RIGHT }
    (by decide) (Or.inr rfl)

/-! ## Piece rules -/

/-- C15. Four applications of `Piece_Rotate` return the original piece. -/
theorem Piece_Rotate_four (p : piece) :
    Piece_Rotate (Piece_Rotate (Piece_Rotate (Piece_Rotate p))) = p := by
  cases p <;> rfl

/-- C16. `Orientation_Flip` is its own inverse. -/
theorem Orientation_Flip_involutive (o : orientation) :
    Orientation_Flip (Orientation_Flip o) = o := by
  cases o <;> rfl

/-- C17. Destination has the full mask `1<<RIGHT | 1<<DOWN | 1<<LEFT | 1<<UP` (= 15) both
incoming and outgoing; Empty and Junk have the empty mask both ways; Fire has the full
outgoing mask and the empty incoming mask. -/
theorem Piece_orientation_masks :
    (bit RIGHT ||| bit DOWN ||| bit LEFT ||| bit UP = 15) ∧
    Piece_IncomingOrientations PIECE_DST = bit RIGHT ||| bit DOWN ||| bit LEFT ||| bit UP ∧
    Piece_OutgoingOrientations PIECE_DST = bit RIGHT ||| bit DOWN ||| bit LEFT ||| bit UP ∧
    Piece_IncomingOrientations PIECE_EMPTY = 0 ∧
    Piece_OutgoingOrientations PIECE_EMPTY = 0 ∧
    Piece_IncomingOrientations PIECE_JUNK = 0 ∧
    Piece_OutgoingOrientations PIECE_JUNK = 0 ∧
    Piece_OutgoingOrientations PIECE_FIRE = bit RIGHT ||| bit DOWN ||| bit LEFT ||| bit UP ∧
    Piece_IncomingOrientations PIECE_FIRE = 0 := by
  decide

/-! ## Board_PutTileSafe -/

/-- C18. `Board_PutTileSafe` writes exactly when `(x, y)` is in-bounds and the piece is not
Empty: then cell `(x, y)` becomes the piece and every other cell keeps its value; when
`(x, y)` is out of bounds or the piece is Empty the board is returned as it was. -/
theorem Board_PutTileSafe_spec (B : board) (x y : Int) (p : piece) :
    ((0 ≤ x ∧ x < BOARD_WIDTH ∧ 0 ≤ y ∧ y < BOARD_HEIGHT) ∧ p ≠ PIECE_EMPTY →
      (Board_PutTileSafe B x y p).Pieces y x = p ∧
      ∀ y' x', ¬(y' = y ∧ x' = x) → (Board_PutTileSafe B x y p).Pieces y' x' = B.Pieces y' x') ∧
    (¬((0 ≤ x ∧ x < BOARD_WIDTH ∧ 0 ≤ y ∧ y < BOARD_HEIGHT) ∧ p ≠ PIECE_EMPTY) →
      Board_PutTileSafe B x y p = B) ∧
    ((Board_PutTileSafe B x y p).Pieces ≠ B.Pieces →
      (0 ≤ x ∧ x < BOARD_WIDTH ∧ 0 ≤ y ∧ y < BOARD_HEIGHT) ∧ p ≠ PIECE_EMPTY) := by
  have hout : ¬((0 ≤ x ∧ x < BOARD_WIDTH ∧ 0 ≤ y ∧ y < BOARD_HEIGHT) ∧ p ≠ PIECE_EMPTY) →
      Board_PutTileSafe B x y p = B := by
    intro h
    unfold Board_PutTileSafe
    by_cases hp : p = PIECE_EMPTY
    · rw [if_pos hp]
    · rw [if_neg hp, if_neg]
      intro hb
      exact h ⟨⟨hb.1, hb.2.1, hb.2.2.1, hb.2.2.2⟩, hp⟩
  refine ⟨?_, hout, ?_⟩
  · rintro ⟨hb, hp⟩
    unfold Board_PutTileSafe
    rw [if_neg hp, if_pos ⟨hb.1, hb.2.1, hb.2.2.1, hb.2.2.2⟩]
    constructor
    · simp [board.set]
    · intro y' x' hne
      simp [board.set, hne]
  · intro hne
    by_contra hcon
    exact hne (by rw [hout hcon])

/-! ## The tracing example -/

/-- C19. On the board with a Destination at `(2, 0)` and a `HCONN` at `(3, 0)`, `Board_Trace`
seeded at `(2, 0)` with an all-zero power board returns a trace that contains `(3, 0)`. -/
theorem Board_Trace_example :
    ∃ r, Board_Trace 78 exampleBoard 2 0 power_board.zero = some r ∧
      (3, 0) ∈ r.1.Cells ∧ r.1.Cells = [(2, 0), (3, 0)] ∧
      r.2.Incoming 0 3 = bit LEFT := by
  have h : (Board_Trace 78 exampleBoard 2 0 power_board.zero).map
      (fun r => (r.1.Cells, r.2.Incoming 0 3)) = some ([(2, 0), (3, 0)], bit LEFT) := by
    decide
  obtain ⟨r, hr, hc⟩ := Option.map_eq_some'.mp h
  simp only [Prod.mk.injEq] at hc
  exact ⟨r, hr, by rw [hc.1]; decide, hc.1, hc.2⟩

/-! ## Totality of the settle loop and of the junk trace on lists -/

/-- With fuel 13 or more the settle loop returns, and the board it returns is settled. -/
theorem Board_GravityStep_loop_some (fuel : Nat) (hfuel : 13 ≤ fuel) (B : board) :
    ∃ B', whileTrue Board_GravityStep fuel B = some B' ∧ B'.settledFrom 0 := by
  obtain ⟨B', h, hs⟩ := Board_GravityStep_loop_settles 12 B (board_settledFrom_12 B)
  exact ⟨B', whileTrue_mono Board_GravityStep 13 fuel B B' hfuel h, hs⟩

theorem Board_TraceJunk_list_some (fuel : Nat) (hfuel : 78 ≤ fuel) (B : board) (c : Int × Int)
    (hc : c ∈ rasterOrder) : ∃ T, Board_TraceJunk_list fuel B c.1 c.2 = some T := by
  unfold Board_TraceJunk_list
  apply Board_TraceJunk_loop_terminates
  have := unvisited_seed c hc
  simp only [Prod.mk.eta]
  omega

/-! ## GP_Update: reaching the idle phase -/

/-- The state in which `GP_Update` reaches the test of the two `Count` fields when both
playbacks are exhausted at entry: both traces recomputed, `Multiplier` bumped twice. -/
theorem GP_Update_recompute_eq (fuel : Nat) (inp : input) (G : gameplay)
    (r : trace × power_board) (TJ : trace)
    (hidx : G.TraceIndex ≥ G.Trace.Count)
    (hr : Board_GetTrace fuel G.Board power_board.zero = some r)
    (hjidx : G.TraceJunkIndex ≥ G.TraceJunk.Count)
    (hTJ : Board_GetTraceJunk fuel G.Board = some TJ) :
    GP_Update fuel inp G =
      GP_Update_idle fuel inp
        { Powers := r.2, Board := G.Board, Brick := G.Brick, Trace := r.1, TraceJunk := TJ
          TraceIndex := 0, TraceJunkIndex := 0
          Scoring := { G.Scoring with Multiplier := G.Scoring.Multiplier + 1 + 1 } } := by
  unfold GP_Update
  simp only
  rw [if_pos hidx, hr]
  simp only
  unfold GP_Update_junk
  simp only
  rw [if_pos hjidx, hTJ]

/-- When both playbacks are exhausted at entry and both recomputed traces are empty,
`GP_Update` continues with the idle phase on a state with the same board, brick and score. -/
theorem GP_Update_idle_eq (fuel : Nat) (inp : input) (G : gameplay)
    (hidx : G.TraceIndex ≥ G.Trace.Count)
    (hT : (Board_GetTrace fuel G.Board power_board.zero).map (fun r => r.1.Count) = some 0)
    (hjidx : G.TraceJunkIndex ≥ G.TraceJunk.Count)
    (hTJ : (Board_GetTraceJunk fuel G.Board).map trace.Count = some 0) :
    ∃ G0, GP_Update fuel inp G = GP_Update_idle fuel inp G0 ∧
      G0.Board = G.Board ∧ G0.Brick = G.Brick ∧ G0.Trace.Count = 0 ∧ G0.TraceJunk.Count = 0 ∧
      G0.TraceIndex = 0 ∧ G0.TraceJunkIndex = 0 ∧ G0.Scoring.Score = G.Scoring.Score := by
  obtain ⟨r, hr, hr0⟩ := Option.map_eq_some'.mp hT
  obtain ⟨TJ, hTJ', hTJ0⟩ := Option.map_eq_some'.mp hTJ
  exact ⟨_, GP_Update_recompute_eq fuel inp G r TJ hidx hr hjidx hTJ', rfl, rfl, hr0, hTJ0,
    rfl, rfl, rfl⟩

/-- C12. When both playbacks are exhausted at entry and the recomputed power trace or the
recomputed junk trace is non-empty (`Board_GetTrace` and `Board_GetTraceJunk` return traces
with `n` and `m` cells, not both 0), `GP_Update` returns before the idle phase: whatever the
keys, timers and random draws, the board, the brick and `Score` are as before the tick. -/
theorem GP_Update_new_trace_skips_idle (fuel : Nat) (inp : input) (G : gameplay) (n m : Int)
    (hidx : G.TraceIndex ≥ G.Trace.Count)
    (hjidx : G.TraceJunkIndex ≥ G.TraceJunk.Count)
    (hT : (Board_GetTrace fuel G.Board power_board.zero).map (fun r => r.1.Count) = some n)
    (hTJ : (Board_GetTraceJunk fuel G.Board).map trace.Count = some m)
    (hne : n ≠ 0 ∨ m ≠ 0) :
    ∃ G', GP_Update fuel inp G = some G' ∧
      G'.Board = G.Board ∧ G'.Brick = G.Brick ∧ G'.Scoring.Score = G.Scoring.Score := by
  obtain ⟨r, hr, hrn⟩ := Option.map_eq_some'.mp hT
  obtain ⟨TJ, hTJ', hTJm⟩ := Option.map_eq_some'.mp hTJ
  rw [GP_Update_recompute_eq fuel inp G r TJ hidx hr hjidx hTJ']
  unfold GP_Update_idle
  rw [if_pos (by
    rcases hne with h | h
    · exact Or.inr (by rw [hrn]; exact h)
    · exact Or.inl (by rw [hTJm]; exact h))]
  exact ⟨_, rfl, rfl, rfl, rfl⟩

theorem GP_Update_new_trace_skips_idle_witness :
    (edgeGame.TraceIndex ≥ edgeGame.Trace.Count ∧
      edgeGame.TraceJunkIndex ≥ edgeGame.TraceJunk.Count ∧
      (Board_GetTrace 78 edgeGame.Board power_board.zero).map (fun r => r.1.Count) = some 0 ∧
      (Board_GetTraceJunk 78 edgeGame.Board).map trace.Count = some 1) ∧
    ∃ G', GP_Update 78 downInput edgeGame = some G' ∧
      G'.Board = edgeGame.Board ∧ G'.Brick = edgeGame.Brick ∧
      G'.Scoring.Score = edgeGame.Scoring.Score :=
  ⟨⟨by decide, by decide, by decide, by decide⟩,
    GP_Update_new_trace_skips_idle 78 downInput edgeGame 0 1 (by decide) (by decide)
      (by decide) (by decide) (Or.inr (by decide))⟩

/-! ## GP_Update: the power board during playback -/

/-- C14 (as amended). The power board does not persist during power-trace playback: for
every state with `0 <= TraceIndex < Trace.Count` at entry, `GP_Update` leaves every
`PowerBoard` cell's bitmask equal to 0. -/
theorem GP_Update_playback_powers_zero (fuel : Nat) (inp : input) (G : gameplay)
    (h0 : 0 ≤ G.TraceIndex) (hlt : G.TraceIndex < G.Trace.Count) :
    ∃ G', GP_Update fuel inp G = some G' ∧ ∀ y x, G'.Powers.Incoming y x = 0 := by
  obtain ⟨c, hc⟩ := trace_cellAt_some G.Trace G.TraceIndex h0 hlt
  cases hexp : inp.TraceExpired with
  | true =>
    exact ⟨_, GP_Update_playback_eq fuel inp G c hlt hexp hc, fun _ _ => rfl⟩
  | false =>
    refine ⟨{ G with Powers := power_board.zero }, ?_, fun _ _ => rfl⟩
    unfold GP_Update
    simp only
    rw [if_neg (by omega), if_neg (by simp [hexp])]

theorem GP_Update_playback_powers_zero_witness :
    ((0 : Int) ≤ poweredGame.TraceIndex ∧ poweredGame.TraceIndex < poweredGame.Trace.Count) ∧
    ∃ G', GP_Update 0 expiredInput poweredGame = some G' ∧
      ∀ y x, G'.Powers.Incoming y x = 0 :=
  ⟨⟨by decide, by decide⟩,
    GP_Update_playback_powers_zero 0 expiredInput poweredGame (by decide) (by decide)⟩

/-- C14 (as stated) fails: in `poweredGame`, a state in playback, the power board holds 4 at
`(0, 12)` at entry and 0 after `GP_Update`, whether or not the trace timer has expired. -/
theorem GP_Update_playback_powers_not_kept :
    poweredGame.TraceIndex < poweredGame.Trace.Count ∧
    poweredGame.Powers.Incoming 12 0 = 4 ∧
    (GP_Update 0 expiredInput poweredGame).map (fun G => G.Powers.Incoming 12 0) = some 0 ∧
    (GP_Update 0 downInput poweredGame).map (fun G => G.Powers.Incoming 12 0) = some 0 := by
  refine ⟨by decide, by decide, by decide, by decide⟩

/-! ## GP_Update: how far the anchor moves in an idle tick -/

theorem Brick_Rotate_anchor (b : brick) : (Brick_Rotate b).x = b.x ∧ (Brick_Rotate b).y = b.y :=
  ⟨rfl, rfl⟩

/-- The key chain leaves the anchor where it was and yields one of the moves `(0, 0)`,
`(0, 1)`, `(-1, 0)`, `(1, 0)`. -/
theorem GP_Update_keys_cases (inp : input) (B : board) (b : brick) :
    (GP_Update_keys inp B b).2.2.x = b.x ∧ (GP_Update_keys inp B b).2.2.y = b.y ∧
    (((GP_Update_keys inp B b).1 = 0 ∧ (GP_Update_keys inp B b).2.1 = 0) ∨
     ((GP_Update_keys inp B b).1 = 0 ∧ (GP_Update_keys inp B b).2.1 = 1) ∨
     ((GP_Update_keys inp B b).1 = -1 ∧ (GP_Update_keys inp B b).2.1 = 0) ∨
     ((GP_Update_keys inp B b).1 = 1 ∧ (GP_Update_keys inp B b).2.1 = 0)) := by
  unfold GP_Update_keys
  by_cases hD : inp.Down = true
  · rw [if_pos hD]; exact ⟨rfl, rfl, Or.inr (Or.inl ⟨rfl, rfl⟩)⟩
  · rw [if_neg hD]
    by_cases hL : inp.Left = true
    · rw [if_pos hL]; exact ⟨rfl, rfl, Or.inr (Or.inr (Or.inl ⟨rfl, rfl⟩))⟩
    · rw [if_neg hL]
      by_cases hR : inp.Right = true
      · rw [if_pos hR]; exact ⟨rfl, rfl, Or.inr (Or.inr (Or.inr ⟨rfl, rfl⟩))⟩
      · rw [if_neg hR]
        by_cases hZ : inp.Z = true
        · rw [if_pos hZ]
          by_cases hS : Board_ShouldPlaceBrick B (Brick_Rotate b) = true
          · simp [hS]
          · have hS' : Board_ShouldPlaceBrick B (Brick_Rotate b) = false := by simpa using hS
            simp [hS', (Brick_Rotate_anchor b).1, (Brick_Rotate_anchor b).2]
        · rw [if_neg hZ]; exact ⟨rfl, rfl, Or.inl ⟨rfl, rfl⟩⟩

/-- The brick after an idle phase that does not lock the brick: the brick left by the key
chain, moved by `(dx, dy)` when the move is not blocked. -/
theorem GP_Update_idle_unlocked (fuel : Nat) (hfuel : 13 ≤ fuel) (inp : input) (G0 : gameplay)
    (hT : G0.Trace.Count = 0) (hTJ : G0.TraceJunk.Count = 0)
    (hnolock : ¬(Board_ShouldPlaceBrick G0.Board
        (Brick_Move (GP_Update_keys inp G0.Board G0.Brick).2.2
          (GP_Update_keys inp G0.Board G0.Brick).1 (GP_Update_dy inp G0.Board G0.Brick)) = true ∧
      GP_Update_dy inp G0.Board G0.Brick ≠ 0)) :
    ∃ G', GP_Update_idle fuel inp G0 = some G' ∧
      (G'.Brick = (GP_Update_keys inp G0.Board G0.Brick).2.2 ∨
       G'.Brick = Brick_Move (GP_Update_keys inp G0.Board G0.Brick).2.2
          (GP_Update_keys inp G0.Board G0.Brick).1 (GP_Update_dy inp G0.Board G0.Brick)) ∧
      (Board_ShouldPlaceBrick G0.Board
          (Brick_Move (GP_Update_keys inp G0.Board G0.Brick).2.2
            (GP_Update_keys inp G0.Board G0.Brick).1 (GP_Update_dy inp G0.Board G0.Brick)) =
          false →
        G'.Brick = Brick_Move (GP_Update_keys inp G0.Board G0.Brick).2.2
          (GP_Update_keys inp G0.Board G0.Brick).1 (GP_Update_dy inp G0.Board G0.Brick)) := by
  obtain ⟨B', hB', _⟩ := Board_GravityStep_loop_some fuel hfuel G0.Board
  unfold GP_Update_idle
  rw [if_neg (by simp [hT, hTJ])]
  simp only
  unfold GP_Update_move
  simp only
  generalize (GP_Update_keys inp G0.Board G0.Brick).2.2 = kb at hnolock ⊢
  generalize (GP_Update_keys inp G0.Board G0.Brick).1 = dx at hnolock ⊢
  generalize GP_Update_dy inp G0.Board G0.Brick = dy at hnolock ⊢
  by_cases hmove : dx ≠ 0 ∨ dy ≠ 0
  · rw [if_pos hmove]
    cases hblk : Board_ShouldPlaceBrick G0.Board (Brick_Move kb dx dy) with
    | true =>
      have hdy : ¬dy ≠ 0 := fun h => hnolock ⟨hblk, h⟩
      simp only [if_true, if_neg hdy, hB']
      exact ⟨_, rfl, Or.inl rfl, fun h => by cases h⟩
    | false =>
      simp only [Bool.false_eq_true, if_false, hB']
      exact ⟨_, rfl, Or.inr rfl, fun _ => rfl⟩
  · rw [if_neg hmove]
    simp only [hB']
    refine ⟨_, rfl, Or.inl rfl, fun _ => ?_⟩
    simp only [not_or, not_not] at hmove
    rw [hmove.1, hmove.2]
    simp [Brick_Move]

/-- C13 (as amended). In an idle-phase tick the key chain applies at most one key, and the
gravity-timer drop is added to it: when the tick does not lock the brick, the anchor after the
tick is at Manhattan distance at most 2 from the anchor before the tick, and at most 1 when
the gravity timer has not expired. -/
theorem GP_Update_idle_anchor_distance (fuel : Nat) (hfuel : 78 ≤ fuel) (inp : input)
    (G : gameplay)
    (hidx : G.TraceIndex ≥ G.Trace.Count)
    (hT : (Board_GetTrace fuel G.Board power_board.zero).map (fun r => r.1.Count) = some 0)
    (hjidx : G.TraceJunkIndex ≥ G.TraceJunk.Count)
    (hTJ : (Board_GetTraceJunk fuel G.Board).map trace.Count = some 0)
    (hnolock : ¬(Board_ShouldPlaceBrick G.Board
        (Brick_Move (GP_Update_keys inp G.Board G.Brick).2.2
          (GP_Update_keys inp G.Board G.Brick).1 (GP_Update_dy inp G.Board G.Brick)) = true ∧
      GP_Update_dy inp G.Board G.Brick ≠ 0)) :
    ∃ G', GP_Update fuel inp G = some G' ∧
      (G'.Brick.x - G.Brick.x).natAbs + (G'.Brick.y - G.Brick.y).natAbs ≤ 2 ∧
      (inp.GravityExpired = false →
        (G'.Brick.x - G.Brick.x).natAbs + (G'.Brick.y - G.Brick.y).natAbs ≤ 1) := by
  obtain ⟨G0, hG0, hB, hb, hT0, hTJ0, _, _, _⟩ := GP_Update_idle_eq fuel inp G hidx hT hjidx hTJ
  rw [← hB, ← hb] at hnolock
  obtain ⟨G', hG', hbrick, _⟩ :=
    GP_Update_idle_unlocked fuel (by omega) inp G0 hT0 hTJ0 hnolock
  obtain ⟨kx, ky, hk⟩ := GP_Update_keys_cases inp G0.Board G0.Brick
  have hdy : GP_Update_dy inp G0.Board G0.Brick =
      if inp.GravityExpired = true then (GP_Update_keys inp G0.Board G0.Brick).2.1 + 1
      else (GP_Update_keys inp G0.Board G0.Brick).2.1 := rfl
  generalize GP_Update_dy inp G0.Board G0.Brick = dy at hbrick hdy
  generalize (GP_Update_keys inp G0.Board G0.Brick).1 = dx at hbrick hk
  generalize (GP_Update_keys inp G0.Board G0.Brick).2.1 = kdy at hdy hk
  generalize (GP_Update_keys inp G0.Board G0.Brick).2.2 = kb at hbrick kx ky
  rw [hb] at kx ky
  have hxy : (G'.Brick.x = G.Brick.x ∧ G'.Brick.y = G.Brick.y) ∨
      (G'.Brick.x = G.Brick.x + dx ∧ G'.Brick.y = G.Brick.y + dy) := by
    rcases hbrick with h | h
    · left; rw [h]; exact ⟨kx, ky⟩
    · right; rw [h]
      exact ⟨by show kb.x + dx = _; rw [kx], by show kb.y + dy = _; rw [ky]⟩
  refine ⟨G', by rw [hG0, hG'], ?_, ?_⟩
  · by_cases hg : inp.GravityExpired = true
    · rw [if_pos hg] at hdy; omega
    · rw [if_neg hg] at hdy; omega
  · intro hg
    rw [if_neg (by simp [hg])] at hdy
    omega

theorem GP_Update_idle_anchor_distance_witness :
    (78 ≤ 78 ∧ fallGame.TraceIndex ≥ fallGame.Trace.Count ∧
      fallGame.TraceJunkIndex ≥ fallGame.TraceJunk.Count) ∧
    ∃ G', GP_Update 78 downInput fallGame = some G' ∧
      (G'.Brick.x - fallGame.Brick.x).natAbs + (G'.Brick.y - fallGame.Brick.y).natAbs ≤ 2 ∧
      (downInput.GravityExpired = false →
        (G'.Brick.x - fallGame.Brick.x).natAbs + (G'.Brick.y - fallGame.Brick.y).natAbs ≤ 1) :=
  ⟨⟨by decide, by decide, by decide⟩,
    GP_Update_idle_anchor_distance 78 (by decide) downInput fallGame (by decide) (by decide)
      (by decide) (by decide) (by decide)⟩

/-- C13 (as stated) fails: on the empty board with the Down key pressed and the gravity timer
expired, the brick is not locked and its anchor goes from row 0 to row 2. -/
theorem GP_Update_idle_down_and_gravity :
    ∃ G', GP_Update 78 downInput fallGame = some G' ∧
      Board_ShouldPlaceBrick fallGame.Board
        (Brick_Move (GP_Update_keys downInput fallGame.Board fallGame.Brick).2.2
          (GP_Update_keys downInput fallGame.Board fallGame.Brick).1
          (GP_Update_dy downInput fallGame.Board fallGame.Brick)) = false ∧
      G'.Brick.x = fallGame.Brick.x ∧ G'.Brick.y = fallGame.Brick.y + 2 ∧
      ¬((G'.Brick.x - fallGame.Brick.x).natAbs + (G'.Brick.y - fallGame.Brick.y).natAbs ≤ 1) := by
  obtain ⟨G0, hG0, hB, hb, hT0, hTJ0, _, _, _⟩ :=
    GP_Update_idle_eq 78 downInput fallGame (by decide) (by decide) (by decide) (by decide)
  have hfree : Board_ShouldPlaceBrick fallGame.Board
      (Brick_Move (GP_Update_keys downInput fallGame.Board fallGame.Brick).2.2
        (GP_Update_keys downInput fallGame.Board fallGame.Brick).1
        (GP_Update_dy downInput fallGame.Board fallGame.Brick)) = false := by decide
  obtain ⟨G', hG', _, hmoved⟩ := GP_Update_idle_unlocked 78 (by decide) downInput G0 hT0 hTJ0
    (by rw [hB, hb, hfree]; simp)
  rw [hB, hb] at hmoved
  have hbrick := hmoved hfree
  have hx : G'.Brick.x = fallGame.Brick.x := by rw [hbrick]; decide
  have hy : G'.Brick.y = fallGame.Brick.y + 2 := by rw [hbrick]; decide
  refine ⟨G', by rw [hG0, hG'], hfree, hx, hy, ?_⟩
  rw [hx, hy]
  decide

/-! ## Board_BumpBrick -/

theorem Board_BumpBrick_step1_decreases (b : brick) (h : (Board_BumpBrick_step1 b).1 = true) :
    bumpMeasure1 (Board_BumpBrick_step1 b).2 < bumpMeasure1 b := by
  unfold Board_BumpBrick_step1 at h ⊢
  unfold BOARD_WIDTH at h ⊢
  simp only at h ⊢
  split at h
  · rename_i h1
    rw [if_pos h1]
    unfold bumpMeasure1
    simp only
    omega
  · rename_i h1
    rw [if_neg h1]
    split at h
    · rename_i h2
      rw [if_pos h2]
      unfold bumpMeasure1
      simp only
      omega
    · rename_i h2
      rw [if_neg h2]
      split at h
      · rename_i h3
        rw [if_pos h3]
        unfold bumpMeasure1
        simp only
        omega
      · cases h

theorem Board_BumpBrick_step1_false (b b' : brick) (h : Board_BumpBrick_step1 b = (false, b')) :
    b' = b ∧ 0 ≤ b.x ∧ b.x < BOARD_WIDTH ∧ 0 ≤ b.y := by
  unfold Board_BumpBrick_step1 at h
  simp only at h
  split at h
  · cases h
  · split at h
    · cases h
    · split at h
      · cases h
      · simp only [Prod.mk.injEq, true_and] at h
        exact ⟨h.symm, by omega, by omega, by omega⟩

theorem Board_BumpBrick_step1_fields (b : brick) :
    (Board_BumpBrick_step1 b).2.Pieces0 = b.Pieces0 ∧
    (Board_BumpBrick_step1 b).2.Pieces1 = b.Pieces1 ∧
    (Board_BumpBrick_step1 b).2.Orientation = b.Orientation := by
  unfold Board_BumpBrick_step1
  simp only
  split
  · exact ⟨rfl, rfl, rfl⟩
  · split
    · exact ⟨rfl, rfl, rfl⟩
    · split <;> exact ⟨rfl, rfl, rfl⟩

theorem Board_BumpBrick_step2_decreases (b : brick) (h : (Board_BumpBrick_step2 b).1 = true) :
    bumpMeasure2 (Board_BumpBrick_step2 b).2 < bumpMeasure2 b := by
  obtain ⟨x, y, p0, p1, o⟩ := b
  unfold Board_BumpBrick_step2 at h ⊢
  unfold BOARD_WIDTH at h ⊢
  cases o <;>
  · simp only [Brick_Locations] at h ⊢
    split at h
    · rename_i h1
      rw [if_pos h1]
      simp only [bumpMeasure2, Brick_Locations]
      omega
    · rename_i h1
      rw [if_neg h1]
      split at h
      · rename_i h2
        rw [if_pos h2]
        simp only [bumpMeasure2, Brick_Locations]
        omega
      · rename_i h2
        rw [if_neg h2]
        split at h
        · rename_i h3
          rw [if_pos h3]
          simp only [bumpMeasure2, Brick_Locations]
          omega
        · cases h

theorem Board_BumpBrick_step2_false (b b' : brick) (h : Board_BumpBrick_step2 b = (false, b')) :
    b' = b ∧
    0 ≤ (Brick_Locations b).1.1 ∧ (Brick_Locations b).1.1 < BOARD_WIDTH ∧
    0 ≤ (Brick_Locations b).1.2 ∧
    0 ≤ (Brick_Locations b).2.1 ∧ (Brick_Locations b).2.1 < BOARD_WIDTH ∧
    0 ≤ (Brick_Locations b).2.2 := by
  unfold Board_BumpBrick_step2 at h
  simp only at h
  split at h
  · cases h
  · split at h
    · cases h
    · split at h
      · cases h
      · simp only [Prod.mk.injEq, true_and] at h
        exact ⟨h.symm, by omega, by omega, by omega, by omega, by omega, by omega⟩

theorem Board_BumpBrick_step2_fields (b : brick) :
    (Board_BumpBrick_step2 b).2.Pieces0 = b.Pieces0 ∧
    (Board_BumpBrick_step2 b).2.Pieces1 = b.Pieces1 ∧
    (Board_BumpBrick_step2 b).2.Orientation = b.Orientation := by
  unfold Board_BumpBrick_step2
  simp only
  split
  · exact ⟨rfl, rfl, rfl⟩
  · split
    · exact ⟨rfl, rfl, rfl⟩
    · split <;> exact ⟨rfl, rfl, rfl⟩

/-- C20 (as amended). For every brick `Board_BumpBrick` terminates, keeps the pieces and the
orientation, and returns a brick within the left, right and top edges of the board: when
neither piece is Empty both cells given by `Brick_Locations` have `0 <= x < BOARD_WIDTH` and
`0 <= y`, and when a piece is Empty the anchor cell has `0 <= x < BOARD_WIDTH` and `0 <= y`. -/
theorem Board_BumpBrick_spec (B : board) (b : brick) :
    (∃ b', Board_BumpBrick (max (bumpMeasure1 b) (bumpMeasure2 b) + 1) B b = some b') ∧
    ∀ (fuel : Nat) (b' : brick), Board_BumpBrick fuel B b = some b' →
      b'.Pieces0 = b.Pieces0 ∧ b'.Pieces1 = b.Pieces1 ∧ b'.Orientation = b.Orientation ∧
      (b.Pieces0 ≠ PIECE_EMPTY ∧ b.Pieces1 ≠ PIECE_EMPTY →
        0 ≤ (Brick_Locations b').1.1 ∧ (Brick_Locations b').1.1 < BOARD_WIDTH ∧
        0 ≤ (Brick_Locations b').1.2 ∧
        0 ≤ (Brick_Locations b').2.1 ∧ (Brick_Locations b').2.1 < BOARD_WIDTH ∧
        0 ≤ (Brick_Locations b').2.2) ∧
      (b.Pieces0 = PIECE_EMPTY ∨ b.Pieces1 = PIECE_EMPTY →
        0 ≤ b'.x ∧ b'.x < BOARD_WIDTH ∧ 0 ≤ b'.y) := by
  constructor
  · unfold Board_BumpBrick
    split
    · exact whileTrue_terminates Board_BumpBrick_step1 bumpMeasure1
        Board_BumpBrick_step1_decreases _ b (by omega)
    · exact whileTrue_terminates Board_BumpBrick_step2 bumpMeasure2
        Board_BumpBrick_step2_decreases _ b (by omega)
  · intro fuel b' h
    unfold Board_BumpBrick at h
    split at h
    · rename_i hE
      have hf := whileTrue_preserves Board_BumpBrick_step1
        (fun c => c.Pieces0 = b.Pieces0 ∧ c.Pieces1 = b.Pieces1 ∧ c.Orientation = b.Orientation)
        (fun c hc => by
          obtain ⟨f1, f2, f3⟩ := Board_BumpBrick_step1_fields c
          exact ⟨f1.trans hc.1, f2.trans hc.2.1, f3.trans hc.2.2⟩)
        fuel b b' ⟨rfl, rfl, rfl⟩ h
      obtain ⟨t, ht⟩ := whileTrue_final Board_BumpBrick_step1 fuel b b' h
      obtain ⟨e, hb⟩ := Board_BumpBrick_step1_false t b' ht
      rw [← e] at hb
      exact ⟨hf.1, hf.2.1, hf.2.2, fun hne => absurd hE (by simp [hne.1, hne.2]), fun _ => hb⟩
    · rename_i hE
      have hf := whileTrue_preserves Board_BumpBrick_step2
        (fun c => c.Pieces0 = b.Pieces0 ∧ c.Pieces1 = b.Pieces1 ∧ c.Orientation = b.Orientation)
        (fun c hc => by
          obtain ⟨f1, f2, f3⟩ := Board_BumpBrick_step2_fields c
          exact ⟨f1.trans hc.1, f2.trans hc.2.1, f3.trans hc.2.2⟩)
        fuel b b' ⟨rfl, rfl, rfl⟩ h
      obtain ⟨t, ht⟩ := whileTrue_final Board_BumpBrick_step2 fuel b b' h
      obtain ⟨e, hb⟩ := Board_BumpBrick_step2_false t b' ht
      rw [← e] at hb
      exact ⟨hf.1, hf.2.1, hf.2.2, fun _ => hb, fun hemp => absurd hemp hE⟩

/-- C20 (as stated) fails: `lowBrick`, with both pieces in row 13, and `leftBrick`, whose only
piece lies at `(-1, 0)`, are returned as they are, with an occupied cell out of bounds. -/
theorem Board_BumpBrick_out_of_bounds :
    (Board_BumpBrick 1 board.zero lowBrick = some lowBrick ∧
      lowBrick.Pieces0 ≠ PIECE_EMPTY ∧ lowBrick.Pieces1 ≠ PIECE_EMPTY ∧
      Board_IsOob board.zero (Brick_Locations lowBrick).1.1 (Brick_Locations lowBrick).1.2 =
        true) ∧
    (Board_BumpBrick 1 board.zero leftBrick = some leftBrick ∧
      leftBrick.Pieces0 = PIECE_EMPTY ∧ leftBrick.Pieces1 ≠ PIECE_EMPTY ∧
      Board_IsOob board.zero (Brick_Locations leftBrick).2.1 (Brick_Locations leftBrick).2.2 =
        true) := by
  decide

/-! ## Board_GravityStep: the return value and the row-index sum -/

theorem sum_indicator (v : Int) (a : Int) :
    ∀ (l : List Int), l.Nodup → a ∈ l → (l.map fun y => if y = a then v else 0).sum = v := by
  intro l
  induction l with
  | nil => intro _ h; cases h
  | cons b rest ih =>
    intro hnd ha
    rw [List.nodup_cons] at hnd
    rw [List.map_cons, List.sum_cons]
    by_cases hb : b = a
    · subst hb
      have hz : (rest.map fun y => if y = b then v else 0) = rest.map fun _ => (0 : Int) := by
        apply List.map_congr_left
        intro y hy
        rw [if_neg (fun h : y = b => hnd.1 (h ▸ hy))]
      rw [if_pos rfl, hz]
      simp
    · rw [if_neg hb]
      rcases List.mem_cons.mp ha with h | h
      · exact absurd h.symm hb
      · rw [ih hnd.2 h]; simp

theorem sum_map_shift (l : List Int) (f g d e : Int → Int)
    (h : ∀ y ∈ l, f y + d y = g y + e y) :
    (l.map f).sum + (l.map d).sum = (l.map g).sum + (l.map e).sum := by
  rw [← List.sum_map_add, ← List.sum_map_add]
  congr 1
  exact List.map_congr_left h

/-- A move of `Board_GravityStep` in a column adds one to the sum of the row indices. -/
theorem columnStep_rowSum (y : Int) (hy0 : 0 ≤ y) (hy : y < 12) (c : Int → piece)
    (h : hangs c y) : columnRowSum (columnStep y c) = columnRowSum c + 1 := by
  obtain ⟨m1, m2⟩ := columnStep_moved y c h
  have key := sum_map_shift (upto 13)
    (fun y' => if columnStep y c y' ≠ PIECE_EMPTY then y' else 0)
    (fun y' => if c y' ≠ PIECE_EMPTY then y' else 0)
    (fun y' => if y' = y then y else 0)
    (fun y' => if y' = y + 1 then y + 1 else 0)
    (by
      intro y' _
      simp only
      by_cases e1 : y' = y
      · subst e1
        rw [m1, if_neg (by simp), if_pos rfl, if_pos h.1, if_neg (by omega)]
        omega
      · by_cases e2 : y' = y + 1
        · subst e2
          rw [m2, if_pos h.1, if_neg e1, h.2, if_neg (by simp), if_pos rfl]
          omega
        · rw [columnStep_other y c y' e1 e2, if_neg e1, if_neg e2])
  rw [sum_indicator y y (upto 13) (upto_nodup 13) ((mem_upto 13 y).mpr ⟨hy0, by omega⟩),
    sum_indicator (y + 1) (y + 1) (upto 13) (upto_nodup 13)
      ((mem_upto 13 (y + 1)).mpr ⟨by omega, by omega⟩)] at key
  unfold columnRowSum
  omega

/-- A cell step of `Board_GravityStep` leaves the row-index sum as it is or, when it moves a
piece, sets the flag and adds one to the sum. -/
theorem Board_GravityStep_cell_rowSum (y : Int) (hy : y ∈ upto 12) (x : Int) (hx : x ∈ upto 6)
    (s : board × Bool) :
    Board_GravityStep_cell y s x = s ∨
      ((Board_GravityStep_cell y s x).2 = true ∧
        (Board_GravityStep_cell y s x).1.rowSum = s.1.rowSum + 1) := by
  by_cases hh : hangs (fun y' => s.1.Pieces y' x) y
  · right
    constructor
    · unfold Board_GravityStep_cell
      rw [if_neg]
      rintro (h1 | h1)
      · exact hh.1 h1
      · exact h1 hh.2
    · rw [mem_upto] at hy
      have key := sum_map_shift (upto 6)
        (fun x' => columnRowSum fun y' => (Board_GravityStep_cell y s x).1.Pieces y' x')
        (fun x' => columnRowSum fun y' => s.1.Pieces y' x')
        (fun _ => 0)
        (fun x' => if x' = x then 1 else 0)
        (by
          intro x' _
          simp only
          by_cases e : x' = x
          · subst e
            rw [Board_GravityStep_cell_same, columnStep_rowSum y hy.1 (by omega) _ hh, if_pos rfl]
            omega
          · rw [Board_GravityStep_cell_other y s x x' e, if_neg e])
      rw [sum_indicator 1 x (upto 6) (upto_nodup 6) hx] at key
      simp only [List.map_const', List.sum_replicate, smul_zero, add_zero] at key
      unfold board.rowSum
      exact key
  · left
    unfold Board_GravityStep_cell
    rw [if_pos]
    unfold hangs at hh
    by_cases h1 : s.1.Pieces y x = PIECE_EMPTY
    · exact Or.inl h1
    · exact Or.inr fun h2 => hh ⟨h1, h2⟩

/-- A call of `Board_GravityStep` that returns true leaves a larger row-index sum. -/
theorem Board_GravityStep_true_rowSum (B : board) (h : (Board_GravityStep B).1 = true) :
    B.rowSum < (Board_GravityStep B).2.rowSum := by
  have key := foldl_preserves_mem Board_GravityStep_row
    (fun s : board × Bool => B.rowSum ≤ s.1.rowSum ∧ (s.2 = true → B.rowSum < s.1.rowSum))
    (upto 12) (B, false)
    (fun s y hy hs =>
      foldl_preserves_mem (Board_GravityStep_cell y)
        (fun s : board × Bool => B.rowSum ≤ s.1.rowSum ∧ (s.2 = true → B.rowSum < s.1.rowSum))
        (upto 6) s
        (fun s' x hx hs' => by
          rcases Board_GravityStep_cell_rowSum y hy x hx s' with e | ⟨_, e⟩
          · rw [e]; exact hs'
          · rw [e]; exact ⟨by omega, fun _ => by omega⟩)
        hs)
    ⟨le_refl _, fun h => by cases h⟩
  unfold Board_GravityStep at h ⊢
  simp only at h ⊢
  exact key.2 h

theorem board_rowSum_congr (B B' : board)
    (h : ∀ c ∈ rasterOrder, B'.Pieces c.2 c.1 = B.Pieces c.2 c.1) : B'.rowSum = B.rowSum := by
  unfold board.rowSum columnRowSum
  congr 1
  apply List.map_congr_left
  intro x hx
  congr 1
  apply List.map_congr_left
  intro y hy
  rw [mem_upto] at hx hy
  have := h (x, y) ((mem_rasterOrder (x, y)).mpr ⟨hx.1, hx.2, hy.1, hy.2⟩)
  simp only at this
  show (if B'.Pieces y x ≠ PIECE_EMPTY then y else 0) =
    if B.Pieces y x ≠ PIECE_EMPTY then y else 0
  rw [this]

/-- C22. `Board_GravityStep` returns false exactly when no non-empty cell `(x, y)` of the
board, `y < BOARD_HEIGHT-1`, has an empty cell directly below it; when it returns false the
board is unchanged, and when it returns true some cell of the board has changed. -/
theorem Board_GravityStep_returns (B : board) :
    ((Board_GravityStep B).1 = false ↔
      ∀ x y, 0 ≤ x → x < BOARD_WIDTH → 0 ≤ y → y < BOARD_HEIGHT - 1 →
        ¬(B.Pieces y x ≠ PIECE_EMPTY ∧ B.Pieces (y + 1) x = PIECE_EMPTY)) ∧
    ((Board_GravityStep B).1 = false → (Board_GravityStep B).2 = B) ∧
    ((Board_GravityStep B).1 = true →
      ∃ c ∈ rasterOrder, (Board_GravityStep B).2.Pieces c.2 c.1 ≠ B.Pieces c.2 c.1) := by
  refine ⟨⟨?_, ?_⟩, Board_GravityStep_false_unchanged B, ?_⟩
  · intro h x y hx0 hx1 hy0 hy1
    exact Board_GravityStep_false_settled B h x y hx0 hx1 hy0 hy0 hy1
  · intro h
    have hs : B.settledFrom 0 := fun x y hx0 hx1 _ hy0 hy1 => h x y hx0 hx1 hy0 hy1
    rw [Board_GravityStep_settled B hs]
  · intro h
    by_contra hcon
    have hsame : ∀ c ∈ rasterOrder, (Board_GravityStep B).2.Pieces c.2 c.1 = B.Pieces c.2 c.1 := by
      intro c hc
      by_contra hne
      exact hcon ⟨c, hc, hne⟩
    have := Board_GravityStep_true_rowSum B h
    rw [board_rowSum_congr B _ hsame] at this
    omega

/-- C23. For every board the loop `while (Board_GravityStep(board));` returns within 13
calls, so that at most `BOARD_HEIGHT-1 = 12` calls return true; and every call that returns
true strictly increases the sum of the row indices of the non-empty pieces. -/
theorem Board_GravityStep_loop_terminates (B : board) :
    (∃ B', whileTrue Board_GravityStep (BOARD_HEIGHT - 1).toNat.succ B = some B') ∧
    (BOARD_HEIGHT - 1).toNat.succ = 12 + 1 ∧
    ∀ B1 : board, (Board_GravityStep B1).1 = true →
      B1.rowSum < (Board_GravityStep B1).2.rowSum := by
  refine ⟨?_, by decide, Board_GravityStep_true_rowSum⟩
  obtain ⟨B', h, _⟩ := Board_GravityStep_loop_settles 12 B (board_settledFrom_12 B)
  exact ⟨B', h⟩

/-! ## Brick_Rotate and the direction masks -/

theorem Piece_Rotate_masks (p : piece) (o : orientation) :
    (Piece_IncomingOrientations (Piece_Rotate p) &&& bit o.turn ≠ 0 ↔
      Piece_IncomingOrientations p &&& bit o ≠ 0) ∧
    (Piece_OutgoingOrientations (Piece_Rotate p) &&& bit o.turn ≠ 0 ↔
      Piece_OutgoingOrientations p &&& bit o ≠ 0) := by
  cases p <;> cases o <;> decide

theorem brick_connects_cases (p0 p1 : piece) (o : orientation) :
    (Piece_OutgoingOrientations (Piece_Rotate p0) &&&
        Piece_IncomingOrientations (Piece_Rotate p1) &&& bit o.turn ≠ 0) ↔
      (Piece_OutgoingOrientations p0 &&& Piece_IncomingOrientations p1 &&& bit o ≠ 0) := by
  cases p0 <;> cases p1 <;> cases o <;> decide

/-- C25. `Brick_Rotate` turns the orientation by `RIGHT -> DOWN -> LEFT -> UP -> RIGHT` and
keeps whether the two pieces connect along the brick's axis; for every piece and direction,
the incoming (outgoing) mask of the rotated piece has the turned direction exactly when the
mask of the piece has the direction. -/
theorem Brick_Rotate_connects (b : brick) :
    (Brick_Rotate b).Orientation = b.Orientation.turn ∧
    ((Piece_OutgoingOrientations (Brick_Rotate b).Pieces0 &&&
        Piece_IncomingOrientations (Brick_Rotate b).Pieces1 &&&
        bit (Brick_Rotate b).Orientation ≠ 0) ↔
      (Piece_OutgoingOrientations b.Pieces0 &&& Piece_IncomingOrientations b.Pieces1 &&&
        bit b.Orientation ≠ 0)) ∧
    (∀ (p : piece) (o : orientation),
      (Piece_IncomingOrientations (Piece_Rotate p) &&& bit o.turn ≠ 0 ↔
        Piece_IncomingOrientations p &&& bit o ≠ 0) ∧
      (Piece_OutgoingOrientations (Piece_Rotate p) &&& bit o.turn ≠ 0 ↔
        Piece_OutgoingOrientations p &&& bit o ≠ 0)) := by
  have hturn : (Brick_Rotate b).Orientation = b.Orientation.turn := by
    obtain ⟨x, y, p0, p1, o⟩ := b
    cases o <;> rfl
  refine ⟨hturn, ?_, Piece_Rotate_masks⟩
  rw [hturn]
  exact brick_connects_cases b.Pieces0 b.Pieces1 b.Orientation

/-! ## GP_Update: what each part can change -/

/-- The outcomes of the block `if (dx != 0 || dy != 0) { ... }`. -/
theorem GP_Update_move_cases (inp : input) (dx dy : Int) (G G3 : gameplay)
    (h : GP_Update_move inp dx dy G = some G3) :
    G3 = G ∨
    (Board_ShouldPlaceBrick G.Board (Brick_Move G.Brick dx dy) = false ∧
      G3 = { G with Brick := Brick_Move G.Brick dx dy }) ∨
    (∃ nb, Brick_Random inp.Rand = some nb ∧
      (G3 = { G with
          Brick := nb
          Scoring := { Score := 0, NodeChain := 0, WireChain := 0, Multiplier := 0 }
          Board := board.zero } ∨
        G3 = { G with Brick := nb, Board := Board_PutBrick G.Board G.Brick })) := by
  unfold GP_Update_move at h
  simp only at h
  split at h
  · split at h
    · split at h
      · split at h
        · cases h
        · rename_i nb hnb
          split at h
          · simp only [Option.some.injEq] at h
            exact Or.inr (Or.inr ⟨nb, hnb, Or.inl h.symm⟩)
          · simp only [Option.some.injEq] at h
            exact Or.inr (Or.inr ⟨nb, hnb, Or.inr h.symm⟩)
      · simp only [Option.some.injEq] at h
        exact Or.inl h.symm
    · rename_i hfree
      simp only [Option.some.injEq] at h
      exact Or.inr (Or.inl ⟨by simpa using hfree, h.symm⟩)
  · simp only [Option.some.injEq] at h
    exact Or.inl h.symm

/-- The outcomes of the idle part of `GP_Update`. -/
theorem GP_Update_idle_cases (fuel : Nat) (inp : input) (G0 G' : gameplay)
    (h : GP_Update_idle fuel inp G0 = some G') :
    G' = G0 ∨
    ∃ G3 Board,
      GP_Update_move inp (GP_Update_keys inp G0.Board G0.Brick).1
        (GP_Update_dy inp G0.Board G0.Brick)
        { G0 with
          Scoring := { G0.Scoring with NodeChain := 0, WireChain := 0, Multiplier := 0 }
          Brick := (GP_Update_keys inp G0.Board G0.Brick).2.2 } = some G3 ∧
      G' = { G3 with Board := Board } := by
  unfold GP_Update_idle at h
  split at h
  · simp only [Option.some.injEq] at h
    exact Or.inl h.symm
  · simp only at h
    split at h
    · cases h
    · rename_i G3 hG3
      split at h
      · cases h
      · rename_i Board _
        simp only [Option.some.injEq] at h
        exact Or.inr ⟨G3, Board, hG3, h.symm⟩

/-- The outcomes of the junk playback block of `GP_Update` and what follows it. -/
theorem GP_Update_junk_cases (fuel : Nat) (inp : input) (G G' : gameplay)
    (h : GP_Update_junk fuel inp G = some G') :
    (∃ T : trace, G.TraceJunkIndex ≥ G.TraceJunk.Count ∧
      GP_Update_idle fuel inp { G with
        Scoring := { G.Scoring with Multiplier := G.Scoring.Multiplier + 1 }
        TraceJunkIndex := 0
        TraceJunk := T } = some G') ∨
    (∃ c : Int × Int, G.TraceJunkIndex < G.TraceJunk.Count ∧
      G' = { G with
        Board := G.Board.set c.2 c.1 PIECE_JUNK
        TraceJunkIndex := G.TraceJunkIndex + 1 }) ∨
    (G.TraceJunkIndex < G.TraceJunk.Count ∧ G' = G) := by
  unfold GP_Update_junk at h
  by_cases hge : G.TraceJunkIndex ≥ G.TraceJunk.Count
  · rw [if_pos hge] at h
    cases hT : Board_GetTraceJunk fuel G.Board with
    | none => rw [hT] at h; cases h
    | some T => rw [hT] at h; exact Or.inl ⟨T, hge, h⟩
  · rw [if_neg hge] at h
    by_cases hexp : inp.JunkExpired = true
    · rw [if_pos hexp] at h
      cases hc : G.TraceJunk.cellAt G.TraceJunkIndex with
      | none => rw [hc] at h; cases h
      | some c =>
        rw [hc] at h
        simp only [Option.some.injEq] at h
        exact Or.inr (Or.inl ⟨c, by omega, h.symm⟩)
    · rw [if_neg hexp] at h
      simp only [Option.some.injEq] at h
      exact Or.inr (Or.inr ⟨by omega, h.symm⟩)

/-- The outcomes of `GP_Update`. -/
theorem GP_Update_cases (fuel : Nat) (inp : input) (G G' : gameplay)
    (h : GP_Update fuel inp G = some G') :
    (∃ r : trace × power_board, G.TraceIndex ≥ G.Trace.Count ∧
      GP_Update_junk fuel inp
        { Powers := r.2, Board := G.Board, Brick := G.Brick, Trace := r.1
          TraceJunk := G.TraceJunk, TraceIndex := 0, TraceJunkIndex := G.TraceJunkIndex
          Scoring := { G.Scoring with Multiplier := G.Scoring.Multiplier + 1 } } = some G') ∨
    (∃ c : Int × Int, G.TraceIndex < G.Trace.Count ∧
      G' = GP_Update_clear { G with Powers := power_board.zero } c.1 c.2) ∨
    (G.TraceIndex < G.Trace.Count ∧ G' = { G with Powers := power_board.zero }) := by
  unfold GP_Update at h
  simp only at h
  by_cases hge : G.TraceIndex ≥ G.Trace.Count
  · rw [if_pos hge] at h
    cases hT : Board_GetTrace fuel G.Board power_board.zero with
    | none => rw [hT] at h; cases h
    | some r => rw [hT] at h; exact Or.inl ⟨r, hge, h⟩
  · rw [if_neg hge] at h
    by_cases hexp : inp.TraceExpired = true
    · rw [if_pos hexp] at h
      cases hc : G.Trace.cellAt G.TraceIndex with
      | none => rw [hc] at h; cases h
      | some c =>
        rw [hc] at h
        simp only [Option.some.injEq] at h
        exact Or.inr (Or.inl ⟨c, by omega, h.symm⟩)
    · rw [if_neg hexp] at h
      simp only [Option.some.injEq] at h
      exact Or.inr (Or.inr ⟨by omega, h.symm⟩)

/-! ## GP_Update: the playback cursors -/

theorem GP_Update_move_cursors (inp : input) (dx dy : Int) (G G3 : gameplay)
    (h : GP_Update_move inp dx dy G = some G3) :
    G3.Trace = G.Trace ∧ G3.TraceJunk = G.TraceJunk ∧ G3.TraceIndex = G.TraceIndex ∧
      G3.TraceJunkIndex = G.TraceJunkIndex := by
  rcases GP_Update_move_cases inp dx dy G G3 h with e | ⟨_, e⟩ | ⟨nb, _, e | e⟩ <;>
    rw [e] <;> exact ⟨rfl, rfl, rfl, rfl⟩

theorem GP_Update_idle_cursors (fuel : Nat) (inp : input) (G0 G' : gameplay)
    (h : GP_Update_idle fuel inp G0 = some G') :
    G'.Trace = G0.Trace ∧ G'.TraceJunk = G0.TraceJunk ∧ G'.TraceIndex = G0.TraceIndex ∧
      G'.TraceJunkIndex = G0.TraceJunkIndex := by
  rcases GP_Update_idle_cases fuel inp G0 G' h with e | ⟨G3, Board, hG3, e⟩
  · rw [e]; exact ⟨rfl, rfl, rfl, rfl⟩
  · have := GP_Update_move_cursors inp _ _ _ G3 hG3
    rw [e]
    exact this

/-- One call of `GP_Update` keeps both cursors within their traces. -/
theorem GP_Update_cursors_step (fuel : Nat) (inp : input) (G G' : gameplay)
    (hok : G.cursorsOk) (h : GP_Update fuel inp G = some G') : G'.cursorsOk := by
  obtain ⟨h1, h2, h3, h4⟩ := hok
  have hcount : ∀ T : trace, 0 ≤ T.Count := fun T => by unfold trace.Count; omega
  rcases GP_Update_cases fuel inp G G' h with ⟨r, _, hj⟩ | ⟨c, hlt, e⟩ | ⟨hlt, e⟩
  · rcases GP_Update_junk_cases fuel inp _ G' hj with ⟨T, _, hi⟩ | ⟨c, hlt, e⟩ | ⟨hlt, e⟩
    · obtain ⟨e1, e2, e3, e4⟩ := GP_Update_idle_cursors fuel inp _ G' hi
      unfold gameplay.cursorsOk
      rw [e1, e2, e3, e4]
      exact ⟨le_refl _, hcount r.1, le_refl _, hcount T⟩
    · rw [e]
      simp only at hlt
      exact ⟨le_refl _, hcount r.1, by show 0 ≤ G.TraceJunkIndex + 1; omega,
        by show G.TraceJunkIndex + 1 ≤ G.TraceJunk.Count; omega⟩
    · rw [e]
      exact ⟨le_refl _, hcount r.1, h3, h4⟩
  · rw [e]
    exact ⟨by show 0 ≤ G.TraceIndex + 1; omega,
      by show G.TraceIndex + 1 ≤ G.Trace.Count; omega, h3, h4⟩
  · rw [e]
    exact ⟨h1, h2, h3, h4⟩

theorem Reachable_cursors (fuel : Nat) (G : gameplay) (h : Reachable fuel G) :
    G.cursorsOk := by
  induction h with
  | start draws b _ => exact ⟨le_refl _, le_refl _, le_refl _, le_refl _⟩
  | update inp G G' _ hstep ih => exact GP_Update_cursors_step fuel inp G G' ih hstep

/-- C27. `GP_Update` keeps `0 <= TraceIndex <= Trace.Count` and
`0 <= TraceJunkIndex <= TraceJunk.Count`; both hold in the zero-initialised start state; so
in every state of the session they hold, and a playback step (taken when the cursor is below
`Count`) reads its trace at an index inside `0 .. Count-1`. -/
theorem GP_Update_cursors_in_range :
    (∀ (fuel : Nat) (inp : input) (G G' : gameplay),
      G.cursorsOk → GP_Update fuel inp G = some G' → G'.cursorsOk) ∧
    (∀ b : brick, (gameplay.start b).cursorsOk) ∧
    (∀ (fuel : Nat) (G : gameplay), Reachable fuel G →
      G.cursorsOk ∧
      (G.TraceIndex < G.Trace.Count → ∃ c, G.Trace.cellAt G.TraceIndex = some c) ∧
      (G.TraceJunkIndex < G.TraceJunk.Count →
        ∃ c, G.TraceJunk.cellAt G.TraceJunkIndex = some c)) := by
  refine ⟨GP_Update_cursors_step, fun _ => ⟨le_refl _, le_refl _, le_refl _, le_refl _⟩, ?_⟩
  intro fuel G hG
  have hok := Reachable_cursors fuel G hG
  exact ⟨hok, fun hlt => trace_cellAt_some G.Trace G.TraceIndex hok.1 hlt,
    fun hlt => trace_cellAt_some G.TraceJunk G.TraceJunkIndex hok.2.2.1 hlt⟩

/-! ## GP_Update: the brick stays on the board -/

theorem Board_IsOccupied_false_inBounds (B : board) (x y : Int)
    (h : Board_IsOccupied B x y = false) : inBounds (x, y) := by
  unfold Board_IsOccupied at h
  split at h
  · cases h
  · rename_i hoob
    have := (Board_IsOob_false B x y).mp (by simpa using hoob)
    rw [mem_rasterOrder] at this
    unfold inBounds BOARD_WIDTH BOARD_HEIGHT
    exact this

/-- A brick for which `Board_ShouldPlaceBrick` is false has its non-empty pieces on
in-bounds cells. -/
theorem Board_ShouldPlaceBrick_false_onBoard (B : board) (b : brick)
    (h : Board_ShouldPlaceBrick B b = false) : b.onBoard := by
  unfold Board_ShouldPlaceBrick at h
  simp only at h
  split at h
  · cases h
  · rename_i h0
    split at h
    · cases h
    · rename_i h1
      constructor
      · intro hp
        apply Board_IsOccupied_false_inBounds B
        by_contra hocc
        exact h0 ⟨hp, by simpa using hocc⟩
      · intro hp
        apply Board_IsOccupied_false_inBounds B
        by_contra hocc
        exact h1 ⟨hp, by simpa using hocc⟩

theorem Brick_Random_loop_anchor (Ty : brick_type) :
    ∀ (n : Nat) (draws : List Nat) (nb b : brick), draws.length ≤ n →
      Brick_Random_loop Ty nb draws = some b →
      b.x = nb.x ∧ b.y = nb.y ∧ b.Orientation = nb.Orientation := by
  intro n
  induction n with
  | zero =>
    intro draws nb b hlen h
    match draws, hlen with
    | [], _ => simp [Brick_Random_loop] at h
  | succ n ih =>
    intro draws nb b hlen h
    match draws, hlen with
    | [], _ => simp [Brick_Random_loop] at h
    | [_], _ => simp [Brick_Random_loop] at h
    | r0 :: r1 :: rest, hlen =>
      simp only [Brick_Random_loop] at h
      have hrest : rest.length ≤ n := by simp at hlen; omega
      split at h
      · have := ih rest _ b hrest h
        exact this
      · split at h
        · cases h
          exact ⟨rfl, rfl, rfl⟩
        · have := ih rest _ b hrest h
          exact this

/-- Both cells of a brick returned by `Brick_Random` are in-bounds. -/
theorem Brick_Random_cells (draws : List Nat) (b : brick) (h : Brick_Random draws = some b) :
    inBounds (Brick_Locations b).1 ∧ inBounds (Brick_Locations b).2 := by
  have key : b.x = 2 ∧ b.y = 0 ∧ (b.Orientation = RIGHT ∨ b.Orientation = DOWN) := by
    match draws, h with
    | rOrient :: rType :: rest, h =>
      have ho : orientation.cast (rOrient % 2) = RIGHT ∨ orientation.cast (rOrient % 2) = DOWN := by
        unfold orientation.cast
        by_cases h0 : rOrient % 2 = 0
        · left; rw [if_pos h0]
        · right; rw [if_neg h0, if_pos (by omega)]
      simp only [Brick_Random] at h
      split at h
      · cases h
        exact ⟨rfl, rfl, ho⟩
      · obtain ⟨e1, e2, e3⟩ := Brick_Random_loop_anchor _ _ _ _ _ (le_refl _) h
        exact ⟨e1, e2, e3 ▸ ho⟩
  obtain ⟨hx, hy, ho⟩ := key
  unfold inBounds Brick_Locations BOARD_WIDTH BOARD_HEIGHT
  rcases ho with ho | ho <;> rw [ho] <;> simp only [hx, hy] <;> omega

theorem Brick_Random_onBoard (draws : List Nat) (b : brick) (h : Brick_Random draws = some b) :
    b.onBoard :=
  ⟨fun _ => (Brick_Random_cells draws b h).1, fun _ => (Brick_Random_cells draws b h).2⟩

theorem GP_Update_keys_onBoard (inp : input) (B : board) (b : brick) (h : b.onBoard) :
    (GP_Update_keys inp B b).2.2.onBoard := by
  unfold GP_Update_keys
  by_cases hD : inp.Down = true
  · rw [if_pos hD]; exact h
  · rw [if_neg hD]
    by_cases hL : inp.Left = true
    · rw [if_pos hL]; exact h
    · rw [if_neg hL]
      by_cases hR : inp.Right = true
      · rw [if_pos hR]; exact h
      · rw [if_neg hR]
        by_cases hZ : inp.Z = true
        · rw [if_pos hZ]
          cases hS : Board_ShouldPlaceBrick B (Brick_Rotate b) with
          | true => simp only [hS, ↓reduceIte]; exact h
          | false =>
            simp only [hS, Bool.false_eq_true, ↓reduceIte]
            exact Board_ShouldPlaceBrick_false_onBoard B _ hS
        · rw [if_neg hZ]; exact h

theorem GP_Update_idle_onBoard (fuel : Nat) (inp : input) (G0 G' : gameplay)
    (hb : G0.Brick.onBoard) (h : GP_Update_idle fuel inp G0 = some G') : G'.Brick.onBoard := by
  rcases GP_Update_idle_cases fuel inp G0 G' h with e | ⟨G3, Board, hG3, e⟩
  · rw [e]; exact hb
  · have hk := GP_Update_keys_onBoard inp G0.Board G0.Brick hb
    rw [e]
    show G3.Brick.onBoard
    rcases GP_Update_move_cases inp _ _ _ G3 hG3 with e3 | ⟨hfree, e3⟩ | ⟨nb, hnb, e3 | e3⟩
    · rw [e3]; exact hk
    · rw [e3]; exact Board_ShouldPlaceBrick_false_onBoard _ _ hfree
    · rw [e3]; exact Brick_Random_onBoard _ nb hnb
    · rw [e3]; exact Brick_Random_onBoard _ nb hnb

/-- One call of `GP_Update` keeps the non-empty pieces of the brick on in-bounds cells. -/
theorem GP_Update_onBoard_step (fuel : Nat) (inp : input) (G G' : gameplay)
    (hb : G.Brick.onBoard) (h : GP_Update fuel inp G = some G') : G'.Brick.onBoard := by
  rcases GP_Update_cases fuel inp G G' h with ⟨r, _, hj⟩ | ⟨c, _, e⟩ | ⟨_, e⟩
  · rcases GP_Update_junk_cases fuel inp _ G' hj with ⟨T, _, hi⟩ | ⟨c, _, e⟩ | ⟨_, e⟩
    · refine GP_Update_idle_onBoard fuel inp _ G' ?_ hi
      exact hb
    · rw [e]; exact hb
    · rw [e]; exact hb
  · rw [e]; exact hb
  · rw [e]; exact hb

/-- C26. Both cells of every brick returned by `Brick_Random` are in-bounds; `GP_Update`
keeps every non-empty piece of the brick on an in-bounds cell, whatever the keys, timers and
random draws; hence this holds in every state of the session. -/
theorem GP_Update_brick_stays_on_board :
    (∀ (draws : List Nat) (b : brick), Brick_Random draws = some b →
      inBounds (Brick_Locations b).1 ∧ inBounds (Brick_Locations b).2) ∧
    (∀ (fuel : Nat) (inp : input) (G G' : gameplay),
      G.Brick.onBoard → GP_Update fuel inp G = some G' → G'.Brick.onBoard) ∧
    (∀ (fuel : Nat) (G : gameplay), Reachable fuel G → G.Brick.onBoard) := by
  refine ⟨Brick_Random_cells, GP_Update_onBoard_step, ?_⟩
  intro fuel G hG
  induction hG with
  | start draws b h => exact Brick_Random_onBoard draws b h
  | update inp G G' _ hstep ih => exact GP_Update_onBoard_step fuel inp G G' ih hstep

/-! ## The junk trace -/

theorem Piece_incoming_connection (p : piece) (m : Nat) (hd : p ≠ PIECE_DST)
    (h : m &&& Piece_IncomingOrientations p ≠ 0) : Piece_IsConnectionType p = true := by
  cases p <;> first | rfl | exact absurd rfl hd |
    (exfalso; revert h; simp [Piece_IncomingOrientations])

theorem Board_DoTraceIterJunk_pos_junk_mono (B : board) (T : trace) (Piece : piece)
    (s : trace_iter2) (pos : Int × Int × orientation) (h : s.NewTrace.Junk = true) :
    (Board_DoTraceIterJunk_pos_list B T Piece s pos).NewTrace.Junk = true := by
  unfold Board_DoTraceIterJunk_pos_list
  simp only
  split
  · exact h
  · split
    · exact h
    · split
      · rfl
      · split
        · exact h
        · split
          · split
            · exact h
            · exact h
          · exact h

theorem Board_DoTraceIterJunk_pos_junk_origin (B : board) (T : trace) (Piece : piece)
    (s : trace_iter2) (pos : Int × Int × orientation)
    (h : (Board_DoTraceIterJunk_pos_list B T Piece s pos).NewTrace.Junk = true) :
    s.NewTrace.Junk = true ∨
      (Piece_OutgoingOrientations Piece &&& bit pos.2.2 ≠ 0 ∧
        Board_IsOob B pos.1 pos.2.1 = true) := by
  unfold Board_DoTraceIterJunk_pos_list at h
  simp only at h
  split at h
  · exact Or.inl h
  · rename_i hdir
    split at h
    · exact Or.inl h
    · split at h
      · rename_i hoob
        exact Or.inr ⟨hdir, hoob⟩
      · split at h
        · exact Or.inl h
        · split at h
          · split at h
            · exact Or.inl h
            · exact Or.inl h
          · exact Or.inl h

theorem Board_DoTraceIterJunk_pos_junk_set (B : board) (T : trace) (Piece : piece)
    (s : trace_iter2) (pos : Int × Int × orientation)
    (hdir : Piece_OutgoingOrientations Piece &&& bit pos.2.2 ≠ 0)
    (hnc : Trace_Contains T pos.1 pos.2.1 = false)
    (hoob : Board_IsOob B pos.1 pos.2.1 = true) :
    (Board_DoTraceIterJunk_pos_list B T Piece s pos).NewTrace.Junk = true := by
  unfold Board_DoTraceIterJunk_pos_list
  simp only
  rw [if_neg hdir, if_neg (by simp [hnc]), if_pos hoob]

theorem Board_DoTraceIterJunk_pos_cells (B : board) (T : trace) (Piece : piece)
    (s : trace_iter2) (pos : Int × Int × orientation)
    (h : ∀ c ∈ s.NewTrace.Cells,
      c ∈ rasterOrder ∧ Piece_IsConnectionType (B.Pieces c.2 c.1) = true) :
    ∀ c ∈ (Board_DoTraceIterJunk_pos_list B T Piece s pos).NewTrace.Cells,
      c ∈ rasterOrder ∧ Piece_IsConnectionType (B.Pieces c.2 c.1) = true := by
  unfold Board_DoTraceIterJunk_pos_list
  simp only
  split
  · exact h
  · split
    · exact h
    · split
      · exact h
      · rename_i hoob
        split
        · exact h
        · rename_i hdst
          split
          · split
            · exact h
            · exact h
          · rename_i hconn
            intro c hc
            simp only [trace.snoc, List.mem_append, List.mem_singleton] at hc
            rcases hc with hc | hc
            · exact h c hc
            · rw [hc]
              refine ⟨(Board_IsOob_false B _ _).mp (by simpa using hoob), ?_⟩
              apply Piece_incoming_connection _ (Piece_OutgoingOrientations Piece) hdst
              intro hz
              apply hconn
              rw [hz, Nat.zero_and]

theorem Board_PointsOff_iff (B : board) (c : Int × Int) :
    Board_PointsOff B c = true ↔
      ∃ pos ∈ Positions c.1 c.2,
        Piece_OutgoingOrientations (B.Pieces c.2 c.1) &&& bit pos.2.2 ≠ 0 ∧
          Board_IsOob B pos.1 pos.2.1 = true := by
  unfold Board_PointsOff
  rw [List.any_eq_true]
  constructor
  · rintro ⟨pos, hpos, h⟩
    simp only [Bool.and_eq_true, decide_eq_true_eq] at h
    exact ⟨pos, hpos, h⟩
  · rintro ⟨pos, hpos, h⟩
    exact ⟨pos, hpos, by simp only [Bool.and_eq_true, decide_eq_true_eq]; exact h⟩

theorem Board_DoTraceIterJunk_cell_junk_mono (B : board) (T : trace) (s : trace_iter2)
    (c : Int × Int) (h : s.NewTrace.Junk = true) :
    (Board_DoTraceIterJunk_cell_list B T s c).NewTrace.Junk = true := by
  unfold Board_DoTraceIterJunk_cell_list
  exact foldl_preserves _ (fun s : trace_iter2 => s.NewTrace.Junk = true)
    (fun s' pos hs' => Board_DoTraceIterJunk_pos_junk_mono B T _ s' pos hs') _ s h

theorem Board_DoTraceIterJunk_cell_junk_origin (B : board) (T : trace) (s : trace_iter2)
    (c : Int × Int) (h : (Board_DoTraceIterJunk_cell_list B T s c).NewTrace.Junk = true) :
    s.NewTrace.Junk = true ∨ Board_PointsOff B c = true := by
  unfold Board_DoTraceIterJunk_cell_list at h
  exact foldl_preserves_mem (Board_DoTraceIterJunk_pos_list B T (B.Pieces c.2 c.1))
    (fun s' : trace_iter2 =>
      s'.NewTrace.Junk = true → s.NewTrace.Junk = true ∨ Board_PointsOff B c = true)
    (Positions c.1 c.2) s
    (fun s' pos hpos hs' hj => by
      rcases Board_DoTraceIterJunk_pos_junk_origin B T _ s' pos hj with h1 | h1
      · exact hs' h1
      · exact Or.inr ((Board_PointsOff_iff B c).mpr ⟨pos, hpos, h1⟩))
    Or.inl h

theorem Trace_Contains_oob (B : board) (T : trace) (hT : ∀ c ∈ T.Cells, c ∈ rasterOrder)
    (x y : Int) (hoob : Board_IsOob B x y = true) : Trace_Contains T x y = false := by
  cases hc : Trace_Contains T x y with
  | false => rfl
  | true =>
    unfold Trace_Contains at hc
    have hmem := (Trace_Contains_go_iff T.Cells x y).mp hc
    have := (Board_IsOob_false B x y).mpr (hT _ hmem)
    rw [this] at hoob
    cases hoob

theorem Board_DoTraceIterJunk_cell_junk_set (B : board) (T : trace)
    (hT : ∀ c ∈ T.Cells, c ∈ rasterOrder) (s : trace_iter2) (c : Int × Int)
    (h : Board_PointsOff B c = true) :
    (Board_DoTraceIterJunk_cell_list B T s c).NewTrace.Junk = true := by
  obtain ⟨pos, hpos, hdir, hoob⟩ := (Board_PointsOff_iff B c).mp h
  obtain ⟨l1, l2, hl⟩ := List.append_of_mem hpos
  unfold Board_DoTraceIterJunk_cell_list
  simp only
  rw [hl, List.foldl_append, List.foldl_cons]
  apply foldl_preserves _ (fun s : trace_iter2 => s.NewTrace.Junk = true)
    (fun s' p hs' => Board_DoTraceIterJunk_pos_junk_mono B T _ s' p hs')
  exact Board_DoTraceIterJunk_pos_junk_set B T _ _ pos hdir
    (Trace_Contains_oob B T hT _ _ hoob) hoob

/-- A pass of `Board_DoTraceIterJunk_list` sets `Junk` only if it was set or a traced cell points
off the board. -/
theorem Board_DoTraceIterJunk_junk_origin (B : board) (T : trace)
    (h : (Board_DoTraceIterJunk_list B T).2.Junk = true) :
    T.Junk = true ∨ ∃ c ∈ T.Cells, Board_PointsOff B c = true := by
  unfold Board_DoTraceIterJunk_list at h
  simp only at h
  exact foldl_preserves_mem (Board_DoTraceIterJunk_cell_list B T)
    (fun s : trace_iter2 =>
      s.NewTrace.Junk = true → T.Junk = true ∨ ∃ c ∈ T.Cells, Board_PointsOff B c = true)
    T.Cells { NewTrace := T, HasIter := false }
    (fun s c hc hs hj => by
      rcases Board_DoTraceIterJunk_cell_junk_origin B T s c hj with h1 | h1
      · exact hs h1
      · exact Or.inr ⟨c, hc, h1⟩)
    Or.inl h

/-- A pass of `Board_DoTraceIterJunk_list` sets `Junk` when a traced cell points off the board. -/
theorem Board_DoTraceIterJunk_junk_set (B : board) (T : trace)
    (hT : ∀ c ∈ T.Cells, c ∈ rasterOrder) (c : Int × Int) (hc : c ∈ T.Cells)
    (h : Board_PointsOff B c = true) : (Board_DoTraceIterJunk_list B T).2.Junk = true := by
  obtain ⟨l1, l2, hl⟩ := List.append_of_mem hc
  unfold Board_DoTraceIterJunk_list
  simp only
  have hfold : ∀ s : trace_iter2,
      ((l1 ++ c :: l2).foldl (Board_DoTraceIterJunk_cell_list B T) s).NewTrace.Junk = true := by
    intro s
    rw [List.foldl_append, List.foldl_cons]
    apply foldl_preserves _ (fun s : trace_iter2 => s.NewTrace.Junk = true)
      (fun s' p hs' => Board_DoTraceIterJunk_cell_junk_mono B T s' p hs')
    exact Board_DoTraceIterJunk_cell_junk_set B T hT _ c h
  rw [← hl] at hfold
  exact hfold _

/-- A pass of `Board_DoTraceIterJunk_list` keeps all traced cells in-bounds and of connection
type. -/
theorem Board_DoTraceIterJunk_cells (B : board) (T : trace)
    (h : ∀ c ∈ T.Cells, c ∈ rasterOrder ∧ Piece_IsConnectionType (B.Pieces c.2 c.1) = true) :
    ∀ c ∈ (Board_DoTraceIterJunk_list B T).2.Cells,
      c ∈ rasterOrder ∧ Piece_IsConnectionType (B.Pieces c.2 c.1) = true := by
  unfold Board_DoTraceIterJunk_list
  simp only
  apply foldl_preserves (Board_DoTraceIterJunk_cell_list B T)
    (fun s : trace_iter2 => ∀ c ∈ s.NewTrace.Cells,
      c ∈ rasterOrder ∧ Piece_IsConnectionType (B.Pieces c.2 c.1) = true)
  · intro s c hs
    unfold Board_DoTraceIterJunk_cell_list
    exact foldl_preserves _
      (fun s : trace_iter2 => ∀ c ∈ s.NewTrace.Cells,
        c ∈ rasterOrder ∧ Piece_IsConnectionType (B.Pieces c.2 c.1) = true)
      (fun s' pos hs' => Board_DoTraceIterJunk_pos_cells B T _ s' pos hs') _ s hs
  · exact h

/-- The state returned by a `while (step(&s));` loop is the result of a call that returned
false on a state satisfying every invariant of the loop. -/
theorem whileTrue_final_inv {σ : Type} (step : σ → Bool × σ) (Inv : σ → Prop)
    (hstep : ∀ s, Inv s → Inv (step s).2) :
    ∀ (fuel : Nat) (s s' : σ), Inv s → whileTrue step fuel s = some s' →
      ∃ t, Inv t ∧ step t = (false, s') := by
  intro fuel
  induction fuel with
  | zero => intro s s' _ h; simp [whileTrue] at h
  | succ n ih =>
    intro s s' hs h
    unfold whileTrue at h
    have h1 := hstep s hs
    rcases hst : step s with ⟨flag, s1⟩
    rw [hst] at h h1
    cases flag with
    | false =>
      simp only [Option.some.injEq] at h
      exact ⟨s, hs, by rw [hst, h]⟩
    | true => exact ih s1 s' h1 h

/-- The junk trace on lists of an in-bounds connection-type cell: its cells are in-bounds
and of connection type, the seed is among them, and `Junk` is set exactly when one of them
points off the board. -/
theorem Board_TraceJunk_list_spec (fuel : Nat) (B : board) (c : Int × Int) (T : trace)
    (hc : c ∈ rasterOrder) (hconn : Piece_IsConnectionType (B.Pieces c.2 c.1) = true)
    (h : Board_TraceJunk_list fuel B c.1 c.2 = some T) :
    (∀ d ∈ T.Cells, d ∈ rasterOrder ∧ Piece_IsConnectionType (B.Pieces d.2 d.1) = true) ∧
    c ∈ T.Cells ∧
    (T.Junk = true ↔ ∃ d ∈ T.Cells, Board_PointsOff B d = true) := by
  unfold Board_TraceJunk_list at h
  have hstep : ∀ s : trace,
      ((∀ d ∈ s.Cells, d ∈ rasterOrder ∧ Piece_IsConnectionType (B.Pieces d.2 d.1) = true) ∧
        (s.Junk = true → ∃ d ∈ s.Cells, Board_PointsOff B d = true) ∧ c ∈ s.Cells) →
      ((∀ d ∈ (Board_DoTraceIterJunk_list B s).2.Cells,
          d ∈ rasterOrder ∧ Piece_IsConnectionType (B.Pieces d.2 d.1) = true) ∧
        ((Board_DoTraceIterJunk_list B s).2.Junk = true →
          ∃ d ∈ (Board_DoTraceIterJunk_list B s).2.Cells, Board_PointsOff B d = true) ∧
        c ∈ (Board_DoTraceIterJunk_list B s).2.Cells) := by
    intro s ⟨h1, h2, h3⟩
    obtain ⟨added, hadd, _, _⟩ := Board_DoTraceIterJunk_grows B s
    refine ⟨Board_DoTraceIterJunk_cells B s h1, ?_, ?_⟩
    · intro hj
      rcases Board_DoTraceIterJunk_junk_origin B s hj with hj' | ⟨d, hd, hp⟩
      · obtain ⟨d, hd, hp⟩ := h2 hj'
        exact ⟨d, by rw [hadd]; exact List.mem_append_left _ hd, hp⟩
      · exact ⟨d, by rw [hadd]; exact List.mem_append_left _ hd, hp⟩
    · rw [hadd]; exact List.mem_append_left _ h3
  have hinit : (∀ d ∈ ({ trace.zero with Cells := [(c.1, c.2)] } : trace).Cells,
        d ∈ rasterOrder ∧ Piece_IsConnectionType (B.Pieces d.2 d.1) = true) ∧
      (({ trace.zero with Cells := [(c.1, c.2)] } : trace).Junk = true →
        ∃ d ∈ ({ trace.zero with Cells := [(c.1, c.2)] } : trace).Cells,
          Board_PointsOff B d = true) ∧
      c ∈ ({ trace.zero with Cells := [(c.1, c.2)] } : trace).Cells := by
    refine ⟨?_, ?_, ?_⟩
    · intro d hd
      simp only [List.mem_singleton, Prod.mk.eta] at hd
      rw [hd]; exact ⟨hc, hconn⟩
    · intro hj; cases hj
    · simp
  obtain ⟨t, ⟨t1, t2, t3⟩, ht⟩ := whileTrue_final_inv (Board_DoTraceIterJunk_list B) _ hstep
    fuel _ T hinit h
  have hT : (Board_DoTraceIterJunk_list B t).2 = T := by rw [ht]
  have hflag : (Board_DoTraceIterJunk_list B t).1 = false := by rw [ht]
  obtain ⟨added, hadd, _, hne⟩ := Board_DoTraceIterJunk_grows B t
  rw [hflag] at hne
  have hnil : added = [] := by
    by_contra hcon
    have := hne.mpr hcon
    cases this
  rw [hnil, List.append_nil, hT] at hadd
  obtain ⟨r1, r2, r3⟩ := hstep t ⟨t1, t2, t3⟩
  rw [hT] at r1 r2 r3
  refine ⟨r1, r3, r2, ?_⟩
  rintro ⟨d, hd, hp⟩
  rw [hadd] at hd
  have := Board_DoTraceIterJunk_junk_set B t (fun d hd => (t1 d hd).1) d hd hp
  rw [hT] at this
  exact this

/-- The junk trace of an in-bounds connection-type cell, when it returns: its cells are
in-bounds and of connection type, the seed is among them, and `Junk` is set exactly when one
of them points off the board. -/
theorem Board_TraceJunk_spec (fuel : Nat) (B : board) (c : Int × Int) (T : trace)
    (hc : c ∈ rasterOrder) (hconn : Piece_IsConnectionType (B.Pieces c.2 c.1) = true)
    (h : Board_TraceJunk fuel B c.1 c.2 = some T) :
    (∀ d ∈ T.Cells, d ∈ rasterOrder ∧ Piece_IsConnectionType (B.Pieces d.2 d.1) = true) ∧
    c ∈ T.Cells ∧
    (T.Junk = true ↔ ∃ d ∈ T.Cells, Board_PointsOff B d = true) := by
  rw [Board_TraceJunk_eq] at h
  exact Board_TraceJunk_list_spec fuel B c T hc hconn (bind_fits_some _ _ _ h).1

/-- With fuel 78 or more a junk trace fails only by an append outside the arrays: the trace
on lists has more than `BOARD_WIDTH*BOARD_HEIGHT` cells. -/
theorem Board_TraceJunk_none_overrun (fuel : Nat) (hfuel : 78 ≤ fuel) (B : board)
    (c : Int × Int) (hc : c ∈ rasterOrder) (h : Board_TraceJunk fuel B c.1 c.2 = none) :
    ∃ T, Board_TraceJunk_list fuel B c.1 c.2 = some T ∧ T.Count > BOARD_WIDTH * BOARD_HEIGHT := by
  obtain ⟨T, hT⟩ := Board_TraceJunk_list_some fuel hfuel B c hc
  refine ⟨T, hT, ?_⟩
  rw [Board_TraceJunk_eq, hT] at h
  simp only [Option.some_bind] at h
  by_cases hf : T.fits = true
  · simp [hf] at h
  · unfold trace.fits at hf
    simpa using hf

/-- The trace returned by the raster scan of `Board_GetTraceJunk`: the zero trace when no
junk trace of a connection-type cell has `Junk` set, and else such a junk trace. -/
theorem Board_GetTraceJunk_scan_cases (fuel : Nat) (B : board) :
    ∀ (l : List (Int × Int)) (T : trace), Board_GetTraceJunk_scan fuel B l = some T →
      (T = trace.zero ∧ ∀ c ∈ l, Piece_IsConnectionType (B.Pieces c.2 c.1) = true →
        ∃ T', Board_TraceJunk fuel B c.1 c.2 = some T' ∧ T'.Junk = false) ∨
      (∃ c ∈ l, Piece_IsConnectionType (B.Pieces c.2 c.1) = true ∧
        Board_TraceJunk fuel B c.1 c.2 = some T ∧ T.Junk = true) := by
  intro l
  induction l with
  | nil =>
    intro T h
    simp only [Board_GetTraceJunk_scan, Option.some.injEq] at h
    exact Or.inl ⟨h.symm, fun c hc => by cases hc⟩
  | cons a rest ih =>
    intro T h
    unfold Board_GetTraceJunk_scan at h
    by_cases hconn : Piece_IsConnectionType (B.Pieces a.2 a.1) = true
    · rw [if_pos hconn] at h
      cases hTa : Board_TraceJunk fuel B a.1 a.2 with
      | none => rw [hTa] at h; cases h
      | some Ta =>
        rw [hTa] at h
        simp only at h
        by_cases hj : Ta.Junk = true
        · rw [if_pos hj] at h
          simp only [Option.some.injEq] at h
          rw [h] at hTa hj
          exact Or.inr ⟨a, List.mem_cons_self _ _, hconn, hTa, hj⟩
        · rw [if_neg hj] at h
          rcases ih T h with ⟨hz, hall⟩ | ⟨c, hc, h1, h2, h3⟩
          · refine Or.inl ⟨hz, fun c hc hcc => ?_⟩
            rcases List.mem_cons.mp hc with rfl | hc'
            · exact ⟨Ta, hTa, by simpa using hj⟩
            · exact hall c hc' hcc
          · exact Or.inr ⟨c, List.mem_cons_of_mem _ hc, h1, h2, h3⟩
    · rw [if_neg hconn] at h
      rcases ih T h with ⟨hz, hall⟩ | ⟨c, hc, h1, h2, h3⟩
      · refine Or.inl ⟨hz, fun c hc hcc => ?_⟩
        rcases List.mem_cons.mp hc with rfl | hc'
        · exact absurd hcc hconn
        · exact hall c hc' hcc
      · exact Or.inr ⟨c, List.mem_cons_of_mem _ hc, h1, h2, h3⟩

/-- The raster scan of `Board_GetTraceJunk` fails only at a connection-type cell whose junk
trace fails. -/
theorem Board_GetTraceJunk_scan_none (fuel : Nat) (B : board) :
    ∀ (l : List (Int × Int)), Board_GetTraceJunk_scan fuel B l = none →
      ∃ c ∈ l, Piece_IsConnectionType (B.Pieces c.2 c.1) = true ∧
        Board_TraceJunk fuel B c.1 c.2 = none := by
  intro l
  induction l with
  | nil => intro h; simp [Board_GetTraceJunk_scan] at h
  | cons a rest ih =>
    intro h
    unfold Board_GetTraceJunk_scan at h
    by_cases hconn : Piece_IsConnectionType (B.Pieces a.2 a.1) = true
    · rw [if_pos hconn] at h
      cases hTa : Board_TraceJunk fuel B a.1 a.2 with
      | none => exact ⟨a, List.mem_cons_self _ _, hconn, hTa⟩
      | some Ta =>
        rw [hTa] at h
        simp only at h
        by_cases hj : Ta.Junk = true
        · rw [if_pos hj] at h; cases h
        · rw [if_neg hj] at h
          obtain ⟨c, hc, h1, h2⟩ := ih h
          exact ⟨c, List.mem_cons_of_mem _ hc, h1, h2⟩
    · rw [if_neg hconn] at h
      obtain ⟨c, hc, h1, h2⟩ := ih h
      exact ⟨c, List.mem_cons_of_mem _ hc, h1, h2⟩

/-! ### The junk trace repeats at most one cell -/

/-- The part of C21 that holds of every trace `Board_GetTraceJunk` returns. -/
theorem Board_GetTraceJunk_some_spec (fuel : Nat) (B : board) (T : trace)
    (hT : Board_GetTraceJunk fuel B = some T) :
    ((T.Count ≥ 1 ∧ T.Junk = true) ↔
        ∃ c ∈ rasterOrder, Piece_IsConnectionType (B.Pieces c.2 c.1) = true ∧
          Board_PointsOff B c = true) ∧
      ((¬∃ c ∈ rasterOrder, Piece_IsConnectionType (B.Pieces c.2 c.1) = true ∧
          Board_PointsOff B c = true) → T = trace.zero) ∧
      (∀ c ∈ T.Cells, inBounds c ∧ Piece_IsConnectionType (B.Pieces c.2 c.1) = true) := by
  have hin : ∀ c, c ∈ rasterOrder → inBounds c := by
    intro c hc
    rw [mem_rasterOrder] at hc
    unfold inBounds BOARD_WIDTH BOARD_HEIGHT
    exact hc
  unfold Board_GetTraceJunk at hT
  rcases Board_GetTraceJunk_scan_cases fuel B rasterOrder T hT with
    ⟨hz, hall⟩ | ⟨c, hc, hconn, hTc, hj⟩
  · have hnone : ¬∃ c ∈ rasterOrder, Piece_IsConnectionType (B.Pieces c.2 c.1) = true ∧
        Board_PointsOff B c = true := by
      rintro ⟨c, hc, hconn, hoff⟩
      obtain ⟨T', hT', hj'⟩ := hall c hc hconn
      obtain ⟨_, hmem, hiff⟩ := Board_TraceJunk_spec fuel B c T' hc hconn hT'
      have := hiff.mpr ⟨c, hmem, hoff⟩
      rw [hj'] at this
      cases this
    refine ⟨⟨?_, fun h => absurd h hnone⟩, fun _ => hz, ?_⟩
    · rintro ⟨_, hj⟩
      rw [hz] at hj
      cases hj
    · intro c hc
      rw [hz] at hc
      cases hc
  · obtain ⟨hcells, hmem, hiff⟩ := Board_TraceJunk_spec fuel B c T hc hconn hTc
    have hex : ∃ c ∈ rasterOrder, Piece_IsConnectionType (B.Pieces c.2 c.1) = true ∧
        Board_PointsOff B c = true := by
      obtain ⟨d, hd, hoff⟩ := hiff.mp hj
      exact ⟨d, (hcells d hd).1, (hcells d hd).2, hoff⟩
    refine ⟨⟨fun _ => hex, fun _ => ⟨?_, hj⟩⟩, fun h => absurd hex h, ?_⟩
    · unfold trace.Count
      have : 0 < T.Cells.length := List.length_pos_of_mem hmem
      omega
    · intro d hd
      exact ⟨hin d (hcells d hd).1, (hcells d hd).2⟩

/-- With fuel for 78 calls per junk trace, `Board_GetTraceJunk` on any board either returns
a trace with the properties of `Board_GetTraceJunk_some_spec`, or the junk trace of some
connection-type cell has more than `BOARD_WIDTH*BOARD_HEIGHT` entries and its append number
79 is a write outside `Xs`/`Ys`. -/
theorem Board_GetTraceJunk_returns_or_overrun (fuel : Nat) (hfuel : 78 ≤ fuel) (B : board) :
    (∃ T, Board_GetTraceJunk fuel B = some T ∧
      ((T.Count ≥ 1 ∧ T.Junk = true) ↔
        ∃ c ∈ rasterOrder, Piece_IsConnectionType (B.Pieces c.2 c.1) = true ∧
          Board_PointsOff B c = true) ∧
      ((¬∃ c ∈ rasterOrder, Piece_IsConnectionType (B.Pieces c.2 c.1) = true ∧
          Board_PointsOff B c = true) → T = trace.zero) ∧
      (∀ c ∈ T.Cells, inBounds c ∧ Piece_IsConnectionType (B.Pieces c.2 c.1) = true)) ∨
    (Board_GetTraceJunk fuel B = none ∧
      ∃ c ∈ rasterOrder, Piece_IsConnectionType (B.Pieces c.2 c.1) = true ∧
        Board_TraceJunk fuel B c.1 c.2 = none ∧
        ∃ T, Board_TraceJunk_list fuel B c.1 c.2 = some T ∧
          T.Count > BOARD_WIDTH * BOARD_HEIGHT) := by
  cases hT : Board_GetTraceJunk fuel B with
  | some T => exact Or.inl ⟨T, rfl, Board_GetTraceJunk_some_spec fuel B T hT⟩
  | none =>
    refine Or.inr ⟨rfl, ?_⟩
    unfold Board_GetTraceJunk at hT
    obtain ⟨c, hc, hconn, hnone⟩ := Board_GetTraceJunk_scan_none fuel B rasterOrder hT
    exact ⟨c, hc, hconn, hnone, Board_TraceJunk_none_overrun fuel hfuel B c hc hnone⟩

/-- What a loop returns does not depend on the fuel. -/
theorem whileTrue_unique {σ : Type} (step : σ → Bool × σ) (n m : Nat) (s r r' : σ)
    (h : whileTrue step n s = some r) (h' : whileTrue step m s = some r') : r = r' := by
  rcases Nat.le_total n m with hnm | hmn
  · have := whileTrue_mono step n m s r hnm h
    rw [this] at h'
    exact Option.some.inj h'
  · have := whileTrue_mono step m n s r' hmn h'
    rw [this] at h
    exact (Option.some.inj h).symm

/-- Every coordinate pair stored by the power trace on lists from an in-bounds seed is
in-bounds. -/
theorem Board_Trace_list_cells_inBounds (fuel : Nat) (B : board) (x y : Int) (P : power_board)
    (r : trace × power_board) (hseed : inBounds (x, y))
    (h : Board_Trace_list fuel B x y P = some r) : ∀ c ∈ r.1.Cells, inBounds c := by
  have hin : ∀ c, c ∈ rasterOrder ↔ inBounds c := by
    intro c
    rw [mem_rasterOrder]
    unfold inBounds BOARD_WIDTH BOARD_HEIGHT
    exact Iff.rfl
  unfold Board_Trace_list at h
  have := whileTrue_preserves (Board_DoTraceIter_list B)
    (fun s : trace × power_board => ∀ c ∈ s.1.Cells, c ∈ rasterOrder)
    (fun s hs c hc => by
      obtain ⟨added, hadd, hnew, _⟩ := Board_DoTraceIter_grows B s
      rw [hadd] at hc
      rcases List.mem_append.mp hc with hc | hc
      · exact hs c hc
      · exact (hnew c hc).1)
    fuel _ r
    (fun c hc => by
      simp only [List.mem_singleton] at hc
      rw [hc]; exact (hin _).mpr hseed)
    h
  exact fun c hc => (hin c).mp (this c hc)

/-- Every coordinate pair of a trace that `Board_Trace` returns from an in-bounds seed is
in-bounds. -/
theorem Board_Trace_cells_inBounds (fuel : Nat) (B : board) (x y : Int) (P : power_board)
    (r : trace × power_board) (hseed : inBounds (x, y))
    (h : Board_Trace fuel B x y P = some r) : ∀ c ∈ r.1.Cells, inBounds c := by
  rw [Board_Trace_eq] at h
  exact Board_Trace_list_cells_inBounds fuel B x y P r hseed (bind_fits_some _ _ _ h).1

/-- A trace that `Board_Trace` returns has at most `BOARD_WIDTH*BOARD_HEIGHT` cells. -/
theorem Board_Trace_count_le (fuel : Nat) (B : board) (x y : Int) (P : power_board)
    (r : trace × power_board) (h : Board_Trace fuel B x y P = some r) :
    r.1.Count ≤ BOARD_WIDTH * BOARD_HEIGHT := by
  rw [Board_Trace_eq] at h
  have := (bind_fits_some (fun r : trace × power_board => r.1.fits) _ _ h).2
  unfold trace.fits at this
  simpa [mul_comm] using this

/-- With fuel 78 or more `Board_Trace` from an in-bounds seed fails only by an append outside
the arrays: the trace on lists has more than `BOARD_WIDTH*BOARD_HEIGHT` cells. -/
theorem Board_Trace_none_overrun (fuel : Nat) (hfuel : 78 ≤ fuel) (B : board) (c : Int × Int)
    (hc : c ∈ rasterOrder) (P : power_board) (h : Board_Trace fuel B c.1 c.2 P = none) :
    ∃ r, Board_Trace_list fuel B c.1 c.2 P = some r ∧ r.1.Count > BOARD_WIDTH * BOARD_HEIGHT := by
  obtain ⟨r, hr⟩ := Board_Trace_list_some fuel hfuel B c hc P
  refine ⟨r, hr, ?_⟩
  rw [Board_Trace_eq, hr] at h
  simp only [Option.some_bind] at h
  by_cases hf : r.1.fits = true
  · simp [hf] at h
  · unfold trace.fits at hf
    simpa [mul_comm] using hf

/-- When the power trace on lists has more cells than the arrays hold, `Board_Trace` fails
whatever the fuel. -/
theorem Board_Trace_none_of_overrun (n : Nat) (B : board) (x y : Int) (P : power_board)
    (k : Int) (h : (Board_Trace_list n B x y P).map (fun r => r.1.Count) = some k)
    (hk : k > BOARD_WIDTH * BOARD_HEIGHT) : ∀ fuel, Board_Trace fuel B x y P = none := by
  intro fuel
  obtain ⟨r, hr, hc⟩ := Option.map_eq_some'.mp h
  rw [Board_Trace_eq]
  cases h' : Board_Trace_list fuel B x y P with
  | none => rfl
  | some r' =>
    have : r = r' := whileTrue_unique _ n fuel _ r r' hr h'
    subst this
    have hf : r.1.fits = false := by
      unfold trace.fits
      rw [hc]
      simpa [mul_comm] using hk
    simp [hf]

set_option maxRecDepth 100000 in
/-- The power trace of `diagBoard` from the Destination at `(0, 7)`, on lists: each
Destination of the diagonal is reached along two paths of equal length and is appended once
per path, so the number of copies doubles from one Destination to the next. -/
theorem Board_Trace_list_diagBoard :
    (Board_Trace_list 78 diagBoard 0 7 power_board.zero).map (fun r => r.1.Count) = some 125 := by
  decide

/-- C24 (fails on the code). On `diagBoard` the passes of the trace from the Destination at
`(0, 7)` append 125 entries, more than the `BOARD_WIDTH*BOARD_HEIGHT = 78` that `Xs` and `Ys`
hold: an append of `Board_DoTraceIter` writes at an index outside the arrays, and
`Board_Trace` returns no trace. -/
theorem Board_Trace_diagBoard_count :
    inBounds (0, 7) ∧ diagBoard.Pieces 7 0 = PIECE_DST ∧
    (Board_Trace_list 78 diagBoard 0 7 power_board.zero).map (fun r => r.1.Count) = some 125 ∧
    ¬((125 : Int) ≤ BOARD_WIDTH * BOARD_HEIGHT) ∧
    Board_Trace 78 diagBoard 0 7 power_board.zero = none := by
  refine ⟨by unfold inBounds; decide, by decide, Board_Trace_list_diagBoard, by decide, ?_⟩
  exact Board_Trace_none_of_overrun 78 diagBoard 0 7 power_board.zero 125
    Board_Trace_list_diagBoard (by decide) 78

set_option maxRecDepth 100000 in
/-- C2 (fails on the code). On `diagBoard`, seeded at the Destination `(0, 7)`, the first
eight calls of `Board_DoTraceIter` return true and leave `Count = 61`; the ninth call appends
past the 78 entries of `Xs`/`Ys`.  The loop of `Board_Trace` reaches no call that returns
false, within 78 calls or any other number. -/
theorem Board_Trace_diagBoard_never_returns :
    (Board_DoTraceIter_times diagBoard 8
        ({ trace.zero with Cells := [(0, 7)] }, power_board.zero)).map
      (fun r => (r.1, r.2.1.Count, (Board_DoTraceIter diagBoard r.2).isSome)) =
      some (true, 61, false) ∧
    ∀ fuel, Board_Trace fuel diagBoard 0 7 power_board.zero = none := by
  refine ⟨by decide, ?_⟩
  exact Board_Trace_none_of_overrun 78 diagBoard 0 7 power_board.zero 125
    Board_Trace_list_diagBoard (by decide)

set_option maxRecDepth 100000 in
/-- The power trace of `diagFireBoard` from the Destination at `(0, 7)`, on lists. -/
theorem Board_Trace_list_diagFireBoard :
    (Board_Trace_list 78 diagFireBoard 0 7 power_board.zero).map (fun r => r.1.Count) =
      some 125 := by
  decide

/-- C9 (fails on the code). On `diagFireBoard` the first Fire cell with a fire trace of more
than one cell is `(0, 12)`, with the fire trace `[(0, 12), (0, 11)]`.  The Destination at
`(0, 7)` comes before it in raster order, and the first raster loop of `Board_GetTrace`
traces it for `Powers`: that trace appends past entry 78 of `Xs`/`Ys`, and `Board_GetTrace`
returns no trace. -/
theorem Board_GetTrace_diagFireBoard_overrun :
    rasterOrder.find? (Board_FireOverload 78 diagFireBoard) = some (0, 12) ∧
    (Board_TraceFire 78 diagFireBoard 0 12).map (fun T => T.Cells) = some [(0, 12), (0, 11)] ∧
    diagFireBoard.Pieces 7 0 = PIECE_DST ∧
    (Board_Trace_list 78 diagFireBoard 0 7 power_board.zero).map (fun r => r.1.Count) =
      some 125 ∧
    ∀ fuel, Board_GetTrace fuel diagFireBoard power_board.zero = none := by
  refine ⟨by decide, by decide, by decide, Board_Trace_list_diagFireBoard, fun fuel => ?_⟩
  have hnone := Board_Trace_none_of_overrun 78 diagFireBoard 0 7 power_board.zero 125
    Board_Trace_list_diagFireBoard (by decide) fuel
  have hr : rasterOrder = rasterOrder.take 42 ++ (0, 7) :: rasterOrder.drop 43 := by decide
  have hscan := Board_GetTrace_scanFire_none fuel diagFireBoard (0, 7) (by decide)
    (rasterOrder.drop 43) power_board.zero hnone (rasterOrder.take 42) (by decide)
  unfold Board_GetTrace
  rw [hr, hscan]

end Nettis
